import Mathlib

/-! FTP server: shallow embedding and verification.

Embedding of `ftp_server/Utility.cpp`, `ftp_server/Utility.h`, `ftp_server/Socket.cpp`
and `ftp_server/FtpSession.cpp`.

Conventions of the embedding:

* A `std::string` is a list of characters (`Str`); a `char` buffer is one too.  `size_t`
  arithmetic that can wrap is written with an explicit `% 2 ^ 64`.
* A loop is a recursive function.  A `for` loop with a known trip count recurses on the
  number of iterations left; a `while` loop recurses on a bound of the number of
  iterations, and its caller passes a bound that is large enough (the doc comment of the
  caller says why).
* The session state is the record `FtpServerPI` (with its `FtpServerDTP`).  A command
  handler is a function from the state to the new state and the list of its effects
  (`Event`): writes to the control socket, reads from and writes to the data socket,
  creation of and writes to a file, opening and closing of the data connection.
* What the operating system answers (file system, accounts file, network) is a parameter,
  the record `Host`.  A thrown `SocketException` is a `none` or a `false` in the result of
  the function that throws.  Writes to the control socket are taken to succeed.
* The control connection is the list of the bytes the client sends; after them the client
  is silent, so that `pollForRead` times out on an empty list.
-/

namespace Ftp

/-- A `std::string`: the sequence of its characters. -/
abbrev Str := List Char

/-! ## Utility.cpp -/

/-- The call `s.substr(pos, n)` for `pos ≤ s.size()`: at most `n` characters from `pos`. -/
def substr (s : Str) (pos n : Nat) : Str := (s.drop pos).take n

/-- Body of the `if` inside the loop of `normalizePath`, on the stack `curr`
(top of the stack first) and the segment `p`:
`if (p == ".." && !curr.empty()) curr.pop();`
`else if (p != "." && p != ".." && !p.empty()) curr.push(p);` -/
def normalizeStep (curr : List Str) (p : Str) : List Str :=
  if p = "..".toList ∧ curr ≠ [] then curr.tail
  else if p ≠ ".".toList ∧ p ≠ "..".toList ∧ p ≠ [] then p :: curr
  else curr

/-- The `for (i = 0; i <= path.size(); ++i)` loop of `normalizePath`; `n` is the number
of iterations left, `i` the loop index, `begin` the start of the current segment.
`path[path.size()]` is the terminating `'\0'`. -/
def normalizeScan (path : Str) : Nat → Nat → Nat → List Str → List Str
  | 0, _, _, curr => curr
  | n + 1, i, begin, curr =>
    if path.getD i '\x00' = '/' ∨ i = path.length then
      normalizeScan path n (i + 1) (i + 1) (normalizeStep curr (substr path begin (i - begin)))
    else
      normalizeScan path n (i + 1) begin curr

/-- The `while (!curr.empty())` loop of `normalizePath`:
`res = curr.top() + sep + res; sep = "/"; curr.pop();` -/
def normalizeJoin : List Str → Str → Str → Str
  | [], res, _ => res
  | top :: rest, res, sep => normalizeJoin rest (top ++ sep ++ res) "/".toList

/-- `std::string normalizePath(const std::string &path)`. -/
def normalizePath (path : Str) : Str :=
  normalizeJoin (normalizeScan path (path.length + 1) 0 0 []) [] []

/-- The call `std::string::find(token, pos)` scanning `n` candidate positions from `pos`:
the first index `i ≥ pos` at which `token` occurs, `none` for `npos`. -/
def findFrom (str token : Str) : Nat → Nat → Option Nat
  | 0, _ => none
  | n + 1, pos =>
    if token.isPrefixOf (str.drop pos) then some pos else findFrom str token n (pos + 1)

/-- The call `str.find(token, prev)`. -/
def find (str token : Str) (prev : Nat) : Option Nat :=
  findFrom str token (str.length + 1 - prev) prev

/-- The `while (pos != npos)` loop of `splitString`; `n` bounds the number of iterations
(`prev` grows by at least one each time).  Every call site passes a one-character
`token`, for which `prev` never exceeds `str.size()`. -/
def splitLoop (str token : Str) : Nat → Nat → List Str → List Str
  | 0, prev, res => res ++ [str.drop prev]
  | n + 1, prev, res =>
    match find str token prev with
    | some pos => splitLoop str token n (pos + 1) (res ++ [substr str prev (pos - prev)])
    | none => res ++ [str.drop prev]

/-- `std::vector<std::string> splitString(const std::string &str, const std::string &token)`. -/
def splitString (str token : Str) : List Str :=
  splitLoop str token (str.length + 1) 0 []

/-- The loop of `joinString(begin, end, token)`: `res += sep + *it; sep = token;`. -/
def joinLoop (token : Str) : List Str → Str → Str → Str
  | [], res, _ => res
  | x :: rest, res, sep => joinLoop token rest (res ++ (sep ++ x)) token

/-- `std::string joinString(Iter begin, Iter end, const std::string &token)` on the
elements of the range. -/
def joinString (items : List Str) (token : Str) : Str := joinLoop token items [] []

/-- The loop of `toUnsignedInt<UnsigedInt>` with `max = numeric_limits<UnsigedInt>::max()`;
`num` is the `uint64_t` accumulator.  The result is the return code (`0`, `1`, `-1`) and
the final `num`. -/
def toUnsignedIntLoop (max : Nat) : Str → Nat → Int × Nat
  | [], num => (0, num)
  | c :: rest, num =>
    if '0' ≤ c ∧ c ≤ '9' then
      let digit := c.toNat - '0'.toNat
      if num ≤ max - digit then toUnsignedIntLoop max rest ((num * 10 + digit) % 2 ^ 64)
      else (1, num)
    else (-1, num)

/-- `int toUnsignedInt(const std::string &str, UnsigedInt &res)`: the return code and, when
it is `0`, the value stored by `res = num` (the conversion to `UnsigedInt` keeps `num`
modulo `max + 1`); `res` is not written otherwise. -/
def toUnsignedInt (max : Nat) (str : Str) : Int × Option Nat :=
  match toUnsignedIntLoop max str 0 with
  | (0, num) => (0, some (num % (max + 1)))
  | (code, _) => (code, none)

/-- `std::numeric_limits<uint8_t>::max()`. -/
def UINT8_MAX : Nat := 255

/-- `std::numeric_limits<uint16_t>::max()`. -/
def UINT16_MAX : Nat := 65535

/-- The fields of `struct stat` read by the server. -/
structure Stat where
  st_mode : Nat
  st_nlink : Nat
  st_size : Int
  st_atime : Int
  st_mtime : Int
  st_ctime : Int

/-- The file type mask `S_IFMT` of `<sys/stat.h>`. -/
def S_IFMT : Nat := 0o170000
/-- The file type `S_IFDIR` of `<sys/stat.h>`. -/
def S_IFDIR : Nat := 0o040000
/-- The file type `S_IFREG` of `<sys/stat.h>`. -/
def S_IFREG : Nat := 0o100000
/-- Permission bit `S_IRUSR`. -/
def S_IRUSR : Nat := 0o400
/-- Permission bit `S_IWUSR`. -/
def S_IWUSR : Nat := 0o200
/-- Permission bit `S_IXUSR`. -/
def S_IXUSR : Nat := 0o100
/-- Permission bit `S_IRGRP`. -/
def S_IRGRP : Nat := 0o040
/-- Permission bit `S_IWGRP`. -/
def S_IWGRP : Nat := 0o020
/-- Permission bit `S_IXGRP`. -/
def S_IXGRP : Nat := 0o010
/-- Permission bit `S_IROTH`. -/
def S_IROTH : Nat := 0o004
/-- Permission bit `S_IWOTH`. -/
def S_IWOTH : Nat := 0o002
/-- Permission bit `S_IXOTH`. -/
def S_IXOTH : Nat := 0o001

/-- The test `S_ISDIR(m)`. -/
def S_ISDIR (m : Nat) : Bool := m &&& S_IFMT = S_IFDIR

/-- The test `S_ISREG(m)`. -/
def S_ISREG (m : Nat) : Bool := m &&& S_IFMT = S_IFREG

/-- The expression `(mode & bit ? yes : "-")` of `printFileStat`. -/
def permChar (mode bit : Nat) (yes : Char) : Char :=
  if mode &&& bit ≠ 0 then yes else '-'

/-- The ten characters written first by `printFileStat`. -/
def modeString (mode : Nat) : Str :=
  [ if S_ISDIR mode then 'd' else '-',
    permChar mode S_IRUSR 'r', permChar mode S_IWUSR 'w', permChar mode S_IXUSR 'x',
    permChar mode S_IRGRP 'r', permChar mode S_IWGRP 'w', permChar mode S_IXGRP 'x',
    permChar mode S_IROTH 'r', permChar mode S_IWOTH 'w', permChar mode S_IXOTH 'x' ]

/-- Decimal output of an unsigned integer (`std::to_string`, `stream << n`). -/
def to_string (n : Nat) : Str := Nat.toDigits 10 n

/-- Decimal output of a signed integer (`stream << fstat.st_size`). -/
def intToStr : Int → Str
  | Int.ofNat n => to_string n
  | Int.negSucc n => '-' :: to_string (n + 1)

/-- `void printFileStat(std::ostream &stream, const struct stat &fstat)`: the characters
written to the stream.  `strftime` stands for the formatting
`strftime(date, 20, "%b %d %H:%M", localtime(&t))` of a `time_t`. -/
def printFileStat (strftime : Int → Str) (fstat : Stat) : Str :=
  modeString fstat.st_mode ++ "\t".toList ++ to_string fstat.st_nlink ++ "\t".toList
    ++ intToStr fstat.st_size ++ "\t".toList ++ strftime fstat.st_ctime

/-! ## Socket.h, Socket.cpp -/

/-- `enum NetProtocol`. -/
inductive NetProtocol where
  | UNSPECIFIED
  | IPv4
  | IPv6
  deriving DecidableEq, Repr

/-- A `Socket` value as the session sees it: the default-constructed invalid socket
(`sockfd == -1`), a listening socket bound to a port, or a connected stream. -/
inductive Socket where
  | invalid
  | listening (port : Nat) (protocol : NetProtocol)
  | connected
  deriving DecidableEq, Repr

/-- The loop of `Socket::readline(buf, size)` over the bytes `pending` still to arrive on
the descriptor; `buf` holds the `readSoFar` bytes stored so far.  The result is the filled
part of the buffer and the bytes left unread.  An exhausted `pending` is `rn == 0`. -/
def readlineLoop (size : Nat) : Str → Str → Str × Str
  | [], buf => (buf, [])
  | ch :: rest, buf =>
    if ch ≠ '\n' ∧ (buf ++ [ch]).length < size then readlineLoop size rest (buf ++ [ch])
    else (buf ++ [ch], rest)

/-- `std::size_t Socket::readline(char *buf, std::size_t size)`: the bytes stored in `buf`
(their number is the return value) and the bytes left unread. -/
def readline (pending : Str) (size : Nat) : Str × Str := readlineLoop size pending []

/-- One call of the system `read(fd, p, n)` on a stream with bytes `pending`: it returns at
least one and at most `n` of them, never more than `chunk + 1` at once. -/
def sysRead (chunk : Nat) (pending : Str) (n : Nat) : Str :=
  pending.take (min n (chunk + 1))

/-- The `while (readSoFar < size)` loop of `Socket::read(buf, size)`; `fuel` bounds the
iterations (each stores at least one byte), `buf` holds the bytes stored so far.  The
result is `none` when `read` returned `-1` (a `SocketException` is thrown), otherwise the
filled part of the buffer and the bytes left unread.  The stream ends with end-of-file, or
with an error when `err` is set. -/
def socketReadLoop (chunk : Nat) (err : Bool) (size : Nat) :
    Nat → Str → Str → Option (Str × Str)
  | 0, pending, buf => some (buf, pending)
  | fuel + 1, pending, buf =>
    if buf.length < size then
      if pending = [] then (if err then none else some (buf, []))
      else
        let got := sysRead chunk pending (size - buf.length)
        socketReadLoop chunk err size fuel (pending.drop got.length) (buf ++ got)
    else some (buf, pending)

/-- `std::size_t Socket::read(Byte *buf, std::size_t size)`. -/
def socketRead (chunk : Nat) (err : Bool) (pending : Str) (size : Nat) : Option (Str × Str) :=
  socketReadLoop chunk err size size pending []

/-! ## FtpSession.h, FtpSession.cpp -/

/-- The constant `BUF_MAX`. -/
def BUF_MAX : Nat := 2048

/-- `enum TransferMode`. -/
inductive TransferMode where
  | ASCII
  | BINARY
  deriving DecidableEq, Repr

/-- The values of `enum FtpCode` used by the server. -/
def COMMAND_OK : Nat := 200
/-- Reply code 500. -/
def COMMAND_NOT_RECOGNIZED : Nat := 500
/-- Reply code 501. -/
def COMMAND_ARGS_NOT_RECOGNIZED : Nat := 501
/-- Reply code 503. -/
def BAD_SEQUENCE_COMMAND : Nat := 503
/-- Reply code 504. -/
def COMMAND_NOT_IMPLEMENTED_FOR_ARGS : Nat := 504
/-- Reply code 220. -/
def SERVICE_READY : Nat := 220
/-- Reply code 221. -/
def SERVICE_CLOSE_CTRL_CONNECTION : Nat := 221
/-- Reply code 421. -/
def SERVICE_UNAVAILABLE : Nat := 421
/-- Reply code 425. -/
def CANNOT_OPEN_DATA_CONNECTION : Nat := 425
/-- Reply code 226. -/
def CLOSE_DATA_CONNECTION_REQUEST_FILE_ACTION_SUCCESS : Nat := 226
/-- Reply code 426. -/
def CONNECTION_CLOSE_TRANSFER_ABORT : Nat := 426
/-- Reply code 227. -/
def ENTERING_PASSIVE_MODE : Nat := 227
/-- Reply code 230. -/
def USER_LOGGED_IN_PROCCEED : Nat := 230
/-- Reply code 530. -/
def USER_NOT_LOGGED_IN : Nat := 530
/-- Reply code 331. -/
def USER_OK_PASSWORD_NEEDED : Nat := 331
/-- Reply code 150. -/
def FILE_STATUS_OK_OPEN_DATA_CONNECTION : Nat := 150
/-- Reply code 250. -/
def REQUESTED_FILE_ACTION_COMPLETED : Nat := 250
/-- Reply code 257. -/
def PATHNAME_CREATED : Nat := 257
/-- Reply code 550. -/
def REQUESTED_FILE_ACTION_NOT_TAKEN_FILE_UNAVAILABLE : Nat := 550
/-- Reply code 451. -/
def REQUESTED_ACTION_ABORTED_LOCAL_ERROR_PROCESSING : Nat := 451
/-- Reply code 522. -/
def NETWORK_PROTOCOL_NOT_SUPPORTED : Nat := 522
/-- Reply code 229. -/
def ENTERING_EXTENDED_PASSIVE_MODE : Nat := 229

/-- `FtpServerDTP::USABLE_PORT_MIN`. -/
def USABLE_PORT_MIN : Nat := 1024

/-- `FtpServerDTP::USABLE_PORT_MAX`, the largest `uint16_t`. -/
def USABLE_PORT_MAX : Nat := 65535

/-- The state of a `std::istream`: the characters not yet extracted and the `eofbit` and
`failbit` flags. -/
structure IStream where
  rest : Str
  eof : Bool
  fail : Bool
  deriving DecidableEq, Repr

/-- An input stream over `content` in the good state (a `stringstream` holding `content`,
or an `ifstream` that opened a file with this content). -/
def IStream.ofContent (content : Str) : IStream := ⟨content, false, false⟩

/-- An `ifstream` whose file could not be opened. -/
def IStream.failed : IStream := ⟨[], false, true⟩

/-- The call `data.read(buf, n)`: the `gcount()` characters stored and the new stream
state.  A stream that is not good extracts nothing and gets `failbit`; reaching the end
before `n` characters sets `eofbit | failbit`. -/
def IStream.read (d : IStream) (n : Nat) : Str × IStream :=
  if d.eof ∨ d.fail then ([], { d with fail := true })
  else if n ≤ d.rest.length then (d.rest.take n, { d with rest := d.rest.drop n })
  else (d.rest, ⟨[], true, true⟩)

/-- The call `std::getline(data, line)` on a fresh `line`: the line and the new stream
state.  Characters are extracted up to a `'\n'`, which is discarded, or up to the end,
which sets `eofbit`; extracting nothing at all sets `failbit`. -/
def IStream.getline (d : IStream) : Str × IStream :=
  if d.eof ∨ d.fail then ([], { d with fail := true })
  else
    match d.rest.span (fun c => c != '\n') with
    | (line, []) => (line, ⟨[], true, line.isEmpty⟩)
    | (line, _ :: rest) => (line, { d with rest := rest })

/-- The `while (data)` loop of `FtpServerDTP::Impl::writeBinaryMode`: the buffers passed
to `dataSock.write`, in order.  `fuel` bounds the iterations. -/
def writeBinaryLoop : Nat → IStream → List Str → List Str
  | 0, _, out => out
  | fuel + 1, data, out =>
    if data.fail then out
    else
      let r := data.read BUF_MAX
      writeBinaryLoop fuel r.2 (out ++ [r.1])

/-- `void FtpServerDTP::Impl::writeBinaryMode(std::istream &data)`.  Every iteration but
the last extracts `BUF_MAX` characters, so `rest.length + 2` iterations are enough. -/
def writeBinaryMode (data : IStream) : List Str :=
  writeBinaryLoop (data.rest.length + 2) data []

/-- The statements `line.back() = '\r'; line += "\n";` on a non-empty `line`: the last
character is overwritten. -/
def terminateLine (line : Str) : Str := line.dropLast ++ "\r\n".toList

/-- The `while (data)` loop of `FtpServerDTP::Impl::writeAsciiMode`: the buffers passed to
`dataSock.write`, in order.  `fuel` bounds the iterations. -/
def writeAsciiLoop : Nat → IStream → List Str → List Str
  | 0, _, out => out
  | fuel + 1, data, out =>
    if data.fail then out
    else
      let r := data.getline
      let line := if r.1 ≠ [] then terminateLine r.1 else r.1
      writeAsciiLoop fuel r.2 (out ++ [line])

/-- `void FtpServerDTP::Impl::writeAsciiMode(std::istream &data)`.  Every iteration but
the last two extracts at least one character, so `rest.length + 2` iterations are enough. -/
def writeAsciiMode (data : IStream) : List Str :=
  writeAsciiLoop (data.rest.length + 2) data []

/-- `struct FtpServerDTP::Impl`. -/
structure FtpServerDTP where
  passiveSock : Socket
  dataSock : Socket
  receiverIP : Str
  netProtocol : NetProtocol
  transferMode : TransferMode
  port : Nat
  activeMode : Bool
  connectSetup : Bool
  deriving DecidableEq, Repr

/-- `FtpServerDTP::FtpServerDTP()`. -/
def FtpServerDTP.init : FtpServerDTP :=
  { passiveSock := Socket.invalid, dataSock := Socket.invalid, receiverIP := [],
    netProtocol := NetProtocol.UNSPECIFIED, transferMode := TransferMode.ASCII,
    port := USABLE_PORT_MIN, activeMode := true, connectSetup := false }

/-- `void FtpServerDTP::setTransferMode(TransferMode mode)`. -/
def FtpServerDTP.setTransferMode (d : FtpServerDTP) (mode : TransferMode) : FtpServerDTP :=
  { d with transferMode := mode }

/-- `bool FtpServerDTP::doesDataConnectSetup() const`. -/
def FtpServerDTP.doesDataConnectSetup (d : FtpServerDTP) : Bool := d.connectSetup

/-- `void FtpServerDTP::closeDataConnect()`. -/
def FtpServerDTP.closeDataConnect (d : FtpServerDTP) : FtpServerDTP :=
  { d with passiveSock := Socket.invalid, dataSock := Socket.invalid, receiverIP := [],
           netProtocol := NetProtocol.UNSPECIFIED, port := USABLE_PORT_MIN,
           activeMode := true, connectSetup := false }

/-- `void FtpServerDTP::setupActiveMode(receiverIP, port, protocol)`. -/
def FtpServerDTP.setupActiveMode (d : FtpServerDTP) (receiverIP : Str) (port : Nat)
    (protocol : NetProtocol) : FtpServerDTP :=
  { d with receiverIP := receiverIP, netProtocol := protocol, port := port,
           activeMode := true, connectSetup := true }

/-- `void FtpServerDTP::writeData(std::istream &data)`: the buffers passed to
`dataSock.write`, in order. -/
def FtpServerDTP.writeData (d : FtpServerDTP) (data : IStream) : List Str :=
  match d.transferMode with
  | TransferMode.BINARY => writeBinaryMode data
  | TransferMode.ASCII => writeAsciiMode data

/-- The `while ((rn = dataSock.read(buf, BUF_MAX)) != 0)` loop of `FtpServerDTP::readData`
over the bytes `pending` arriving on the data socket: the buffers passed to `data.write`,
in order, and whether the loop ended normally (`false`: a `SocketException` left it). -/
def readDataLoop (chunk : Nat) (err : Bool) : Nat → Str → List Str → List Str × Bool
  | 0, _, out => (out, true)
  | fuel + 1, pending, out =>
    match socketRead chunk err pending BUF_MAX with
    | none => (out, false)
    | some (buf, rest) =>
      if buf.length ≠ 0 then readDataLoop chunk err fuel rest (out ++ [buf])
      else (out, true)

/-- `void FtpServerDTP::readData(std::ostream &data)`.  Every iteration but the last
consumes at least one byte, so `pending.length + 1` iterations are enough. -/
def readData (chunk : Nat) (err : Bool) (pending : Str) : List Str × Bool :=
  readDataLoop chunk err (pending.length + 1) pending []

/-- The shared state variables of `class FtpServerPI`, with the `FtpServerDTP` it owns. -/
structure FtpServerPI where
  username : Str
  userNativeHomeDir : Str
  userWorkingDir : Str
  EPSVexclusive : Bool
  loggedIn : Bool
  quit : Bool
  ftpDTP : FtpServerDTP
  deriving DecidableEq, Repr

/-- `FtpServerPI::FtpServerPI(Socket ctrlSock, std::string accountsFile)`. -/
def FtpServerPI.init : FtpServerPI :=
  { username := [], userNativeHomeDir := [], userWorkingDir := [], EPSVexclusive := false,
    loggedIn := false, quit := false, ftpDTP := FtpServerDTP.init }

/-- An effect of the session on the outside world, in the order of occurrence. -/
inductive Event where
  | ctrlWrite (bytes : Str)
  | dataOpen
  | dataWrite (bytes : Str)
  | dataRead (bytes : Str)
  | dataClose
  | fileCreate (path : Str)
  | fileWrite (path : Str) (bytes : Str)
  deriving DecidableEq, Repr

/-- What the host system answers to the calls the session makes. -/
structure Host where
  /-- The content of the accounts file, `none` when it cannot be opened. -/
  accountsFile : Option Str
  /-- The system call `stat(path, &fstat)`, `none` when it fails. -/
  stat : Str → Option Stat
  /-- The names `readdir` returns for `opendir(path)`, `none` when `opendir` fails. -/
  opendir : Str → Option (List Str)
  /-- The formatting of a `time_t` by `strftime(.., "%b %d %H:%M", localtime(..))`. -/
  strftime : Int → Str
  /-- The content read through `std::ifstream file(path)`, `none` when the open fails. -/
  readFile : Str → Option Str
  /-- Whether `std::ofstream file(path)` opens the file. -/
  createFile : Str → Bool
  /-- The text returned by `Socket::IPAddr` on the control socket. -/
  serverIPAddr : Str
  /-- Whether `Socket::listen(port, QUEUE_MAX, protocol)` succeeds. -/
  listen : Nat → NetProtocol → Bool
  /-- Whether `Socket::connect(host, port)` succeeds. -/
  connect : Str → Nat → Bool
  /-- Whether `Socket::accept(listenSock)` succeeds. -/
  accept : Socket → Bool
  /-- The number of `dataSock.write` calls that complete before one throws, `none` when
  none throws. -/
  sendFailsAt : Option Nat
  /-- The bytes the peer sends on the data connection. -/
  dataIn : Str
  /-- One less than the largest number of bytes a single system `read` returns. -/
  dataChunk : Nat
  /-- Whether the data connection ends with a read error instead of end-of-file. -/
  dataErr : Bool

/-- `bool isDiretory(const std::string &directory)`. -/
def isDiretory (host : Host) (directory : Str) : Bool :=
  match host.stat directory with
  | some fstat => S_ISDIR fstat.st_mode
  | none => false

/-- `bool isRegularFile(const std::string &file)`. -/
def isRegularFile (host : Host) (file : Str) : Bool :=
  match host.stat file with
  | some fstat => S_ISREG fstat.st_mode
  | none => false

/-- `void FtpServerPI::writeCtrl(FtpCode code, const std::string &msg)`: the write of
`std::to_string(code) + " " + msg + "\r\n"` to the control socket. -/
def writeCtrl (code : Nat) (msg : Str) : Event :=
  Event.ctrlWrite (to_string code ++ " ".toList ++ msg ++ "\r\n".toList)

/-- The `for` loop of `FtpServerPI::Impl::parseCommandLine`; `n` is the number of
iterations left and `i` the index.  The `size_t` length arguments of `substr` wrap. -/
def parseLoop (input : Str) : Nat → Nat → List Str
  | 0, _ => [substr input 0 ((input.length + 2 ^ 64 - 2) % 2 ^ 64)]
  | n + 1, i =>
    if input.getD i '\x00' = ' ' then
      let cmd := substr input 0 i
      let rest := substr input (i + 1) ((input.length + 2 ^ 64 - i - 3) % 2 ^ 64)
      if rest ≠ [] then [cmd, rest] else [cmd]
    else parseLoop input n (i + 1)

/-- `std::vector<std::string> parseCommandLine(const std::string &input)`. -/
def parseCommandLine (input : Str) : List Str := parseLoop input input.length 0

/-- The conversion of the `char` buffer `input` (terminated by `input[rn] = '\0'`) to the
`std::string` argument of `parseCommandLine`: the characters before the first `'\0'`. -/
def cstr (buf : Str) : Str := buf.takeWhile (fun c => c != '\x00')

/-- The function `::toupper` in the C locale. -/
def toupper (c : Char) : Char := c.toUpper

/-- `std::string FtpCommand::convertToNativePath(const std::string &userPath)`. -/
def convertToNativePath (ftpPI : FtpServerPI) (userPath : Str) : Str :=
  if userPath ≠ [] then
    let absolutePath := userPath.getD 0 '\x00' = '/'
    let nativePath :=
      if absolutePath then normalizePath userPath
      else normalizePath (ftpPI.userWorkingDir ++ "/".toList ++ userPath)
    "/".toList ++ ftpPI.userNativeHomeDir ++ "/".toList ++ nativePath
  else
    "/".toList ++ ftpPI.userNativeHomeDir ++ "/".toList ++ ftpPI.userWorkingDir

/-- `void TYPECommand::execute(const std::vector<std::string> &args)`. -/
def TYPECommand.execute (ftpPI : FtpServerPI) (args : List Str) : FtpServerPI × List Event :=
  if args.length ≠ 2 then
    (ftpPI, [writeCtrl COMMAND_ARGS_NOT_RECOGNIZED "Cannot recognize code type".toList])
  else
    let a := args.getD 1 []
    if a = "a".toList ∨ a = "A".toList then
      ({ ftpPI with ftpDTP := ftpPI.ftpDTP.setTransferMode TransferMode.ASCII },
        [writeCtrl COMMAND_OK "Switch to ASCII mode".toList])
    else if a = "i".toList ∨ a = "I".toList then
      ({ ftpPI with ftpDTP := ftpPI.ftpDTP.setTransferMode TransferMode.BINARY },
        [writeCtrl COMMAND_OK "Switch to BINARY mode".toList])
    else
      (ftpPI, [writeCtrl COMMAND_NOT_IMPLEMENTED_FOR_ARGS
        ("Type ".toList ++ a ++ " not implemented".toList)])

/-- `void USERCommand::execute(const std::vector<std::string> &args)`. -/
def USERCommand.execute (ftpPI : FtpServerPI) (args : List Str) : FtpServerPI × List Event :=
  let username : Str := if args.length = 2 then args.getD 1 [] else []
  if ¬ ftpPI.loggedIn then
    ({ ftpPI with username := username },
      [writeCtrl USER_OK_PASSWORD_NEEDED "Please specify the password".toList])
  else if ftpPI.username = username then
    (ftpPI, [writeCtrl USER_OK_PASSWORD_NEEDED "Any password will do".toList])
  else
    (ftpPI, [writeCtrl USER_NOT_LOGGED_IN "Can\x27t change to another user".toList])

/-- The white space skipped by `operator>>` on a string (`std::isspace`, C locale). -/
def isspace (c : Char) : Bool :=
  c = ' ' ∨ c = '\t' ∨ c = '\n' ∨ c = '\x0b' ∨ c = '\x0c' ∨ c = '\r'

/-- The words successive `accounts >> word` extractions yield; `cur` is the word being
read. -/
def words : Str → Str → List Str
  | [], cur => if cur = [] then [] else [cur]
  | c :: cs, cur =>
    if isspace c then (if cur = [] then words cs [] else cur :: words cs [])
    else words cs (cur ++ [c])

/-- The records `(actualUser, actualPass, actualHomeDir)` the `while` loop of
`PASSCommand::execute` reads: the words in groups of three, a shorter last group ending
the loop. -/
def records : List Str → List (Str × Str × Str)
  | u :: p :: h :: rest => (u, p, h) :: records rest
  | _ => []

/-- The accounts table read from the content of the accounts file. -/
def accountsTable (content : Str) : List (Str × Str × Str) := records (words content [])

/-- The `while` loop of `PASSCommand::execute` over the records of the accounts file: the
home directory of the record at which the loop returns, `none` when it runs to the end. -/
def passLoop (username pass : Str) : List (Str × Str × Str) → Option Str
  | [] => none
  | (actualUser, actualPass, actualHomeDir) :: rest =>
    if actualUser = username ∧ actualPass = pass then some actualHomeDir
    else passLoop username pass rest

/-- `void PASSCommand::execute(const std::vector<std::string> &args)`. -/
def PASSCommand.execute (host : Host) (ftpPI : FtpServerPI) (args : List Str) :
    FtpServerPI × List Event :=
  if ftpPI.loggedIn then
    (ftpPI, [writeCtrl USER_LOGGED_IN_PROCCEED "Already logged in".toList])
  else if ftpPI.username = [] then
    (ftpPI, [writeCtrl BAD_SEQUENCE_COMMAND "Login with USER first".toList])
  else
    let pass : Str := if args.length = 2 then args.getD 1 [] else []
    match host.accountsFile with
    | none => (ftpPI, [writeCtrl USER_NOT_LOGGED_IN "Accounts file not found".toList])
    | some content =>
      match passLoop ftpPI.username pass (accountsTable content) with
      | some actualHomeDir =>
        ({ ftpPI with loggedIn := true, userNativeHomeDir := normalizePath actualHomeDir,
                      userWorkingDir := [] },
          [writeCtrl USER_LOGGED_IN_PROCCEED "User logged in, proceed".toList])
      | none =>
        ({ ftpPI with loggedIn := false, username := [] },
          [writeCtrl USER_NOT_LOGGED_IN "Login incorrect".toList])

/-- `void PWDCommand::execute(const std::vector<std::string> &)`. -/
def PWDCommand.execute (ftpPI : FtpServerPI) (_args : List Str) : FtpServerPI × List Event :=
  let workingDir := "/".toList ++ ftpPI.userWorkingDir
  (ftpPI, [writeCtrl PATHNAME_CREATED
    ("\x22".toList ++ workingDir ++ "\x22 is the current directory".toList)])

/-- `void CWDCommand::execute(const std::vector<std::string> &args)`. -/
def CWDCommand.execute (host : Host) (ftpPI : FtpServerPI) (args : List Str) :
    FtpServerPI × List Event :=
  let userWorkingDir : Str :=
    if args.length = 2 then
      let absolutePath := (args.getD 1 []).getD 0 '\x00' = '/'
      if absolutePath then normalizePath (args.getD 1 [])
      else normalizePath (ftpPI.userWorkingDir ++ "/".toList ++ args.getD 1 [])
    else []
  if isDiretory host ("/".toList ++ ftpPI.userNativeHomeDir ++ "/".toList ++ userWorkingDir) then
    ({ ftpPI with userWorkingDir := userWorkingDir },
      [writeCtrl REQUESTED_FILE_ACTION_COMPLETED "Directory change okay".toList])
  else
    (ftpPI, [writeCtrl REQUESTED_FILE_ACTION_NOT_TAKEN_FILE_UNAVAILABLE
      "Failed to change directory".toList])

/-- `void CDUPCommand::execute(const std::vector<std::string> &)`. -/
def CDUPCommand.execute (host : Host) (ftpPI : FtpServerPI) (_args : List Str) :
    FtpServerPI × List Event :=
  let userWorkingDir := normalizePath (ftpPI.userWorkingDir ++ "/..".toList)
  if isDiretory host ("/".toList ++ ftpPI.userNativeHomeDir ++ "/".toList ++ userWorkingDir) then
    ({ ftpPI with userWorkingDir := userWorkingDir },
      [writeCtrl REQUESTED_FILE_ACTION_COMPLETED "Directory change okay".toList])
  else
    (ftpPI, [writeCtrl REQUESTED_FILE_ACTION_NOT_TAKEN_FILE_UNAVAILABLE
      "Failed to change directory".toList])

/-- `void QUITCommand::execute(const std::vector<std::string> &)`. -/
def QUITCommand.execute (ftpPI : FtpServerPI) (_args : List Str) : FtpServerPI × List Event :=
  ({ ftpPI with quit := true }, [writeCtrl SERVICE_CLOSE_CTRL_CONNECTION "Goodbye".toList])

/-- The `for` loop of `PORTCommand::execute` over the fields still to convert; `i` is
the index, `size` is `PORTArgs.size()`.  The result is `(leftPort, rightPort)`, `none`
when a conversion does not return `0`. -/
def portLoop (size : Nat) : List Str → Nat → Nat → Nat → Option (Nat × Nat)
  | [], _, leftPort, rightPort => some (leftPort, rightPort)
  | field :: rest, i, leftPort, rightPort =>
    match toUnsignedInt UINT8_MAX field with
    | (0, some num) =>
      if i = size - 2 then portLoop size rest (i + 1) num rightPort
      else if i = size - 1 then portLoop size rest (i + 1) leftPort num
      else portLoop size rest (i + 1) leftPort rightPort
    | _ => none

/-- `void PORTCommand::execute(const std::vector<std::string> &args)`. -/
def PORTCommand.execute (ftpPI : FtpServerPI) (args : List Str) : FtpServerPI × List Event :=
  if ftpPI.EPSVexclusive then
    (ftpPI, [writeCtrl REQUESTED_FILE_ACTION_NOT_TAKEN_FILE_UNAVAILABLE
      "Can only accept EPSV".toList])
  else if args.length ≠ 2 then
    (ftpPI, [writeCtrl COMMAND_ARGS_NOT_RECOGNIZED
      "Cannot recognize IP address and port number".toList])
  else
    let PORTArgs := splitString (args.getD 1 []) ",".toList
    if PORTArgs.length ≠ 6 then
      (ftpPI, [writeCtrl COMMAND_ARGS_NOT_RECOGNIZED
        "Cannot recognize IP address and port number".toList])
    else
      match portLoop PORTArgs.length PORTArgs 0 0 0 with
      | none =>
        (ftpPI, [writeCtrl COMMAND_ARGS_NOT_RECOGNIZED
          "Cannot recognize IP address and port number".toList])
      | some (leftPort, rightPort) =>
        let receiverIPAddress := joinString (PORTArgs.take 4) ".".toList
        let port := ((leftPort <<< 8) &&& 0xFFFF) ||| rightPort
        ({ ftpPI with ftpDTP :=
            ftpPI.ftpDTP.setupActiveMode receiverIPAddress port NetProtocol.IPv4 },
          [writeCtrl COMMAND_OK "PORT Command successful. Consider using PASV".toList])

/-- `void EPRTCommand::execute(const std::vector<std::string> &args)`. -/
def EPRTCommand.execute (ftpPI : FtpServerPI) (args : List Str) : FtpServerPI × List Event :=
  if ftpPI.EPSVexclusive then
    (ftpPI, [writeCtrl REQUESTED_FILE_ACTION_NOT_TAKEN_FILE_UNAVAILABLE
      "Can only accept EPSV".toList])
  else if args.length ≠ 2 ∨ (args.getD 1 []).getLast? ≠ some '|'
      ∨ (args.getD 1 []).head? ≠ some '|' then
    (ftpPI, [writeCtrl COMMAND_ARGS_NOT_RECOGNIZED "EPRT command args not recognized".toList])
  else
    let size := (args.getD 1 []).length
    let EPRTargs := splitString (substr (args.getD 1 []) 1 ((size + 2 ^ 64 - 2) % 2 ^ 64))
      "|".toList
    if EPRTargs.length ≠ 3 then
      (ftpPI, [writeCtrl COMMAND_ARGS_NOT_RECOGNIZED
        "EPRT command args not recognized".toList])
    else
      let proto := EPRTargs.getD 0 []
      if proto ≠ "1".toList ∧ proto ≠ "2".toList then
        (ftpPI, [writeCtrl NETWORK_PROTOCOL_NOT_SUPPORTED
          "Protocol not supported. use (1,2)".toList])
      else
        let protocol := if proto = "1".toList then NetProtocol.IPv4 else NetProtocol.IPv6
        let receiverIP := EPRTargs.getD 1 []
        match toUnsignedInt UINT16_MAX (EPRTargs.getD 2 []) with
        | (0, some port) =>
          ({ ftpPI with ftpDTP := ftpPI.ftpDTP.setupActiveMode receiverIP port protocol },
            [writeCtrl COMMAND_OK "EPRT Command successful. Consider using EPSV".toList])
        | _ => (ftpPI, [])

/-- The loop `for (uint16_t port = USABLE_PORT_MAX; port >= USABLE_PORT_MIN; --port)` of
`PASVCommand::execute` and `EPSVCommand::execute`: `n` is the number of ports left to try
from `port` downwards; the result is the first port on which `setupPassiveMode` does not
throw, `none` when the loop runs to its end. -/
def passiveScan (host : Host) (protocol : NetProtocol) : Nat → Nat → Option Nat
  | 0, _ => none
  | n + 1, port =>
    if host.listen port protocol then some port
    else passiveScan host protocol n (port - 1)

/-- `void FtpServerDTP::setupPassiveMode(uint16_t port, NetProtocol protocol)` when
`Socket::listen` succeeds. -/
def FtpServerDTP.setupPassiveMode (d : FtpServerDTP) (port : Nat) (protocol : NetProtocol) :
    FtpServerDTP :=
  { d with passiveSock := Socket.listening port protocol, netProtocol := protocol,
           port := port, activeMode := false, connectSetup := true }

/-- The statements `for (const auto &n : ipn) reply += n + ",";` of `PASVCommand::execute`. -/
def appendFields : List Str → Str → Str
  | [], reply => reply
  | n :: rest, reply => appendFields rest (reply ++ (n ++ ",".toList))

/-- `void PASVCommand::execute(const std::vector<std::string> &)`. -/
def PASVCommand.execute (host : Host) (ftpPI : FtpServerPI) (_args : List Str) :
    FtpServerPI × List Event :=
  if ftpPI.EPSVexclusive then
    (ftpPI, [writeCtrl REQUESTED_FILE_ACTION_NOT_TAKEN_FILE_UNAVAILABLE
      "Can only accept EPSV".toList])
  else
    match passiveScan host NetProtocol.IPv4 (USABLE_PORT_MAX + 1 - USABLE_PORT_MIN)
        USABLE_PORT_MAX with
    | none => (ftpPI, [])
    | some port =>
      let reply := appendFields (splitString host.serverIPAddr ".".toList)
        "Entering passive mode (".toList
      let p1 := to_string (port >>> 8)
      let p2 := to_string (port &&& 0x00FF)
      ({ ftpPI with ftpDTP := ftpPI.ftpDTP.setupPassiveMode port NetProtocol.IPv4 },
        [writeCtrl ENTERING_PASSIVE_MODE (reply ++ (p1 ++ ",".toList ++ p2 ++ ")".toList))])

/-- `void EPSVCommand::execute(const std::vector<std::string> &args)`. -/
def EPSVCommand.execute (host : Host) (ftpPI : FtpServerPI) (args : List Str) :
    FtpServerPI × List Event :=
  if args.length ≠ 2 then
    (ftpPI, [writeCtrl COMMAND_ARGS_NOT_RECOGNIZED "EPSV command args not recognized".toList])
  else
    let a := args.getD 1 []
    if a ≠ "1".toList ∧ a ≠ "2".toList then
      if a = "ALL".toList then
        ({ ftpPI with EPSVexclusive := true },
          [writeCtrl ENTERING_EXTENDED_PASSIVE_MODE "EPSV ALL ok".toList])
      else
        (ftpPI, [writeCtrl NETWORK_PROTOCOL_NOT_SUPPORTED
          "Protocol not supported. use (1,2)".toList])
    else
      let protocol := if a = "1".toList then NetProtocol.IPv4 else NetProtocol.IPv6
      match passiveScan host protocol (USABLE_PORT_MAX + 1 - USABLE_PORT_MIN)
          USABLE_PORT_MAX with
      | none => (ftpPI, [])
      | some port =>
        ({ ftpPI with ftpDTP := ftpPI.ftpDTP.setupPassiveMode port protocol },
          [writeCtrl ENTERING_EXTENDED_PASSIVE_MODE
            ("Entering extended passive mode (|||".toList ++ to_string port ++ "|)".toList)])

/-- `void FtpServerDTP::openData()`: the new state, `none` when `Socket::connect` or
`Socket::accept` throws. -/
def FtpServerDTP.openData (host : Host) (d : FtpServerDTP) : Option FtpServerDTP :=
  if d.activeMode then
    (if host.connect d.receiverIP d.port then some { d with dataSock := Socket.connected }
     else none)
  else
    (if host.accept d.passiveSock then some { d with dataSock := Socket.connected }
     else none)

/-- The `dataSock.write` calls of a transfer that take effect, given the number of calls
after which one throws, and whether all of them completed. -/
def sendAll (failsAt : Option Nat) (writes : List Str) : List Event × Bool :=
  match failsAt with
  | none => (writes.map Event.dataWrite, true)
  | some k =>
    if k < writes.length then ((writes.take k).map Event.dataWrite, false)
    else (writes.map Event.dataWrite, true)

/-- The `while ((dirent = readdir(dir)) != nullptr)` loop of `LISTCommand::execute`: the
text appended to `directoryList` for the entries still to read. -/
def listEntries (host : Host) (nativePath : Str) : List Str → Str
  | [] => []
  | d_name :: rest =>
    if d_name = ".".toList ∨ d_name = "..".toList then listEntries host nativePath rest
    else
      match host.stat (nativePath ++ "/".toList ++ d_name) with
      | some fstat =>
        printFileStat host.strftime fstat ++ "\t".toList ++ d_name ++ "\r\n".toList
          ++ listEntries host nativePath rest
      | none => listEntries host nativePath rest

/-- The characters of `nativePath` after its last `/`:
`nativePath.substr(nativePath.find_last_of("/") + 1)`. -/
def afterLastSlash (nativePath : Str) : Str :=
  (nativePath.reverse.takeWhile (fun c => c != '/')).reverse

/-- The content of `directoryList` built by `LISTCommand::execute` for `nativePath`. -/
def directoryList (host : Host) (nativePath : Str) : Str :=
  match host.opendir nativePath with
  | some entries => listEntries host nativePath entries
  | none =>
    match host.stat nativePath with
    | some fstat =>
      printFileStat host.strftime fstat ++ "\t".toList ++ afterLastSlash nativePath
        ++ "\r\n".toList
    | none => []

/-- The part of `LISTCommand::execute` and `RETRCommand::execute` from the comment
`check if data connection setup` to the end: `data` is the stream to send, `msg150` and
`msg226` are the texts of the two replies. -/
def sendOverData (host : Host) (ftpPI : FtpServerPI) (data : IStream) (msg150 msg226 : Str) :
    FtpServerPI × List Event :=
  if ¬ ftpPI.ftpDTP.doesDataConnectSetup then
    ({ ftpPI with ftpDTP := ftpPI.ftpDTP.closeDataConnect },
      [Event.dataClose, writeCtrl CANNOT_OPEN_DATA_CONNECTION
        "Failed open data connection".toList])
  else
    match ftpPI.ftpDTP.openData host with
    | none =>
      ({ ftpPI with ftpDTP := ftpPI.ftpDTP.closeDataConnect },
        [Event.dataClose, writeCtrl CANNOT_OPEN_DATA_CONNECTION
          "Failed open data connection".toList])
    | some opened =>
      let sent := sendAll host.sendFailsAt (opened.writeData data)
      ({ ftpPI with ftpDTP := opened.closeDataConnect },
        [Event.dataOpen, writeCtrl FILE_STATUS_OK_OPEN_DATA_CONNECTION msg150] ++ sent.1
          ++ [Event.dataClose,
              if sent.2 then writeCtrl CLOSE_DATA_CONNECTION_REQUEST_FILE_ACTION_SUCCESS msg226
              else writeCtrl CONNECTION_CLOSE_TRANSFER_ABORT
                "Data connection close transfer abort".toList])

/-- `void LISTCommand::execute(const std::vector<std::string> &args)`. -/
def LISTCommand.execute (host : Host) (ftpPI : FtpServerPI) (args : List Str) :
    FtpServerPI × List Event :=
  let nativePath :=
    if args.length = 2 then convertToNativePath ftpPI (args.getD 1 [])
    else convertToNativePath ftpPI []
  sendOverData host ftpPI (IStream.ofContent (directoryList host nativePath))
    "Here come the directory listing".toList "Directory listing sent OK".toList

/-- `void RETRCommand::execute(const std::vector<std::string> &args)`. -/
def RETRCommand.execute (host : Host) (ftpPI : FtpServerPI) (args : List Str) :
    FtpServerPI × List Event :=
  let nativePath :=
    if args.length = 2 then convertToNativePath ftpPI (args.getD 1 [])
    else convertToNativePath ftpPI []
  let file :=
    match host.readFile nativePath with
    | some content => IStream.ofContent content
    | none => IStream.failed
  if ¬ isRegularFile host nativePath then
    (ftpPI, [writeCtrl REQUESTED_FILE_ACTION_NOT_TAKEN_FILE_UNAVAILABLE
      "Failed to open file".toList])
  else
    sendOverData host ftpPI file "Open data connection for file transfer".toList
      "Data connection close file sent OK".toList

/-- The effects of the loop of `FtpServerDTP::readData` for the buffers it fills: each is
read from the data socket and then written to the file. -/
def storeEvents (nativePath : Str) : List Str → List Event
  | [] => []
  | buf :: rest =>
    Event.dataRead buf :: Event.fileWrite nativePath buf :: storeEvents nativePath rest

/-- `void STORCommand::execute(const std::vector<std::string> &args)`. -/
def STORCommand.execute (host : Host) (ftpPI : FtpServerPI) (args : List Str) :
    FtpServerPI × List Event :=
  let nativePath :=
    if args.length = 2 then convertToNativePath ftpPI (args.getD 1 [])
    else convertToNativePath ftpPI []
  if ¬ host.createFile nativePath then
    (ftpPI, [writeCtrl REQUESTED_ACTION_ABORTED_LOCAL_ERROR_PROCESSING
      "Failed to create file".toList])
  else if ¬ ftpPI.ftpDTP.doesDataConnectSetup then
    ({ ftpPI with ftpDTP := ftpPI.ftpDTP.closeDataConnect },
      [Event.fileCreate nativePath, Event.dataClose,
        writeCtrl CANNOT_OPEN_DATA_CONNECTION "Failed open data connection".toList])
  else
    match ftpPI.ftpDTP.openData host with
    | none =>
      ({ ftpPI with ftpDTP := ftpPI.ftpDTP.closeDataConnect },
        [Event.fileCreate nativePath, Event.dataClose,
          writeCtrl CANNOT_OPEN_DATA_CONNECTION "Failed open data connection".toList])
    | some opened =>
      let received := readData host.dataChunk host.dataErr host.dataIn
      ({ ftpPI with ftpDTP := opened.closeDataConnect },
        [Event.fileCreate nativePath, Event.dataOpen,
          writeCtrl FILE_STATUS_OK_OPEN_DATA_CONNECTION
            "Open data connection for file transfer".toList]
          ++ storeEvents nativePath received.1
          ++ [Event.dataClose,
              if received.2 then
                writeCtrl CLOSE_DATA_CONNECTION_REQUEST_FILE_ACTION_SUCCESS
                  "Data connection close file sent OK".toList
              else writeCtrl CONNECTION_CLOSE_TRANSFER_ABORT
                "Data connection close transfer abort".toList])

/-- The type of `FtpCommand::execute` in this embedding: from the host, the session state
and `args` to the new session state and the effects, in order. -/
abbrev Execute := Host → FtpServerPI → List Str → FtpServerPI × List Event

/-- The map `loginCommands` filled by the constructor of `FtpServerPI`. -/
def loginCommands : List (Str × Execute) :=
  [ ("USER".toList, fun _ => USERCommand.execute),
    ("PASS".toList, PASSCommand.execute),
    ("QUIT".toList, fun _ => QUITCommand.execute) ]

/-- The map `commands` filled by the constructor of `FtpServerPI`. -/
def commands : List (Str × Execute) :=
  [ ("TYPE".toList, fun _ => TYPECommand.execute),
    ("PWD".toList, fun _ => PWDCommand.execute),
    ("CWD".toList, CWDCommand.execute),
    ("CDUP".toList, CDUPCommand.execute),
    ("PORT".toList, fun _ => PORTCommand.execute),
    ("EPRT".toList, fun _ => EPRTCommand.execute),
    ("PASV".toList, PASVCommand.execute),
    ("EPSV".toList, EPSVCommand.execute),
    ("LIST".toList, LISTCommand.execute),
    ("RETR".toList, RETRCommand.execute),
    ("STOR".toList, STORCommand.execute) ]

/-- The outcome of one iteration of the command loop: the control bytes left unread, the
new session state, the effects of the iteration, and whether the loop goes on (`false`
after a `break`). -/
structure Iteration where
  pending : Str
  ftpPI : FtpServerPI
  events : List Event
  goesOn : Bool
  deriving DecidableEq, Repr

/-- The part of the body of the `while (true)` loop of `FtpServerPI::run` from the comment
`command is a login command` on, for the `args` whose first element is already in upper
case: the new session state, the effects and whether the loop goes on. -/
def dispatchArgs (host : Host) (ftpPI : FtpServerPI) (args : List Str) :
    FtpServerPI × List Event × Bool :=
  match loginCommands.lookup (args.headD []) with
  | some loginCmd =>
    let r := loginCmd host ftpPI args
    (r.1, r.2, true)
  | none =>
    let r : FtpServerPI × List Event :=
      match commands.lookup (args.headD []) with
      | none => (ftpPI, [writeCtrl COMMAND_NOT_RECOGNIZED "Unrecognized command".toList])
      | some cmd =>
        if ftpPI.loggedIn then cmd host ftpPI args
        else (ftpPI, [writeCtrl USER_NOT_LOGGED_IN "Not logged in".toList])
    (r.1, r.2, !r.1.quit)

/-- The part of the body of the `while (true)` loop of `FtpServerPI::run` that follows
`input[rn] = '\0'`, on the `rn` bytes `buf` read by `readline`: the new session state, the
effects and whether the loop goes on. -/
def dispatch (host : Host) (ftpPI : FtpServerPI) (buf : Str) : FtpServerPI × List Event × Bool :=
  let args := parseCommandLine (cstr buf)
  if args = [] then
    (ftpPI, [writeCtrl COMMAND_NOT_RECOGNIZED "Command empty".toList], true)
  else
    dispatchArgs host ftpPI ((args.headD []).map toupper :: args.tail)

/-- One iteration of the `while (true)` loop of `FtpServerPI::run`, on the control bytes
`pending` the client has sent and the server has not read yet.  The client sends nothing
after them: on an empty `pending` the call `pollForRead(TIME_OUT)` returns `0`. -/
def runStep (host : Host) (pending : Str) (ftpPI : FtpServerPI) : Iteration :=
  if pending = [] then
    ⟨pending, ftpPI, [writeCtrl SERVICE_UNAVAILABLE "Time out".toList], false⟩
  else
    let r := readline pending BUF_MAX
    if r.1.length ≥ BUF_MAX then
      ⟨r.2, ftpPI, [writeCtrl COMMAND_NOT_RECOGNIZED "Command too long".toList], true⟩
    else
      let d := dispatch host ftpPI r.1
      ⟨r.2, d.1, d.2.1, d.2.2⟩

/-- The `while (true)` loop of `FtpServerPI::run`; `fuel` bounds the number of iterations,
`trace` holds the effects so far.  The result is `none` when the bound is reached before
the loop is left. -/
def runLoop (host : Host) : Nat → Str → FtpServerPI → List Event →
    Option (FtpServerPI × List Event)
  | 0, _, _, _ => none
  | fuel + 1, pending, ftpPI, trace =>
    let it := runStep host pending ftpPI
    if it.goesOn then runLoop host fuel it.pending it.ftpPI (trace ++ it.events)
    else some (it.ftpPI, trace ++ it.events)

/-- `void FtpServerPI::run()` on a fresh session whose client sends the bytes `pending`:
the final session state and all effects.  Every iteration that goes on reads at least one
byte, so `pending.length + 1` iterations are enough. -/
def run (host : Host) (pending : Str) : Option (FtpServerPI × List Event) :=
  runLoop host (pending.length + 1) pending FtpServerPI.init
    [writeCtrl SERVICE_READY "Service ready".toList]

/-- The session state after the command loop has run one iteration for each host of the
list (the host system may change from one iteration to the next), or fewer when the loop
is left earlier. -/
def iterate : List Host → Str → FtpServerPI → FtpServerPI
  | [], _, ftpPI => ftpPI
  | host :: hosts, pending, ftpPI =>
    if (runStep host pending ftpPI).goesOn then
      iterate hosts (runStep host pending ftpPI).pending (runStep host pending ftpPI).ftpPI
    else (runStep host pending ftpPI).ftpPI

/-- A command that never clears `EPSVexclusive`. -/
def KeepsLock (f : Execute) : Prop :=
  ∀ (host : Host) (ftpPI : FtpServerPI) (args : List Str),
    ftpPI.EPSVexclusive = true → (f host ftpPI args).1.EPSVexclusive = true

/-- A command that keeps the property `P` of the session state on every host that
satisfies `H`. -/
def KeepsOn (H : Host → Prop) (P : FtpServerPI → Prop) (f : Execute) : Prop :=
  ∀ (host : Host) (ftpPI : FtpServerPI) (args : List Str),
    H host → P ftpPI → P (f host ftpPI args).1

/-- The working directory is in normalized form. -/
def WdNormal (ftpPI : FtpServerPI) : Prop :=
  normalizePath ftpPI.userWorkingDir = ftpPI.userWorkingDir

/-- The session state `b` has the home directory, the working directory and the login
flag of `a`. -/
def SameLogin (a b : FtpServerPI) : Prop :=
  b.userNativeHomeDir = a.userNativeHomeDir ∧ b.userWorkingDir = a.userWorkingDir
    ∧ b.loggedIn = a.loggedIn

/-- A command that changes neither the home directory, nor the working directory, nor the
login flag. -/
def KeepsLogin (f : Execute) : Prop :=
  ∀ (host : Host) (ftpPI : FtpServerPI) (args : List Str),
    SameLogin ftpPI (f host ftpPI args).1

/-- A logged-in session has a non-empty home directory. -/
def HomeSet (ftpPI : FtpServerPI) : Prop :=
  ftpPI.loggedIn = true → ftpPI.userNativeHomeDir ≠ []

/-- No home directory of the accounts table of the host normalizes to the empty string. -/
def HomesNonEmpty (host : Host) : Prop :=
  ∀ content : Str, host.accountsFile = some content →
    ∀ r ∈ accountsTable content, normalizePath r.2.2 ≠ []

/-- The value of the decimal numeral `f` read after the digits whose value is `num`. -/
def decimalFrom (num : Nat) (f : Str) : Nat :=
  f.foldl (fun n c => n * 10 + (c.toNat - '0'.toNat)) num

/-- The value of the decimal numeral `f`. -/
def decimalValue (f : Str) : Nat := decimalFrom 0 f

/-- A field of the argument of `PORT` as the specification wants it: a decimal numeral
(one digit at least, leading zeros allowed) with a value in `[0, 255]`. -/
def PortField (f : Str) : Prop :=
  f ≠ [] ∧ (∀ c ∈ f, '0' ≤ c ∧ c ≤ '9') ∧ decimalValue f ≤ 255

/-- The fields joined with the separator `c` between neighbours. -/
def joinFields (c : Char) : List Str → Str
  | [] => []
  | [f] => f
  | f :: g :: fs => f ++ c :: joinFields c (g :: fs)

/-- No carriage return and no line feed occurs in `s`. -/
def NoBreak (s : Str) : Prop := '\r' ∉ s ∧ '\n' ∉ s

instance (s : Str) : Decidable (NoBreak s) := by
  unfold NoBreak
  infer_instance

/-- The reply has the single-line form: three digits, one space, a text without carriage
return and line feed, and `CR LF` at the end. -/
def SingleLine (reply : Str) : Prop :=
  6 ≤ reply.length ∧ (∀ c ∈ reply.take 3, c.isDigit = true) ∧
    (reply.drop 3).take 1 = " ".toList ∧
    NoBreak ((reply.drop 4).take (reply.length - 6)) ∧
    reply.drop (reply.length - 2) = "\r\n".toList

instance (reply : Str) : Decidable (SingleLine reply) := by
  unfold SingleLine
  infer_instance

/-- The values of `enum FtpCode` that the `execute` functions of the commands pass to
`writeCtrl` (all but `COMMAND_NOT_RECOGNIZED`, `SERVICE_READY` and
`SERVICE_UNAVAILABLE`, which only `FtpServerPI::run` writes). -/
def handlerCodes : List Nat :=
  [COMMAND_OK, COMMAND_ARGS_NOT_RECOGNIZED, BAD_SEQUENCE_COMMAND,
    COMMAND_NOT_IMPLEMENTED_FOR_ARGS, SERVICE_CLOSE_CTRL_CONNECTION,
    CANNOT_OPEN_DATA_CONNECTION, CLOSE_DATA_CONNECTION_REQUEST_FILE_ACTION_SUCCESS,
    CONNECTION_CLOSE_TRANSFER_ABORT, ENTERING_PASSIVE_MODE, USER_LOGGED_IN_PROCCEED,
    USER_NOT_LOGGED_IN, USER_OK_PASSWORD_NEEDED, FILE_STATUS_OK_OPEN_DATA_CONNECTION,
    REQUESTED_FILE_ACTION_COMPLETED, PATHNAME_CREATED,
    REQUESTED_FILE_ACTION_NOT_TAKEN_FILE_UNAVAILABLE,
    REQUESTED_ACTION_ABORTED_LOCAL_ERROR_PROCESSING, NETWORK_PROTOCOL_NOT_SUPPORTED,
    ENTERING_EXTENDED_PASSIVE_MODE]

/-- The effect `e`, if it is a write to the control socket, is a `writeCtrl` of a code of
`handlerCodes` with a message that has no line break when `ok` holds. -/
def Reply (ok : Prop) (e : Event) : Prop :=
  ∀ bytes : Str, e = Event.ctrlWrite bytes →
    ∃ (code : Nat) (msg : Str), code ∈ handlerCodes ∧ (ok → NoBreak msg)
      ∧ e = writeCtrl code msg

/-- Every effect of the list satisfies `Reply ok`. -/
def Replies (ok : Prop) (events : List Event) : Prop := ∀ e ∈ events, Reply ok e

/-- What a command echoes has no line break: its argument, the working directory and the
address of the server. -/
def Harmless (host : Host) (ftpPI : FtpServerPI) (args : List Str) : Prop :=
  NoBreak (args.getD 1 []) ∧ NoBreak ftpPI.userWorkingDir ∧ NoBreak host.serverIPAddr

/-- The command writes replies of `handlerCodes` only, without line breaks when what it
echoes has none. -/
def RepliesOK (f : Execute) : Prop :=
  ∀ (host : Host) (ftpPI : FtpServerPI) (args : List Str),
    Replies (Harmless host ftpPI args) (f host ftpPI args).2

/-- The text made of the lines `texts`, each followed by `CR LF`. -/
def crlfText (texts : List Str) : Str :=
  (texts.map (fun t => t ++ "\r\n".toList)).flatten

/-! ## Concrete sessions and hosts -/

/-- A logged-in session in which `EPSV ALL` has been accepted. -/
def lockedSession : FtpServerPI :=
  { FtpServerPI.init with username := "alice".toList, userNativeHomeDir := "srv/alice".toList,
                          loggedIn := true, EPSVexclusive := true }

/-- The text made of the given lines, each followed by `LF`. -/
def unlines : List Str → Str
  | [] => []
  | line :: rest => line ++ '\n' :: unlines rest

/-- The bytes written to the file `path`, in order. -/
def fileBytes (path : Str) : List Event → Str
  | [] => []
  | Event.fileWrite p bytes :: rest =>
    if p = path then bytes ++ fileBytes path rest else fileBytes path rest
  | _ :: rest => fileBytes path rest

/-- The `nativePath` computed at the start of `LISTCommand::execute`,
`RETRCommand::execute` and `STORCommand::execute`. -/
def nativePathOf (ftpPI : FtpServerPI) (args : List Str) : Str :=
  if args.length = 2 then convertToNativePath ftpPI (args.getD 1 [])
  else convertToNativePath ftpPI []

/-- The replies written to the control socket, in order. -/
def ctrlReplies : List Event → List Str
  | [] => []
  | Event.ctrlWrite bytes :: rest => bytes :: ctrlReplies rest
  | _ :: rest => ctrlReplies rest

/-- The bytes written to the data socket, in order. -/
def dataBytes : List Event → Str
  | [] => []
  | Event.dataWrite bytes :: rest => bytes ++ dataBytes rest
  | _ :: rest => dataBytes rest

/-- A host with no accounts file, an empty file system and a network on which every
operation succeeds. -/
def Host.plain : Host :=
  { accountsFile := none, stat := fun _ => none, opendir := fun _ => none,
    strftime := fun _ => [], readFile := fun _ => none, createFile := fun _ => false,
    serverIPAddr := "127.0.0.1".toList, listen := fun _ _ => true,
    connect := fun _ _ => true, accept := fun _ => true, sendFailsAt := none,
    dataIn := [], dataChunk := 0, dataErr := false }

/-- An accounts file that lists `alice` twice, with two home directories. -/
def accountsText : Str :=
  "bob hunter2 /srv/bob\nalice secret /srv//alice/\nalice secret /tmp\n".toList

/-- A host with the accounts file `accountsText`. -/
def accountsHost : Host := { Host.plain with accountsFile := some accountsText }

/-- A session in which `USER alice` has been accepted. -/
def aliceSession : FtpServerPI :=
  { FtpServerPI.init with username := "alice".toList, userWorkingDir := "old".toList }

/-- A logged-in session in BINARY mode after a successful `PORT 10,0,0,1,4,0`. -/
def transferSession : FtpServerPI :=
  { FtpServerPI.init with
    username := "alice".toList, userNativeHomeDir := "srv/alice".toList, loggedIn := true,
    ftpDTP := (FtpServerDTP.init.setupActiveMode "10.0.0.1".toList 1024
      NetProtocol.IPv4).setTransferMode TransferMode.BINARY }

/-- The session `transferSession` in ASCII mode. -/
def asciiSession : FtpServerPI :=
  { transferSession with
    ftpDTP := transferSession.ftpDTP.setTransferMode TransferMode.ASCII }

/-- The DTP of `transferSession` after `openData`. -/
def transferOpened : FtpServerDTP :=
  { transferSession.ftpDTP with dataSock := Socket.connected }

/-- A host on which files can be created and whose data peer sends `hello`. -/
def uploadHost : Host :=
  { Host.plain with createFile := fun _ => true, dataIn := "hello".toList, dataChunk := 1 }

/-- A host on which every path is a regular file with content `hello`. -/
def downloadHost : Host :=
  { Host.plain with
    stat := fun _ => some ⟨S_IFREG ||| 0o644, 1, 5, 0, 0, 0⟩,
    readFile := fun _ => some "hello".toList }

/-- A host on which the ports above 65530 are taken. -/
def busyHost : Host := { Host.plain with listen := fun port _ => decide (port ≤ 65530) }

/-- A formatting of a time in seconds as `hour:minute`, in the place of
`strftime(date, 20, "%b %d %H:%M", localtime(&t))`. -/
def clockFormat (t : Int) : Str :=
  to_string (t / 3600 % 24).toNat ++ ":".toList ++ to_string (t / 60 % 60).toNat

/-- The `stat` record of a regular file with mode `rw-r--r--`, modified at second 0, whose
status changed at second 0. -/
def statEarly : Stat := ⟨S_IFREG ||| 0o644, 1, 5, 0, 0, 0⟩

/-- The record `statEarly` with a status change at second 3600: the same type,
permissions, link count, size and modification time. -/
def statLate : Stat := { statEarly with st_ctime := 3600 }

/-- A host that formats times with `clockFormat` and on which every path is the file
`statLate`. -/
def clockHost : Host :=
  { Host.plain with strftime := clockFormat, stat := fun _ => some statLate }

/-- A host whose accounts file gives `root` the home directory `/`. -/
def rootHost : Host := { Host.plain with accountsFile := some "root pw /\n".toList }

/-- A host with the accounts file `accountsText` on which every path is a directory. -/
def homeHost : Host :=
  { accountsHost with stat := fun _ => some ⟨S_IFDIR ||| 0o755, 2, 4096, 0, 0, 0⟩ }

/-! ## Reference definition of normalization (the specification's wording) -/

/-- Split a string on `/`: the segments between consecutive separators, in order. -/
def splitOnSlash : Str → List Str
  | [] => [[]]
  | c :: cs =>
    if c = '/' then [] :: splitOnSlash cs
    else
      match splitOnSlash cs with
      | [] => [[c]]
      | s :: ss => (c :: s) :: ss

/-- One step of the reference fold over a stack of kept segments (top first): a `..` pops
the stack if it is non-empty and is otherwise discarded, `.` and empty segments are
skipped, any other segment is pushed. -/
def refStep (stack : List Str) (seg : Str) : List Str :=
  if seg = "..".toList then stack.tail
  else if seg = ".".toList ∨ seg = [] then stack
  else seg :: stack

/-- Join segments with a single `/` between neighbours. -/
def joinSlash : List Str → Str
  | [] => []
  | [s] => s
  | s :: t :: rest => s ++ '/' :: joinSlash (t :: rest)

/-- Reference normalization: split on `/`, fold the segments left to right over a stack,
join the kept segments bottom-to-top with `/`. -/
def normalizeRef (p : Str) : Str :=
  joinSlash ((splitOnSlash p).foldl refStep []).reverse

/-- A kept segment: non-empty, without `/`, and neither `.` nor `..`. -/
def GoodSeg (s : Str) : Prop :=
  s ≠ [] ∧ '/' ∉ s ∧ s ≠ ".".toList ∧ s ≠ "..".toList

/-- Character-at-a-time form of the scanning loop: `seg` is the segment read so far. -/
def scanChars : Str → Str → List Str → List Str
  | [], seg, curr => normalizeStep curr seg
  | c :: cs, seg, curr =>
    if c = '/' then scanChars cs [] (normalizeStep curr seg)
    else scanChars cs (seg ++ [c]) curr

/-- The segments after the first one, each preceded by its `/`. -/
def tailSegs : List Str → Str
  | [] => []
  | s :: t => '/' :: s ++ tailSegs t

/-- Prepend the characters `seg` to the first segment of a split. -/
def consSeg (seg : Str) : List Str → List Str
  | [] => [seg]
  | s :: ss => (seg ++ s) :: ss

/-- No two neighbouring characters are both `/`. -/
def NoSlashPair (a b : Char) : Prop := ¬ (a = '/' ∧ b = '/')

/-! ## Path normalization: proofs -/

theorem refStep_eq_normalizeStep (curr : List Str) (p : Str) :
    normalizeStep curr p = refStep curr p := by
  unfold normalizeStep refStep
  by_cases h1 : p = ['.', '.']
  · cases curr <;> simp [h1]
  · by_cases h2 : p = ['.']
    · simp [h2]
    · by_cases h3 : p = []
      · simp [h3]
      · simp [h1, h2, h3]

theorem splitOnSlash_ne_nil (p : Str) : splitOnSlash p ≠ [] := by
  cases p with
  | nil => simp [splitOnSlash]
  | cons c cs =>
    unfold splitOnSlash
    split
    · simp
    · split <;> simp

theorem splitOnSlash_cons_of_ne (c : Char) (cs : Str) (h : c ≠ '/') :
    splitOnSlash (c :: cs) = consSeg [c] (splitOnSlash cs) := by
  rw [splitOnSlash]
  simp only [h, if_false]
  cases hs : splitOnSlash cs with
  | nil => exact absurd hs (splitOnSlash_ne_nil cs)
  | cons s ss => simp [consSeg]

theorem consSeg_nil_of_ne_nil (l : List Str) (h : l ≠ []) : consSeg [] l = l := by
  cases l with
  | nil => exact absurd rfl h
  | cons s ss => simp [consSeg]

theorem consSeg_consSeg (a b : Str) (l : List Str) (h : l ≠ []) :
    consSeg a (consSeg b l) = consSeg (a ++ b) l := by
  cases l with
  | nil => exact absurd rfl h
  | cons s ss => simp [consSeg]

theorem scanChars_eq_foldl (cs : Str) :
    ∀ (seg : Str) (curr : List Str),
      scanChars cs seg curr = (consSeg seg (splitOnSlash cs)).foldl normalizeStep curr := by
  induction cs with
  | nil => intro seg curr; simp [scanChars, splitOnSlash, consSeg]
  | cons c cs ih =>
    intro seg curr
    by_cases hc : c = '/'
    · subst hc
      rw [scanChars]
      simp only [if_true]
      rw [ih, consSeg_nil_of_ne_nil _ (splitOnSlash_ne_nil cs)]
      simp [splitOnSlash, consSeg]
    · rw [scanChars]
      simp only [hc, if_false]
      rw [ih, splitOnSlash_cons_of_ne c cs hc,
        consSeg_consSeg _ _ _ (splitOnSlash_ne_nil cs)]

theorem substr_succ (path : Str) (b i : Nat) (hb : b ≤ i) (hi : i < path.length) :
    substr path b (i + 1 - b) = substr path b (i - b) ++ [path.getD i '\x00'] := by
  unfold substr
  have h1 : i + 1 - b = (i - b) + 1 := by omega
  rw [h1, List.take_succ]
  congr 1
  have h2 : b + (i - b) = i := by omega
  simp [List.getElem?_drop, h2, List.getD_eq_getElem?_getD, List.getElem?_eq_getElem hi]

theorem drop_eq_getD_cons (path : Str) (i : Nat) (hi : i < path.length) :
    path.drop i = path.getD i '\x00' :: path.drop (i + 1) := by
  rw [List.getD_eq_getElem?_getD, List.getElem?_eq_getElem hi]
  simp

theorem normalizeScan_eq_scanChars (path : Str) (n : Nat) :
    ∀ (i b : Nat) (curr : List Str), b ≤ i → i ≤ path.length → n = path.length + 1 - i →
      normalizeScan path n i b curr
        = scanChars (path.drop i) (substr path b (i - b)) curr := by
  induction n with
  | zero => intro i b curr _ hi hn; omega
  | succ n ih =>
    intro i b curr hb hi hn
    rcases Nat.lt_or_ge i path.length with hlt | hge
    · have hd := drop_eq_getD_cons path i hlt
      rw [normalizeScan, hd, scanChars]
      have hne : i ≠ path.length := by omega
      by_cases hc : path.getD i '\x00' = '/'
      · simp only [hc, true_or, if_true]
        rw [ih (i + 1) (i + 1) _ (le_refl _) (by omega) (by omega)]
        simp [substr]
      · simp only [hc, hne, or_self, if_false]
        rw [ih (i + 1) b curr (by omega) (by omega) (by omega), substr_succ path b i hb hlt]
    · have hieq : i = path.length := by omega
      have hn0 : n = 0 := by omega
      subst hn0
      rw [normalizeScan]
      simp only [hieq, or_true, if_true, normalizeScan]
      simp [scanChars]

theorem normalizeScan_eq_foldl (path : Str) :
    normalizeScan path (path.length + 1) 0 0 [] = (splitOnSlash path).foldl refStep [] := by
  rw [normalizeScan_eq_scanChars path _ 0 0 [] (le_refl _) (Nat.zero_le _) (by omega)]
  rw [scanChars_eq_foldl]
  have : substr path 0 (0 - 0) = [] := by simp [substr]
  rw [this, List.drop_zero, consSeg_nil_of_ne_nil _ (splitOnSlash_ne_nil path)]
  congr 1
  funext curr p
  exact refStep_eq_normalizeStep curr p

theorem joinSlash_cons (s : Str) (t : List Str) : joinSlash (s :: t) = s ++ tailSegs t := by
  induction t generalizing s with
  | nil => simp [joinSlash, tailSegs]
  | cons x t ih => rw [joinSlash, ih x]; simp [tailSegs]

theorem tailSegs_append (l₁ l₂ : List Str) : tailSegs (l₁ ++ l₂) = tailSegs l₁ ++ tailSegs l₂ := by
  induction l₁ with
  | nil => simp [tailSegs]
  | cons x t ih => simp [tailSegs, ih]

theorem joinSlash_snoc (l : List Str) (a : Str) (h : l ≠ []) :
    joinSlash (l ++ [a]) = joinSlash l ++ '/' :: a := by
  cases l with
  | nil => exact absurd rfl h
  | cons s t =>
    rw [List.cons_append, joinSlash_cons, joinSlash_cons, tailSegs_append]
    simp [tailSegs]

theorem normalizeJoin_slash (stack : List Str) :
    ∀ res : Str, normalizeJoin stack res "/".toList = joinSlash (stack.reverse ++ [res]) := by
  induction stack with
  | nil => intro res; simp [normalizeJoin, joinSlash]
  | cons top rest ih =>
    intro res
    rw [normalizeJoin, ih, List.reverse_cons]
    by_cases hr : rest.reverse = []
    · simp [hr, joinSlash]
    · rw [joinSlash_snoc _ _ hr, List.append_assoc,
        joinSlash_snoc _ _ (by simp), joinSlash_snoc _ _ hr]
      simp

theorem normalizeJoin_eq_joinSlash (stack : List Str) :
    normalizeJoin stack [] [] = joinSlash stack.reverse := by
  cases stack with
  | nil => simp [normalizeJoin, joinSlash]
  | cons top rest =>
    rw [normalizeJoin, normalizeJoin_slash]
    simp

theorem normalizePath_eq_normalizeRef (p : Str) : normalizePath p = normalizeRef p := by
  unfold normalizePath normalizeRef
  rw [normalizeScan_eq_foldl, normalizeJoin_eq_joinSlash]

theorem splitOnSlash_no_slash (p : Str) : ∀ seg ∈ splitOnSlash p, '/' ∉ seg := by
  induction p with
  | nil => simp [splitOnSlash]
  | cons c cs ih =>
    by_cases hc : c = '/'
    · subst hc
      intro seg hseg
      simp only [splitOnSlash, if_true, List.mem_cons] at hseg
      rcases hseg with h | h
      · simp [h]
      · exact ih seg h
    · rw [splitOnSlash_cons_of_ne c cs hc]
      cases hs : splitOnSlash cs with
      | nil => exact absurd hs (splitOnSlash_ne_nil cs)
      | cons s ss =>
        rw [hs] at ih
        intro seg hseg
        simp only [consSeg, List.mem_cons] at hseg
        rcases hseg with h | h
        · subst h
          have := ih s (by simp)
          simp only [List.singleton_append, List.mem_cons, not_or]
          exact ⟨fun h => hc h.symm, this⟩
        · exact ih seg (by simp [h])

theorem refStep_good (stack : List Str) (seg : Str) (hs : ∀ x ∈ stack, GoodSeg x)
    (hseg : '/' ∉ seg) : ∀ x ∈ refStep stack seg, GoodSeg x := by
  unfold refStep
  by_cases h1 : seg = ['.', '.']
  · simp only [String.toList, h1, if_true]
    intro x hx
    exact hs x (List.mem_of_mem_tail hx)
  · by_cases h2 : seg = ['.'] ∨ seg = []
    · simp only [String.toList, h1, h2, if_true, if_false]
      exact hs
    · simp only [String.toList, h1, h2, if_false]
      intro x hx
      rcases List.mem_cons.1 hx with h | h
      · subst h
        refine ⟨fun h => h2 (Or.inr h), hseg, fun h => h2 (Or.inl h), h1⟩
      · exact hs x h

theorem foldl_refStep_good (segs : List Str) :
    ∀ stack : List Str, (∀ x ∈ stack, GoodSeg x) → (∀ seg ∈ segs, '/' ∉ seg) →
      ∀ x ∈ segs.foldl refStep stack, GoodSeg x := by
  induction segs with
  | nil => intro stack hs _; simpa using hs
  | cons seg segs ih =>
    intro stack hs hsegs
    rw [List.foldl_cons]
    exact ih _ (refStep_good stack seg hs (hsegs seg (by simp)))
      (fun s h => hsegs s (by simp [h]))

/-- The normalized path is the `/`-join of a list of kept segments. -/
theorem normalizePath_eq_join_good (p : Str) :
    ∃ goods : List Str, (∀ x ∈ goods, GoodSeg x) ∧ normalizePath p = joinSlash goods := by
  refine ⟨((splitOnSlash p).foldl refStep []).reverse, ?_, ?_⟩
  · intro x hx
    exact foldl_refStep_good _ [] (by simp) (splitOnSlash_no_slash p) x (List.mem_reverse.1 hx)
  · rw [normalizePath_eq_normalizeRef]; rfl

theorem splitOnSlash_of_no_slash (s : Str) (h : '/' ∉ s) : splitOnSlash s = [s] := by
  induction s with
  | nil => simp [splitOnSlash]
  | cons c cs ih =>
    simp only [List.mem_cons, not_or] at h
    rw [splitOnSlash_cons_of_ne c cs (fun hc => h.1 hc.symm), ih h.2]
    simp [consSeg]

theorem splitOnSlash_append_slash (s rest : Str) (h : '/' ∉ s) :
    splitOnSlash (s ++ '/' :: rest) = s :: splitOnSlash rest := by
  induction s with
  | nil => simp [splitOnSlash]
  | cons c cs ih =>
    simp only [List.mem_cons, not_or] at h
    rw [List.cons_append, splitOnSlash_cons_of_ne c _ (fun hc => h.1 hc.symm), ih h.2]
    simp [consSeg]

theorem splitOnSlash_tailSegs (s : Str) (t : List Str) (hs : '/' ∉ s)
    (ht : ∀ x ∈ t, '/' ∉ x) : splitOnSlash (s ++ tailSegs t) = s :: t := by
  induction t generalizing s with
  | nil => simpa [tailSegs] using splitOnSlash_of_no_slash s hs
  | cons x t ih =>
    rw [tailSegs, List.cons_append, splitOnSlash_append_slash s _ hs,
      ih x (ht x (by simp)) (fun y hy => ht y (by simp [hy]))]

theorem splitOnSlash_joinSlash (goods : List Str) (hne : goods ≠ [])
    (h : ∀ x ∈ goods, '/' ∉ x) : splitOnSlash (joinSlash goods) = goods := by
  cases goods with
  | nil => exact absurd rfl hne
  | cons s t =>
    rw [joinSlash_cons]
    exact splitOnSlash_tailSegs s t (h s (by simp)) (fun y hy => h y (by simp [hy]))

theorem foldl_refStep_goods (goods : List Str) (h : ∀ x ∈ goods, GoodSeg x) :
    ∀ stack : List Str, goods.foldl refStep stack = goods.reverse ++ stack := by
  induction goods with
  | nil => intro stack; simp
  | cons s t ih =>
    intro stack
    have hs := h s (by simp)
    have hstep : refStep stack s = s :: stack := by
      unfold refStep
      have h1 : ¬ s = ['.', '.'] := hs.2.2.2
      have h2 : ¬ s = ['.'] := hs.2.2.1
      have h3 : ¬ s = [] := hs.1
      simp [h1, h2, h3]
    rw [List.foldl_cons, hstep, ih (fun y hy => h y (by simp [hy]))]
    simp

/-- A `/`-join of kept segments is a fixed point of `normalizePath`. -/
theorem normalizePath_joinSlash (goods : List Str) (h : ∀ x ∈ goods, GoodSeg x) :
    normalizePath (joinSlash goods) = joinSlash goods := by
  rw [normalizePath_eq_normalizeRef]
  unfold normalizeRef
  by_cases hne : goods = []
  · subst hne
    simp [joinSlash, splitOnSlash, refStep]
  · rw [splitOnSlash_joinSlash goods hne (fun x hx => (h x hx).2.1),
      foldl_refStep_goods goods h]
    simp

/-- Normalizing a normalized path changes nothing. -/
theorem normalizePath_joinSlash_idem (p : Str) :
    normalizePath (normalizePath p) = normalizePath p := by
  obtain ⟨goods, hg, hp⟩ := normalizePath_eq_join_good p
  rw [hp]
  exact normalizePath_joinSlash goods hg

theorem joinSlash_head (goods : List Str) (h : ∀ x ∈ goods, GoodSeg x) :
    (joinSlash goods).head? ≠ some '/' := by
  cases goods with
  | nil => simp [joinSlash]
  | cons s t =>
    rw [joinSlash_cons]
    have hs := h s (by simp)
    cases s with
    | nil => exact absurd rfl hs.1
    | cons c cs =>
      have := hs.2.1
      simp only [List.mem_cons, not_or] at this
      simp only [List.cons_append, List.head?_cons, ne_eq, Option.some.injEq]
      exact fun hc => this.1 hc.symm

theorem getLast_append_tailSegs (t : List Str) (h : ∀ x ∈ t, GoodSeg x) :
    ∀ pre : Str, pre.getLast? ≠ some '/' → (pre ++ tailSegs t).getLast? ≠ some '/' := by
  induction t with
  | nil => intro pre hp; simpa [tailSegs] using hp
  | cons x t ih =>
    intro pre _
    have hx := h x (by simp)
    have key : (pre ++ '/' :: x).getLast? ≠ some '/' := by
      have hne : '/' :: x ≠ [] := by simp
      rw [List.getLast?_append_of_ne_nil _ hne]
      cases x with
      | nil => exact absurd rfl hx.1
      | cons c cs =>
        rw [List.getLast?_cons_cons]
        intro hl
        exact hx.2.1 (List.mem_of_getLast?_eq_some hl)
    have := ih (fun y hy => h y (by simp [hy])) (pre ++ '/' :: x) key
    simpa [tailSegs] using this

theorem joinSlash_getLast (goods : List Str) (h : ∀ x ∈ goods, GoodSeg x) :
    (joinSlash goods).getLast? ≠ some '/' := by
  cases goods with
  | nil => simp [joinSlash]
  | cons s t =>
    rw [joinSlash_cons]
    have hs := h s (by simp)
    refine getLast_append_tailSegs t (fun y hy => h y (by simp [hy])) s ?_
    intro hl
    exact hs.2.1 (List.mem_of_getLast?_eq_some hl)

theorem chain_of_no_slash (s : Str) (h : '/' ∉ s) : List.Chain' NoSlashPair s := by
  induction s with
  | nil => exact List.chain'_nil
  | cons c cs ih =>
    simp only [List.mem_cons, not_or] at h
    rw [List.chain'_cons']
    refine ⟨?_, ih h.2⟩
    intro y _ hy
    exact h.1 hy.1.symm

theorem tailSegs_chain (t : List Str) (h : ∀ x ∈ t, GoodSeg x) :
    List.Chain' NoSlashPair (tailSegs t) := by
  induction t with
  | nil => exact List.chain'_nil
  | cons x t ih =>
    have hx := h x (by simp)
    rw [tailSegs, List.cons_append, List.chain'_cons']
    constructor
    · intro y hy hyy
      cases x with
      | nil => exact hx.1 rfl
      | cons c cs =>
        simp only [List.cons_append, List.head?_cons, Option.mem_def, Option.some.injEq] at hy
        subst hy
        have := hx.2.1
        simp only [List.mem_cons, not_or] at this
        exact this.1 hyy.2.symm
    · rw [List.chain'_append]
      refine ⟨chain_of_no_slash x hx.2.1, ih (fun y hy => h y (by simp [hy])), ?_⟩
      intro a ha b _ hab
      exact hx.2.1 (hab.1 ▸ List.mem_of_getLast?_eq_some ha)

theorem joinSlash_chain (goods : List Str) (h : ∀ x ∈ goods, GoodSeg x) :
    List.Chain' NoSlashPair (joinSlash goods) := by
  cases goods with
  | nil => exact List.chain'_nil
  | cons s t =>
    have hs := h s (by simp)
    rw [joinSlash_cons, List.chain'_append]
    refine ⟨chain_of_no_slash s hs.2.1, tailSegs_chain t (fun y hy => h y (by simp [hy])), ?_⟩
    intro a ha b _ hab
    exact hs.2.1 (hab.1 ▸ List.mem_of_getLast?_eq_some ha)

theorem no_double_slash_of_chain (r : Str) (h : List.Chain' NoSlashPair r) :
    ¬ ("//".toList <:+: r) := by
  intro hin
  have hc : List.Chain' NoSlashPair ['/', '/'] := h.infix hin
  rw [List.chain'_cons] at hc
  exact hc.1 ⟨rfl, rfl⟩

/-- The shape of a normalized path: no leading `/`, no `//`, no trailing `/`, and, unless
the path is empty, no segment that is `.`, `..` or empty. -/
theorem normalizePath_normal (p : Str) :
    (normalizePath p).head? ≠ some '/' ∧
    ¬ ("//".toList <:+: normalizePath p) ∧
    (normalizePath p).getLast? ≠ some '/' ∧
    (normalizePath p = [] ∨
      ∀ seg ∈ splitOnSlash (normalizePath p),
        seg ≠ ".".toList ∧ seg ≠ "..".toList ∧ seg ≠ []) := by
  obtain ⟨goods, hg, hp⟩ := normalizePath_eq_join_good p
  rw [hp]
  refine ⟨joinSlash_head goods hg, no_double_slash_of_chain _ (joinSlash_chain goods hg),
    joinSlash_getLast goods hg, ?_⟩
  by_cases hne : goods = []
  · left; subst hne; rfl
  · right
    rw [splitOnSlash_joinSlash goods hne (fun x hx => (hg x hx).2.1)]
    intro seg hseg
    exact ⟨(hg seg hseg).2.2.1, (hg seg hseg).2.2.2, (hg seg hseg).1⟩

/-- C1: chroot by rewrite.  In every session state whose `userWorkingDir` is in normalized
form and for every client path `v`, `convertToNativePath v` is
`"/" + userNativeHomeDir + "/" + q` where `q` has no leading `/` and, unless it is empty,
no segment that is `..`, `.` or empty; so the result begins with
`"/" + userNativeHomeDir + "/"`. -/
theorem convertToNativePath_chroot (ftpPI : FtpServerPI) (v : Str)
    (hwd : normalizePath ftpPI.userWorkingDir = ftpPI.userWorkingDir) :
    ∃ q : Str,
      convertToNativePath ftpPI v
        = "/".toList ++ ftpPI.userNativeHomeDir ++ "/".toList ++ q ∧
      q.head? ≠ some '/' ∧
      (q = [] ∨ ∀ seg ∈ splitOnSlash q,
        seg ≠ "..".toList ∧ seg ≠ ".".toList ∧ seg ≠ []) ∧
      ("/".toList ++ ftpPI.userNativeHomeDir ++ "/".toList) <+: convertToNativePath ftpPI v := by
  have key : ∀ p : Str, (normalizePath p).head? ≠ some '/' ∧
      (normalizePath p = [] ∨ ∀ seg ∈ splitOnSlash (normalizePath p),
        seg ≠ "..".toList ∧ seg ≠ ".".toList ∧ seg ≠ []) := by
    intro p
    obtain ⟨h1, _, _, h4⟩ := normalizePath_normal p
    refine ⟨h1, h4.imp id (fun h seg hseg => ?_)⟩
    exact ⟨(h seg hseg).2.1, (h seg hseg).1, (h seg hseg).2.2⟩
  unfold convertToNativePath
  by_cases hv : v = []
  · refine ⟨ftpPI.userWorkingDir, by simp [hv], ?_, ?_, by simp [hv]⟩
    · rw [← hwd]; exact (key _).1
    · rw [← hwd]; exact (key _).2
  · by_cases habs : v.getD 0 '\x00' = '/'
    · simp only [ne_eq, hv, not_false_eq_true, if_true, habs]
      exact ⟨normalizePath v, rfl, (key _).1, (key _).2, List.prefix_append _ _⟩
    · simp only [ne_eq, hv, not_false_eq_true, if_true, habs, if_false]
      exact ⟨normalizePath (ftpPI.userWorkingDir ++ "/".toList ++ v), rfl,
        (key _).1, (key _).2, List.prefix_append _ _⟩

/-- Witness for C1: from the working directory `a/b` the path `../../../etc/passwd`
resolves below the home directory. -/
theorem convertToNativePath_chroot_witness :
    ∃ q : Str,
      convertToNativePath
          { FtpServerPI.init with userNativeHomeDir := "srv/alice".toList,
                                  userWorkingDir := "a/b".toList }
          "../../../etc/passwd".toList
        = "/".toList ++ "srv/alice".toList ++ "/".toList ++ q ∧
      q.head? ≠ some '/' ∧
      (q = [] ∨ ∀ seg ∈ splitOnSlash q,
        seg ≠ "..".toList ∧ seg ≠ ".".toList ∧ seg ≠ []) ∧
      ("/".toList ++ "srv/alice".toList ++ "/".toList) <+:
        convertToNativePath
          { FtpServerPI.init with userNativeHomeDir := "srv/alice".toList,
                                  userWorkingDir := "a/b".toList }
          "../../../etc/passwd".toList :=
  convertToNativePath_chroot
    { FtpServerPI.init with userNativeHomeDir := "srv/alice".toList,
                            userWorkingDir := "a/b".toList }
    "../../../etc/passwd".toList (by decide)

/-- C2: for every input `p`, `normalizePath p` does not start with `/`, does not contain
two consecutive `/`, does not end with `/`, and (unless it is empty) none of its
`/`-separated segments is `.`, `..` or empty; `"/.."` and `"////"` both normalize to the
empty string. -/
theorem normalizePath_shape :
    (∀ p : Str,
      (normalizePath p).head? ≠ some '/' ∧
      ¬ ("//".toList <:+: normalizePath p) ∧
      (normalizePath p).getLast? ≠ some '/' ∧
      (normalizePath p = [] ∨
        ∀ seg ∈ splitOnSlash (normalizePath p),
          seg ≠ ".".toList ∧ seg ≠ "..".toList ∧ seg ≠ [])) ∧
    normalizePath "/..".toList = [] ∧ normalizePath "////".toList = [] :=
  ⟨normalizePath_normal, by decide, by decide⟩

/-- C3: `normalizePath` is idempotent. -/
theorem normalizePath_idempotent (p : Str) :
    normalizePath (normalizePath p) = normalizePath p := by
  obtain ⟨goods, hg, hp⟩ := normalizePath_eq_join_good p
  rw [hp]
  exact normalizePath_joinSlash goods hg

/-- C4: for every string `p`, `normalizePath p` equals the reference definition (split on
`/`, fold the segments over a stack, join bottom-to-top with `/`); the inputs of the test
suite evaluate to the expected paths. -/
theorem normalizePath_refines_reference :
    (∀ p : Str, normalizePath p = normalizeRef p) ∧
    normalizePath "a/b//c".toList = "a/b/c".toList ∧
    normalizePath "//../../a/../b//c/".toList = "b/c".toList ∧
    normalizePath "//../../this is a dir/a/b/c/../this is an another dir/./c/".toList
      = "this is a dir/a/b/this is an another dir/c".toList := by
  refine ⟨normalizePath_eq_normalizeRef, by decide, by decide, ?_⟩
  decide


/-! ## The command loop: proofs -/

theorem readlineLoop_line (size : Nat) (body rest : Str) (hb : '\n' ∉ body) :
    ∀ buf : Str, (buf ++ body).length + 1 ≤ size →
      readlineLoop size (body ++ '\n' :: rest) buf = (buf ++ body ++ ['\n'], rest) := by
  induction body with
  | nil => intro buf _; simp [readlineLoop]
  | cons c body ih =>
    intro buf hlen
    simp only [List.mem_cons, not_or] at hb
    have hc : c ≠ '\n' := fun h => hb.1 h.symm
    have hlt : (buf ++ [c]).length < size := by
      simp only [List.length_append, List.length_cons, List.length_nil] at hlen ⊢
      omega
    rw [List.cons_append, readlineLoop]
    simp only [ne_eq, hc, not_false_eq_true, hlt, and_self, if_true]
    rw [ih hb.2 (buf ++ [c]) (by
      simp only [List.length_append, List.length_cons, List.length_nil] at hlen ⊢
      omega)]
    simp

theorem readline_line (size : Nat) (body rest : Str) (hb : '\n' ∉ body)
    (hlen : body.length + 1 ≤ size) :
    readline (body ++ '\n' :: rest) size = (body ++ ['\n'], rest) := by
  unfold readline
  rw [readlineLoop_line size body rest hb [] (by simpa using hlen)]
  simp

theorem cstr_append (l₁ l₂ : Str) (h : '\x00' ∉ l₁) : cstr (l₁ ++ l₂) = l₁ ++ cstr l₂ := by
  unfold cstr
  apply List.takeWhile_append_of_pos
  intro a ha
  have : a ≠ '\x00' := fun h' => h (h' ▸ ha)
  simpa using this

theorem parseLoop_space (verb x : Str) (hv : ' ' ∉ verb) (n : Nat) :
    ∀ i : Nat, i ≤ verb.length → n = (verb ++ ' ' :: x).length - i →
      ∃ t : List Str, parseLoop (verb ++ ' ' :: x) n i = verb :: t := by
  induction n with
  | zero =>
    intro i hi hn
    simp only [List.length_append, List.length_cons] at hn
    omega
  | succ n ih =>
    intro i hi hn
    rw [parseLoop]
    rcases Nat.lt_or_ge i verb.length with hlt | hge
    · have hget : (verb ++ ' ' :: x).getD i '\x00' ≠ ' ' := by
        rw [List.getD_append _ _ _ _ hlt, List.getD_eq_getElem _ _ hlt]
        intro h
        exact hv (h ▸ List.getElem_mem hlt)
      simp only [hget, if_false]
      exact ih (i + 1) hlt (by omega)
    · have hieq : i = verb.length := by omega
      have hget : (verb ++ ' ' :: x).getD i '\x00' = ' ' := by
        rw [List.getD_append_right _ _ _ _ (by omega), hieq]
        simp
      simp only [hget, if_true]
      have hcmd : substr (verb ++ ' ' :: x) 0 i = verb := by
        simp [substr, hieq]
      rw [hcmd]
      split
      · exact ⟨_, rfl⟩
      · exact ⟨_, rfl⟩

theorem parseLoop_no_space (s : Str) (hs : ' ' ∉ s) (n : Nat) :
    ∀ i : Nat, i ≤ s.length → n = s.length - i →
      parseLoop s n i = [substr s 0 ((s.length + 2 ^ 64 - 2) % 2 ^ 64)] := by
  induction n with
  | zero => intro i _ _; rfl
  | succ n ih =>
    intro i hi hn
    have hlt : i < s.length := by omega
    rw [parseLoop]
    have hget : s.getD i '\x00' ≠ ' ' := by
      rw [List.getD_eq_getElem _ _ hlt]
      intro h
      exact hs (h ▸ List.getElem_mem hlt)
    simp only [hget, if_false]
    exact ih (i + 1) hlt (by omega)

/-- A line `verb SP x` is tokenized with `verb` as its first token. -/
theorem parseCommandLine_space (verb x : Str) (hv : ' ' ∉ verb) :
    ∃ t : List Str, parseCommandLine (verb ++ ' ' :: x) = verb :: t :=
  parseLoop_space verb x hv _ 0 (Nat.zero_le _) rfl

/-- A line `verb CR LF` is tokenized as the single token `verb`. -/
theorem parseCommandLine_bare (verb : Str) (hv : ' ' ∉ verb) (hlen : verb.length + 2 < 2 ^ 64) :
    parseCommandLine (verb ++ "\r\n".toList) = [verb] := by
  have hs : ' ' ∉ verb ++ "\r\n".toList := by
    simp only [List.mem_append, not_or]
    exact ⟨hv, by decide⟩
  unfold parseCommandLine
  rw [parseLoop_no_space _ hs (verb ++ "\r\n".toList).length 0 (Nat.zero_le _)
    (Nat.sub_zero _).symm]
  have hl : (verb ++ "\r\n".toList).length = verb.length + 2 := by simp
  have hm : (verb.length + 2 + 2 ^ 64 - 2) % 2 ^ 64 = verb.length := by
    have : verb.length + 2 + 2 ^ 64 - 2 = verb.length + 2 ^ 64 := by omega
    rw [this, Nat.add_mod_right]
    exact Nat.mod_eq_of_lt (by omega)
  rw [hl, hm]
  simp [substr]

theorem dispatch_of_tokens (host : Host) (ftpPI : FtpServerPI) (buf v : Str) (t : List Str)
    (h : parseCommandLine (cstr buf) = v :: t) :
    dispatch host ftpPI buf = dispatchArgs host ftpPI (v.map toupper :: t) := by
  unfold dispatch
  simp [h]

/-- One iteration on a line that ends with its first `LF` and fits the command buffer: the
line is consumed and handed to `dispatch`. -/
theorem runStep_of_line (host : Host) (ftpPI : FtpServerPI) (body rest : Str)
    (hb : '\n' ∉ body) (hlen : body.length + 1 < BUF_MAX) :
    runStep host (body ++ '\n' :: rest) ftpPI
      = ⟨rest, (dispatch host ftpPI (body ++ ['\n'])).1,
          (dispatch host ftpPI (body ++ ['\n'])).2.1,
          (dispatch host ftpPI (body ++ ['\n'])).2.2⟩ := by
  have hne : body ++ '\n' :: rest ≠ [] := by simp
  have hl : ¬ (body ++ ['\n']).length ≥ BUF_MAX := by
    simp only [List.length_append, List.length_cons, List.length_nil]; omega
  unfold runStep
  rw [if_neg hne, readline_line BUF_MAX body rest hb (by omega)]
  simp only [hl, if_false]

/-- The line `verb CR LF` is dispatched as the upper-cased verb alone. -/
theorem dispatch_bare (host : Host) (ftpPI : FtpServerPI) (verb : Str)
    (hsp : ' ' ∉ verb) (hnul : '\x00' ∉ verb) (hlen : verb.length + 2 < 2 ^ 64) :
    dispatch host ftpPI (verb ++ "\r\n".toList) = dispatchArgs host ftpPI [verb.map toupper] := by
  have hparse : parseCommandLine (cstr (verb ++ "\r\n".toList)) = [verb] := by
    have hc : cstr ("\r\n".toList) = "\r\n".toList := by decide
    rw [cstr_append _ _ hnul, hc]
    exact parseCommandLine_bare verb hsp hlen
  exact dispatch_of_tokens host ftpPI _ verb [] hparse

/-- The line `verb SP arg CR LF` is dispatched with the upper-cased verb as first token,
whatever `arg` is. -/
theorem dispatch_arg (host : Host) (ftpPI : FtpServerPI) (verb arg : Str)
    (hsp : ' ' ∉ verb) (hnul : '\x00' ∉ verb) :
    ∃ t : List Str, dispatch host ftpPI (verb ++ " ".toList ++ arg ++ "\r\n".toList)
      = dispatchArgs host ftpPI (verb.map toupper :: t) := by
  obtain ⟨t, hparse⟩ : ∃ t : List Str,
      parseCommandLine (cstr (verb ++ " ".toList ++ arg ++ "\r\n".toList)) = verb :: t := by
    have e : verb ++ " ".toList ++ arg ++ "\r\n".toList
        = verb ++ ' ' :: (arg ++ "\r\n".toList) := by simp
    have hc : ∀ y : Str, cstr (' ' :: y) = ' ' :: cstr y := by
      intro y; simp [cstr]
    rw [e, cstr_append _ _ hnul, hc]
    exact parseCommandLine_space verb _ hsp
  exact ⟨t, dispatch_of_tokens host ftpPI _ verb t hparse⟩

/-- One iteration on the line `verb CR LF`. -/
theorem runStep_bare (host : Host) (ftpPI : FtpServerPI) (verb rest : Str)
    (hnl : '\n' ∉ verb) (hlen : (verb ++ "\r\n".toList).length < BUF_MAX) :
    runStep host (verb ++ "\r\n".toList ++ rest) ftpPI
      = ⟨rest, (dispatch host ftpPI (verb ++ "\r\n".toList)).1,
          (dispatch host ftpPI (verb ++ "\r\n".toList)).2.1,
          (dispatch host ftpPI (verb ++ "\r\n".toList)).2.2⟩ := by
  have e : verb ++ "\r\n".toList ++ rest = (verb ++ ['\r']) ++ '\n' :: rest := by simp
  have e' : verb ++ "\r\n".toList = (verb ++ ['\r']) ++ ['\n'] := by simp
  have hbody : '\n' ∉ verb ++ ['\r'] := by
    simp only [List.mem_append, not_or]; exact ⟨hnl, by decide⟩
  simp only [List.length_append, String.toList, List.length_cons, List.length_nil] at hlen
  rw [e, e']
  exact runStep_of_line host ftpPI _ rest hbody
    (by simp only [List.length_append, List.length_cons, List.length_nil]; omega)

/-- One iteration on the line `verb SP arg CR LF`. -/
theorem runStep_arg (host : Host) (ftpPI : FtpServerPI) (verb arg rest : Str)
    (hnl : '\n' ∉ verb) (harg : '\n' ∉ arg)
    (hlen : (verb ++ " ".toList ++ arg ++ "\r\n".toList).length < BUF_MAX) :
    runStep host (verb ++ " ".toList ++ arg ++ "\r\n".toList ++ rest) ftpPI
      = ⟨rest, (dispatch host ftpPI (verb ++ " ".toList ++ arg ++ "\r\n".toList)).1,
          (dispatch host ftpPI (verb ++ " ".toList ++ arg ++ "\r\n".toList)).2.1,
          (dispatch host ftpPI (verb ++ " ".toList ++ arg ++ "\r\n".toList)).2.2⟩ := by
  have e : verb ++ " ".toList ++ arg ++ "\r\n".toList ++ rest
      = (verb ++ ' ' :: (arg ++ ['\r'])) ++ '\n' :: rest := by simp
  have e' : verb ++ " ".toList ++ arg ++ "\r\n".toList
      = (verb ++ ' ' :: (arg ++ ['\r'])) ++ ['\n'] := by simp
  have hbody : '\n' ∉ verb ++ ' ' :: (arg ++ ['\r']) := by
    simp only [List.mem_append, List.mem_cons, not_or]
    exact ⟨hnl, by decide, harg, by decide, by simp⟩
  simp only [List.length_append, String.toList, List.length_cons, List.length_nil] at hlen
  rw [e, e']
  exact runStep_of_line host ftpPI _ rest hbody
    (by simp only [List.length_append, List.length_cons, List.length_nil]; omega)

theorem readlineLoop_rest_le (size : Nat) (pending : Str) :
    ∀ buf : Str, (readlineLoop size pending buf).2.length ≤ pending.length := by
  induction pending with
  | nil => intro buf; simp [readlineLoop]
  | cons ch rest ih =>
    intro buf
    rw [readlineLoop]
    split
    · exact Nat.le_succ_of_le (ih _)
    · simp

theorem runStep_pending_lt (host : Host) (pending : Str) (ftpPI : FtpServerPI)
    (h : pending ≠ []) : (runStep host pending ftpPI).pending.length < pending.length := by
  have hr : (readline pending BUF_MAX).2.length < pending.length := by
    cases pending with
    | nil => exact absurd rfl h
    | cons ch rest =>
      unfold readline
      rw [readlineLoop]
      split
      · exact Nat.lt_succ_of_le (readlineLoop_rest_le _ _ _)
      · simp
  simp only [runStep, h, if_false]
  split <;> exact hr

/-- The bound on the iterations of the command loop is never reached: an iteration that
goes on has read at least one byte. -/
theorem runLoop_isSome (host : Host) (fuel : Nat) :
    ∀ (pending : Str) (ftpPI : FtpServerPI) (trace : List Event), pending.length < fuel →
      (runLoop host fuel pending ftpPI trace).isSome = true := by
  induction fuel with
  | zero => intro pending ftpPI trace h; omega
  | succ fuel ih =>
    intro pending ftpPI trace h
    rw [runLoop]
    by_cases hp : pending = []
    · subst hp
      simp [runStep]
    · split
      · exact ih _ _ _ (by have := runStep_pending_lt host pending ftpPI hp; omega)
      · rfl

/-- The model of `FtpServerPI::run` always yields a result. -/
theorem run_isSome (host : Host) (pending : Str) : (run host pending).isSome = true :=
  runLoop_isSome host _ pending _ _ (Nat.lt_succ_self _)

theorem not_mem_of_map_toupper (verb g : Str) (c : Char) (h : verb.map toupper = g)
    (hc : toupper c = c) (hg : c ∉ g) : c ∉ verb := by
  intro hmem
  apply hg
  rw [← h, ← hc]
  exact List.mem_map_of_mem toupper hmem

theorem dispatchArgs_gated (host : Host) (ftpPI : FtpServerPI) (g : Str) (t : List Str)
    (hg : g ∈ ["TYPE".toList, "PWD".toList, "CWD".toList, "CDUP".toList, "PORT".toList,
      "EPRT".toList, "PASV".toList, "EPSV".toList, "LIST".toList, "RETR".toList,
      "STOR".toList])
    (hlog : ftpPI.loggedIn = false) :
    dispatchArgs host ftpPI (g :: t)
      = (ftpPI, [Event.ctrlWrite "530 Not logged in\r\n".toList], !ftpPI.quit) := by
  simp only [List.mem_cons, List.mem_singleton, List.not_mem_nil, or_false] at hg
  rcases hg with h | h | h | h | h | h | h | h | h | h | h <;>
    · subst h
      simp [dispatchArgs, loginCommands, commands, List.lookup, hlog]
      decide

theorem gated_chars (g : Str)
    (hg : g ∈ ["TYPE".toList, "PWD".toList, "CWD".toList, "CDUP".toList, "PORT".toList,
      "EPRT".toList, "PASV".toList, "EPSV".toList, "LIST".toList, "RETR".toList,
      "STOR".toList]) :
    ' ' ∉ g ∧ '\x00' ∉ g ∧ '\n' ∉ g ∧ g.length ≤ 4 := by
  simp only [List.mem_cons, List.mem_singleton, List.not_mem_nil, or_false] at hg
  rcases hg with h | h | h | h | h | h | h | h | h | h | h <;>
    · subst h
      decide

/-- C5: authentication gate.  In every session state with `loggedIn == false`, for every
command line `verb CR LF` or `verb SP arg CR LF` whose verb, in any letter case, is one of
TYPE, PWD, CWD, CDUP, PORT, EPRT, PASV, EPSV, LIST, RETR, STOR, with any argument, the
loop body run on the line writes exactly the reply `530 Not logged in` and leaves the
whole session state, DTP included, unchanged; and one iteration of the command loop on a
pending input that starts with such a line, when the line fits the command buffer,
consumes exactly the line with the same outcome. -/
theorem auth_gate (host : Host) (ftpPI : FtpServerPI) (verb arg rest : Str)
    (hlog : ftpPI.loggedIn = false)
    (hverb : verb.map toupper ∈
      ["TYPE".toList, "PWD".toList, "CWD".toList, "CDUP".toList, "PORT".toList,
        "EPRT".toList, "PASV".toList, "EPSV".toList, "LIST".toList, "RETR".toList,
        "STOR".toList]) :
    dispatch host ftpPI (verb ++ "\r\n".toList)
      = (ftpPI, [Event.ctrlWrite "530 Not logged in\r\n".toList], !ftpPI.quit) ∧
    dispatch host ftpPI (verb ++ " ".toList ++ arg ++ "\r\n".toList)
      = (ftpPI, [Event.ctrlWrite "530 Not logged in\r\n".toList], !ftpPI.quit) ∧
    ('\n' ∉ arg → (verb ++ " ".toList ++ arg ++ "\r\n".toList).length < BUF_MAX →
      runStep host (verb ++ "\r\n".toList ++ rest) ftpPI
        = ⟨rest, ftpPI, [Event.ctrlWrite "530 Not logged in\r\n".toList], !ftpPI.quit⟩ ∧
      runStep host (verb ++ " ".toList ++ arg ++ "\r\n".toList ++ rest) ftpPI
        = ⟨rest, ftpPI, [Event.ctrlWrite "530 Not logged in\r\n".toList], !ftpPI.quit⟩) := by
  obtain ⟨h1, h2, h3, h4⟩ := gated_chars _ hverb
  have hsp := not_mem_of_map_toupper verb _ ' ' rfl (by decide) h1
  have hnul := not_mem_of_map_toupper verb _ '\x00' rfl (by decide) h2
  have hnl := not_mem_of_map_toupper verb _ '\n' rfl (by decide) h3
  rw [List.length_map] at h4
  have hb : dispatch host ftpPI (verb ++ "\r\n".toList)
      = (ftpPI, [Event.ctrlWrite "530 Not logged in\r\n".toList], !ftpPI.quit) := by
    rw [dispatch_bare host ftpPI verb hsp hnul (by omega)]
    exact dispatchArgs_gated host ftpPI _ [] hverb hlog
  have ha : dispatch host ftpPI (verb ++ " ".toList ++ arg ++ "\r\n".toList)
      = (ftpPI, [Event.ctrlWrite "530 Not logged in\r\n".toList], !ftpPI.quit) := by
    obtain ⟨t, ht⟩ := dispatch_arg host ftpPI verb arg hsp hnul
    rw [ht]
    exact dispatchArgs_gated host ftpPI _ t hverb hlog
  refine ⟨hb, ha, fun harg hlen => ⟨?_, ?_⟩⟩
  · rw [runStep_bare host ftpPI verb rest hnl (by
      simp only [List.length_append, String.toList, List.length_cons, List.length_nil]
        at hlen ⊢
      omega), hb]
  · rw [runStep_arg host ftpPI verb arg rest hnl harg hlen, ha]

/-- Witness for C5: `pwd` and `pwd secret.txt` before login. -/
theorem auth_gate_witness :
    dispatch Host.plain FtpServerPI.init ("pwd".toList ++ "\r\n".toList)
      = (FtpServerPI.init, [Event.ctrlWrite "530 Not logged in\r\n".toList],
          !FtpServerPI.init.quit) ∧
    dispatch Host.plain FtpServerPI.init
        ("pwd".toList ++ " ".toList ++ "secret.txt".toList ++ "\r\n".toList)
      = (FtpServerPI.init, [Event.ctrlWrite "530 Not logged in\r\n".toList],
          !FtpServerPI.init.quit) ∧
    runStep Host.plain ("pwd".toList ++ "\r\n".toList ++ "QUIT\r\n".toList) FtpServerPI.init
      = ⟨"QUIT\r\n".toList, FtpServerPI.init,
          [Event.ctrlWrite "530 Not logged in\r\n".toList], !FtpServerPI.init.quit⟩ ∧
    runStep Host.plain
        ("pwd".toList ++ " ".toList ++ "secret.txt".toList ++ "\r\n".toList
          ++ "QUIT\r\n".toList) FtpServerPI.init
      = ⟨"QUIT\r\n".toList, FtpServerPI.init,
          [Event.ctrlWrite "530 Not logged in\r\n".toList], !FtpServerPI.init.quit⟩ :=
  have h := auth_gate Host.plain FtpServerPI.init "pwd".toList "secret.txt".toList
    "QUIT\r\n".toList rfl (by decide)
  ⟨h.1, h.2.1, (h.2.2 (by decide) (by decide)).1, (h.2.2 (by decide) (by decide)).2⟩

/-- C6: the loop does not exit after QUIT.  In every session state one iteration on the
line `QUIT` sets `quit`, writes `221 Goodbye` and goes on with the next iteration (the
`continue` of the login branch skips the test of `quit`); on the input `QUIT`, `USER bob`
the server answers the second command with `331` and leaves the loop only on the
time-out. -/
theorem run_goes_on_after_quit :
    (∀ (host : Host) (ftpPI : FtpServerPI) (rest : Str),
      (runStep host ("QUIT\r\n".toList ++ rest) ftpPI).ftpPI.quit = true ∧
      (runStep host ("QUIT\r\n".toList ++ rest) ftpPI).events
        = [Event.ctrlWrite "221 Goodbye\r\n".toList] ∧
      (runStep host ("QUIT\r\n".toList ++ rest) ftpPI).pending = rest ∧
      (runStep host ("QUIT\r\n".toList ++ rest) ftpPI).goesOn = true) ∧
    (run Host.plain "QUIT\r\nUSER bob\r\n".toList).map
        (fun r => (r.1.quit, r.1.username, ctrlReplies r.2))
      = some (true, "bob".toList,
          ["220 Service ready\r\n".toList, "221 Goodbye\r\n".toList,
            "331 Please specify the password\r\n".toList, "421 Time out\r\n".toList]) := by
  refine ⟨fun host ftpPI rest => ?_, by decide⟩
  have e : "QUIT\r\n".toList ++ rest = "QUIT".toList ++ "\r\n".toList ++ rest := rfl
  have hu : "QUIT".toList.map toupper = "QUIT".toList := by decide
  rw [e, runStep_bare host ftpPI "QUIT".toList rest (by decide) (by decide),
    dispatch_bare host ftpPI "QUIT".toList (by decide) (by decide) (by decide), hu]
  have hd : dispatchArgs host ftpPI ["QUIT".toList]
      = ({ ftpPI with quit := true }, [Event.ctrlWrite "221 Goodbye\r\n".toList], true) := by
    simp [dispatchArgs, loginCommands, List.lookup, QUITCommand.execute]
    decide
  rw [hd]
  exact ⟨rfl, rfl, rfl, rfl⟩

/-- C7: in ASCII mode the last content byte of every line is overwritten.  On the source
`ab LF cd LF` the data channel receives `a CR LF c CR LF`, not `ab CR LF cd CR LF`. -/
theorem writeData_ascii_overwrites_last_byte :
    (FtpServerDTP.init.setTransferMode TransferMode.ASCII).writeData
        (IStream.ofContent "ab\ncd\n".toList)
      = ["a\r\n".toList, "c\r\n".toList, []] ∧
    ((FtpServerDTP.init.setTransferMode TransferMode.ASCII).writeData
        (IStream.ofContent "ab\ncd\n".toList)).flatten ≠ "ab\r\ncd\r\n".toList := by
  decide

/-! ## Data transfer: proofs -/

theorem drop_take_length (l : Str) (k : Nat) : l.drop (l.take k).length = l.drop k := by
  rw [List.length_take]
  rcases Nat.le_total k l.length with h | h
  · rw [Nat.min_eq_left h]
  · rw [Nat.min_eq_right h, List.drop_of_length_le (le_refl _), List.drop_of_length_le h]

theorem socketReadLoop_eq (chunk size : Nat) (fuel : Nat) :
    ∀ (pending buf : Str), buf.length ≤ size → size ≤ buf.length + fuel →
      socketReadLoop chunk false size fuel pending buf
        = some ((buf ++ pending).take size, (buf ++ pending).drop size) := by
  induction fuel with
  | zero =>
    intro pending buf h1 h2
    have hl : buf.length = size := by omega
    rw [socketReadLoop, List.take_left' hl, ← hl, List.drop_left]
  | succ fuel ih =>
    intro pending buf h1 h2
    rw [socketReadLoop]
    by_cases hlt : buf.length < size
    · simp only [hlt, if_true]
      by_cases hp : pending = []
      · subst hp
        simp only [if_true, List.append_nil, Bool.false_eq_true, if_false]
        rw [List.take_of_length_le (by omega), List.drop_of_length_le (by omega)]
      · simp only [hp, if_false]
        have hgot : 1 ≤ (sysRead chunk pending (size - buf.length)).length := by
          unfold sysRead
          rw [List.length_take]
          have : 1 ≤ pending.length := by
            cases pending with
            | nil => exact absurd rfl hp
            | cons a t => simp
          omega
        have hgot2 : (sysRead chunk pending (size - buf.length)).length ≤ size - buf.length := by
          unfold sysRead
          rw [List.length_take]
          omega
        rw [ih _ _ (by rw [List.length_append]; omega) (by rw [List.length_append]; omega)]
        have e : buf ++ sysRead chunk pending (size - buf.length)
            ++ pending.drop (sysRead chunk pending (size - buf.length)).length
            = buf ++ pending := by
          unfold sysRead
          rw [drop_take_length, List.append_assoc, List.take_append_drop]
        rw [e]
    · have hl : buf.length = size := by omega
      simp only [hlt, if_false]
      rw [List.take_left' hl, ← hl, List.drop_left]

theorem socketRead_eq (chunk : Nat) (pending : Str) (size : Nat) :
    socketRead chunk false pending size = some (pending.take size, pending.drop size) := by
  unfold socketRead
  rw [socketReadLoop_eq chunk size size pending [] (Nat.zero_le _) (by simp)]
  simp

theorem readDataLoop_eq (chunk : Nat) (fuel : Nat) :
    ∀ (pending : Str) (out : List Str), pending.length < fuel →
      ∃ ws : List Str, readDataLoop chunk false fuel pending out = (out ++ ws, true)
        ∧ ws.flatten = pending := by
  induction fuel with
  | zero => intro pending out h; omega
  | succ fuel ih =>
    intro pending out h
    rw [readDataLoop, socketRead_eq]
    simp only []
    by_cases hp : pending = []
    · subst hp
      refine ⟨[], ?_, rfl⟩
      simp [BUF_MAX]
    · have hpos : 0 < pending.length := List.length_pos.2 hp
      have hne : (pending.take BUF_MAX).length ≠ 0 := by
        rw [List.length_take]
        have : 0 < BUF_MAX := by decide
        omega
      simp only [ne_eq, hne, not_false_eq_true, if_true]
      obtain ⟨ws, hws, hflat⟩ := ih (pending.drop BUF_MAX) (out ++ [pending.take BUF_MAX])
        (by
          rw [List.length_drop]
          have : 0 < BUF_MAX := by decide
          omega)
      refine ⟨pending.take BUF_MAX :: ws, ?_, ?_⟩
      · rw [hws]; simp
      · rw [List.flatten_cons, hflat, List.take_append_drop]

theorem writeBinaryLoop_fail (fuel : Nat) (data : IStream) (out : List Str)
    (h : data.fail = true) : writeBinaryLoop fuel data out = out := by
  cases fuel with
  | zero => rfl
  | succ n => rw [writeBinaryLoop]; simp [h]

theorem writeBinaryLoop_eq (fuel : Nat) :
    ∀ (rest : Str) (out : List Str), rest.length < fuel →
      ∃ ws : List Str, writeBinaryLoop fuel ⟨rest, false, false⟩ out = out ++ ws
        ∧ ws.flatten = rest := by
  induction fuel with
  | zero => intro rest out h; omega
  | succ fuel ih =>
    intro rest out h
    rw [writeBinaryLoop]
    simp only [Bool.false_eq_true, if_false]
    by_cases hle : BUF_MAX ≤ rest.length
    · have hr : (IStream.read ⟨rest, false, false⟩ BUF_MAX)
          = (rest.take BUF_MAX, ⟨rest.drop BUF_MAX, false, false⟩) := by
        simp [IStream.read, hle]
      rw [hr]
      obtain ⟨ws, hws, hflat⟩ := ih (rest.drop BUF_MAX) (out ++ [rest.take BUF_MAX])
        (by
          rw [List.length_drop]
          have : 0 < BUF_MAX := by decide
          omega)
      refine ⟨rest.take BUF_MAX :: ws, ?_, ?_⟩
      · rw [hws]; simp
      · rw [List.flatten_cons, hflat, List.take_append_drop]
    · have hr : (IStream.read ⟨rest, false, false⟩ BUF_MAX) = (rest, ⟨[], true, true⟩) := by
        simp [IStream.read, hle]
      rw [hr, writeBinaryLoop_fail _ _ _ rfl]
      exact ⟨[rest], rfl, by simp⟩

theorem writeBinaryMode_flatten (B : Str) :
    (writeBinaryMode (IStream.ofContent B)).flatten = B := by
  unfold writeBinaryMode IStream.ofContent
  obtain ⟨ws, hws, hflat⟩ := writeBinaryLoop_eq (B.length + 2) B [] (by omega)
  rw [hws]
  simpa using hflat

theorem readData_flatten (chunk : Nat) (B : Str) :
    (readData chunk false B).2 = true ∧ (readData chunk false B).1.flatten = B := by
  unfold readData
  obtain ⟨ws, hws, hflat⟩ := readDataLoop_eq chunk (B.length + 1) B [] (by omega)
  rw [hws]
  exact ⟨rfl, by simpa using hflat⟩

theorem getline_line (line tail : Str) (h : '\n' ∉ line) :
    IStream.getline ⟨line ++ '\n' :: tail, false, false⟩ = (line, ⟨tail, false, false⟩) := by
  have hspan : (line ++ '\n' :: tail).span (fun c => c != '\n') = (line, '\n' :: tail) := by
    rw [List.span_eq_take_drop]
    have hp : ∀ a ∈ line, (fun c => c != '\n') a = true := by
      intro a ha
      have : a ≠ '\n' := fun h' => h (h' ▸ ha)
      simpa using this
    rw [List.takeWhile_append_of_pos hp, List.dropWhile_append_of_pos hp]
    simp
  simp only [IStream.getline, Bool.false_eq_true, or_self, if_false, hspan]

theorem writeAsciiLoop_fail (fuel : Nat) (data : IStream) (out : List Str)
    (h : data.fail = true) : writeAsciiLoop fuel data out = out := by
  cases fuel with
  | zero => rfl
  | succ n => rw [writeAsciiLoop]; simp [h]

theorem writeAsciiLoop_lines (lines : List Str) :
    ∀ (fuel : Nat) (out : List Str), lines.length < fuel →
      (∀ l ∈ lines, l ≠ [] ∧ '\n' ∉ l) →
      writeAsciiLoop fuel ⟨unlines lines, false, false⟩ out
        = out ++ lines.map terminateLine ++ [[]] := by
  induction lines with
  | nil =>
    intro fuel out hf _
    obtain ⟨f, rfl⟩ : ∃ f, fuel = f + 1 := ⟨fuel - 1, by simp at hf; omega⟩
    rw [writeAsciiLoop]
    have hg : IStream.getline ⟨unlines [], false, false⟩ = ([], ⟨[], true, true⟩) := by decide
    simp only [Bool.false_eq_true, if_false, hg, ne_eq, not_true_eq_false]
    rw [writeAsciiLoop_fail _ _ _ rfl]
    simp
  | cons l ls ih =>
    intro fuel out hf hl
    obtain ⟨f, rfl⟩ : ∃ f, fuel = f + 1 := ⟨fuel - 1, by simp at hf; omega⟩
    have hl0 := hl l (by simp)
    rw [writeAsciiLoop, unlines, getline_line l _ hl0.2]
    simp only [Bool.false_eq_true, if_false, ne_eq, hl0.1, not_false_eq_true, if_true]
    rw [ih f _ (by simp at hf; omega) (fun x hx => hl x (by simp [hx]))]
    simp

theorem unlines_length (lines : List Str) : lines.length ≤ (unlines lines).length := by
  induction lines with
  | nil => simp [unlines]
  | cons l ls ih => simp only [unlines, List.length_append, List.length_cons]; omega

/-- What ASCII mode sends for a source of `LF`-terminated non-empty lines: each line with
its last character replaced by `CR`, followed by `LF`. -/
theorem writeAsciiMode_lines (lines : List Str) (h : ∀ l ∈ lines, l ≠ [] ∧ '\n' ∉ l) :
    (writeAsciiMode (IStream.ofContent (unlines lines))).flatten
      = (lines.map (fun l => l.dropLast ++ "\r\n".toList)).flatten := by
  unfold writeAsciiMode IStream.ofContent
  rw [writeAsciiLoop_lines lines _ [] (by have := unlines_length lines; simp only []; omega) h]
  have ht : terminateLine = fun l => l.dropLast ++ "\r\n".toList := rfl
  rw [ht]
  simp

/-- What `STORCommand::execute` stores when the file is created, the data connection is
set up and opens, and the data stream ends with end-of-file: exactly the bytes received,
followed by the reply `226`. -/
theorem STOR_stores_dataIn (host : Host) (ftpPI : FtpServerPI) (args : List Str)
    (hcreate : host.createFile (nativePathOf ftpPI args) = true)
    (hsetup : ftpPI.ftpDTP.connectSetup = true)
    (hopen : (ftpPI.ftpDTP.openData host).isSome = true)
    (herr : host.dataErr = false) :
    fileBytes (nativePathOf ftpPI args) (STORCommand.execute host ftpPI args).2 = host.dataIn ∧
    (ctrlReplies (STORCommand.execute host ftpPI args).2).getLast?
      = some "226 Data connection close file sent OK\r\n".toList := by
  obtain ⟨opened, ho⟩ := Option.isSome_iff_exists.1 hopen
  obtain ⟨h1, h2⟩ := readData_flatten host.dataChunk host.dataIn
  have hfb : ∀ (ws : List Str) (tail : List Event),
      fileBytes (nativePathOf ftpPI args)
        (storeEvents (nativePathOf ftpPI args) ws ++ tail)
        = ws.flatten ++ fileBytes (nativePathOf ftpPI args) tail := by
    intro ws tail
    induction ws with
    | nil => simp [storeEvents]
    | cons w ws ih => simp [storeEvents, fileBytes, ih]
  have hcr : ∀ (ws : List Str) (tail : List Event),
      ctrlReplies (storeEvents (nativePathOf ftpPI args) ws ++ tail)
        = ctrlReplies tail := by
    intro ws tail
    induction ws with
    | nil => simp [storeEvents]
    | cons w ws ih => simp [storeEvents, ctrlReplies, ih]
  have h226 : writeCtrl CLOSE_DATA_CONNECTION_REQUEST_FILE_ACTION_SUCCESS
      "Data connection close file sent OK".toList
      = Event.ctrlWrite "226 Data connection close file sent OK\r\n".toList := by decide
  have hexec : (STORCommand.execute host ftpPI args).2
      = Event.fileCreate (nativePathOf ftpPI args) :: Event.dataOpen ::
          writeCtrl FILE_STATUS_OK_OPEN_DATA_CONNECTION
            "Open data connection for file transfer".toList ::
          (storeEvents (nativePathOf ftpPI args) (readData host.dataChunk false host.dataIn).1
            ++ [Event.dataClose,
                Event.ctrlWrite "226 Data connection close file sent OK\r\n".toList]) := by
    unfold nativePathOf at hcreate ⊢
    simp only [STORCommand.execute, hcreate, FtpServerDTP.doesDataConnectSetup, hsetup, ho,
      herr, h1, h226, not_true_eq_false, if_false, if_true, List.append_assoc,
      List.cons_append, List.nil_append]
  rw [hexec]
  constructor
  · simp only [writeCtrl, fileBytes]
    rw [hfb, h2]
    simp [fileBytes]
  · simp only [writeCtrl, ctrlReplies]
    rw [hcr]
    simp [ctrlReplies]

/-- What `RETRCommand::execute` sends in BINARY mode when the path is a regular file that
opens with content `B`, the data connection is set up and opens, and no write fails:
exactly `B`. -/
theorem RETR_sends_file (host : Host) (ftpPI : FtpServerPI) (args : List Str) (B : Str)
    (hfile : host.readFile (nativePathOf ftpPI args) = some B)
    (hreg : isRegularFile host (nativePathOf ftpPI args) = true)
    (hmode : ftpPI.ftpDTP.transferMode = TransferMode.BINARY)
    (hsetup : ftpPI.ftpDTP.connectSetup = true)
    (hopen : (ftpPI.ftpDTP.openData host).isSome = true)
    (hsend : host.sendFailsAt = none) :
    dataBytes (RETRCommand.execute host ftpPI args).2 = B := by
  obtain ⟨opened, ho⟩ := Option.isSome_iff_exists.1 hopen
  have hom : opened.transferMode = TransferMode.BINARY := by
    unfold FtpServerDTP.openData at ho
    split at ho <;> split at ho <;> first
      | (cases ho; exact hmode)
      | exact absurd ho (by simp)
  have hdb : ∀ (ws : List Str) (tail : List Event),
      dataBytes (ws.map Event.dataWrite ++ tail) = ws.flatten ++ dataBytes tail := by
    intro ws tail
    induction ws with
    | nil => simp
    | cons w ws ih => simp [dataBytes, ih]
  have hexec : (RETRCommand.execute host ftpPI args).2
      = Event.dataOpen :: writeCtrl FILE_STATUS_OK_OPEN_DATA_CONNECTION
          "Open data connection for file transfer".toList ::
        ((writeBinaryMode (IStream.ofContent B)).map Event.dataWrite
          ++ [Event.dataClose, writeCtrl CLOSE_DATA_CONNECTION_REQUEST_FILE_ACTION_SUCCESS
              "Data connection close file sent OK".toList]) := by
    unfold nativePathOf at hfile hreg
    simp only [RETRCommand.execute, hfile, hreg, sendOverData,
      FtpServerDTP.doesDataConnectSetup, hsetup, ho, sendAll, hsend, FtpServerDTP.writeData,
      hom, not_true_eq_false, if_false, if_true, List.append_assoc,
      List.cons_append, List.nil_append]
  rw [hexec]
  simp only [writeCtrl, dataBytes]
  rw [hdb, writeBinaryMode_flatten]
  simp [dataBytes]

/-- C8: binary round trip.  For every byte sequence `B` (of any length) and whatever the
sizes of the pieces in which the data socket delivers it, the bytes `readData` writes to
the file are exactly `B` and the read loop ends normally; `writeData` in BINARY mode on a
source holding `B` emits exactly `B`; so sending in BINARY mode what `readData` stored
gives `B` back.  At the level of the commands: when a STOR succeeds (the file is created,
the data connection is set up and opens, the data stream ends with end-of-file) and a
RETR in BINARY mode then succeeds on a file holding what the STOR wrote, the bytes sent by
the RETR are the bytes the STOR received. -/
theorem binary_round_trip (B : Str) (chunk : Nat) (d : FtpServerDTP)
    (up down : Host) (ftpPI₁ ftpPI₂ : FtpServerPI) (args₁ args₂ : List Str) :
    (readData chunk false B).2 = true ∧
    (readData chunk false B).1.flatten = B ∧
    ((d.setTransferMode TransferMode.BINARY).writeData (IStream.ofContent B)).flatten = B ∧
    ((d.setTransferMode TransferMode.BINARY).writeData
      (IStream.ofContent (readData chunk false B).1.flatten)).flatten = B ∧
    (up.createFile (nativePathOf ftpPI₁ args₁) = true →
      ftpPI₁.ftpDTP.connectSetup = true →
      (ftpPI₁.ftpDTP.openData up).isSome = true →
      up.dataErr = false →
      down.readFile (nativePathOf ftpPI₂ args₂)
        = some (fileBytes (nativePathOf ftpPI₁ args₁) (STORCommand.execute up ftpPI₁ args₁).2) →
      isRegularFile down (nativePathOf ftpPI₂ args₂) = true →
      ftpPI₂.ftpDTP.transferMode = TransferMode.BINARY →
      ftpPI₂.ftpDTP.connectSetup = true →
      (ftpPI₂.ftpDTP.openData down).isSome = true →
      down.sendFailsAt = none →
      fileBytes (nativePathOf ftpPI₁ args₁) (STORCommand.execute up ftpPI₁ args₁).2 = up.dataIn ∧
      dataBytes (RETRCommand.execute down ftpPI₂ args₂).2 = up.dataIn) := by
  have hw : ∀ X : Str,
      ((d.setTransferMode TransferMode.BINARY).writeData (IStream.ofContent X)).flatten = X := by
    intro X
    simp only [FtpServerDTP.writeData, FtpServerDTP.setTransferMode]
    exact writeBinaryMode_flatten X
  refine ⟨(readData_flatten chunk B).1, (readData_flatten chunk B).2, hw B, ?_, ?_⟩
  · rw [(readData_flatten chunk B).2]
    exact hw B
  · intro hc hs ho he hf hreg hm hs2 ho2 hsend
    have hstor := (STOR_stores_dataIn up ftpPI₁ args₁ hc hs ho he).1
    rw [hstor] at hf
    exact ⟨hstor, RETR_sends_file down ftpPI₂ args₂ up.dataIn hf hreg hm hs2 ho2 hsend⟩

/-- Witness for C8: `hello` is uploaded by `STOR f.bin` and downloaded by `RETR f.bin`. -/
theorem binary_round_trip_witness :
    (readData 1 false "hello".toList).2 = true ∧
    (readData 1 false "hello".toList).1.flatten = "hello".toList ∧
    ((FtpServerDTP.init.setTransferMode TransferMode.BINARY).writeData
      (IStream.ofContent "hello".toList)).flatten = "hello".toList ∧
    ((FtpServerDTP.init.setTransferMode TransferMode.BINARY).writeData
      (IStream.ofContent (readData 1 false "hello".toList).1.flatten)).flatten
        = "hello".toList ∧
    fileBytes (nativePathOf transferSession ["STOR".toList, "f.bin".toList])
        (STORCommand.execute uploadHost transferSession ["STOR".toList, "f.bin".toList]).2
      = uploadHost.dataIn ∧
    dataBytes
        (RETRCommand.execute downloadHost transferSession ["RETR".toList, "f.bin".toList]).2
      = uploadHost.dataIn :=
  have h := binary_round_trip "hello".toList 1 FtpServerDTP.init uploadHost downloadHost
    transferSession transferSession ["STOR".toList, "f.bin".toList]
    ["RETR".toList, "f.bin".toList]
  have h5 := h.2.2.2.2 rfl rfl rfl rfl (by decide) (by decide) rfl rfl rfl rfl
  ⟨h.1, h.2.1, h.2.2.1, h.2.2.2.1, h5.1, h5.2⟩

/-! ## EPSV ALL: proofs -/

theorem keepsLock_USER : KeepsLock (fun _ => USERCommand.execute) := by
  intro host ftpPI args h
  simp only [USERCommand.execute]
  repeat' split
  all_goals exact h

theorem keepsLock_PASS : KeepsLock PASSCommand.execute := by
  intro host ftpPI args h
  simp only [PASSCommand.execute]
  repeat' split
  all_goals exact h

theorem keepsLock_QUIT : KeepsLock (fun _ => QUITCommand.execute) := by
  intro host ftpPI args h
  exact h

theorem keepsLock_TYPE : KeepsLock (fun _ => TYPECommand.execute) := by
  intro host ftpPI args h
  simp only [TYPECommand.execute]
  repeat' split
  all_goals exact h

theorem keepsLock_PWD : KeepsLock (fun _ => PWDCommand.execute) := by
  intro host ftpPI args h
  exact h

theorem keepsLock_CWD : KeepsLock CWDCommand.execute := by
  intro host ftpPI args h
  simp only [CWDCommand.execute]
  repeat' split
  all_goals exact h

theorem keepsLock_CDUP : KeepsLock CDUPCommand.execute := by
  intro host ftpPI args h
  simp only [CDUPCommand.execute]
  repeat' split
  all_goals exact h

theorem keepsLock_PORT : KeepsLock (fun _ => PORTCommand.execute) := by
  intro host ftpPI args h
  simp [PORTCommand.execute, h]

theorem keepsLock_EPRT : KeepsLock (fun _ => EPRTCommand.execute) := by
  intro host ftpPI args h
  simp [EPRTCommand.execute, h]

theorem keepsLock_PASV : KeepsLock PASVCommand.execute := by
  intro host ftpPI args h
  simp [PASVCommand.execute, h]

theorem keepsLock_EPSV : KeepsLock EPSVCommand.execute := by
  intro host ftpPI args h
  simp only [EPSVCommand.execute]
  repeat' split
  all_goals first | exact h | rfl

theorem sendOverData_lock (host : Host) (ftpPI : FtpServerPI) (data : IStream)
    (m1 m2 : Str) :
    (sendOverData host ftpPI data m1 m2).1.EPSVexclusive = ftpPI.EPSVexclusive := by
  simp only [sendOverData]
  repeat' split
  all_goals rfl

theorem keepsLock_LIST : KeepsLock LISTCommand.execute := by
  intro host ftpPI args h
  simp only [LISTCommand.execute, sendOverData_lock, h]

theorem keepsLock_RETR : KeepsLock RETRCommand.execute := by
  intro host ftpPI args h
  simp only [RETRCommand.execute]
  repeat' split
  all_goals first | exact h | (rw [sendOverData_lock]; exact h)

theorem keepsLock_STOR : KeepsLock STORCommand.execute := by
  intro host ftpPI args h
  simp only [STORCommand.execute]
  repeat' split
  all_goals exact h

theorem lookup_mem {β : Type} (k : Str) (f : β) :
    ∀ tbl : List (Str × β), tbl.lookup k = some f → ∃ k' : Str, (k', f) ∈ tbl := by
  intro tbl
  induction tbl with
  | nil => intro h; simp [List.lookup] at h
  | cons kv tbl ih =>
    intro h
    obtain ⟨a, b⟩ := kv
    rw [List.lookup] at h
    split at h
    · exact ⟨a, by simp at h; simp [h]⟩
    · obtain ⟨k', hk'⟩ := ih h
      exact ⟨k', List.mem_cons_of_mem _ hk'⟩

theorem keepsLock_loginCommands (k : Str) (f : Execute) (h : (k, f) ∈ loginCommands) :
    KeepsLock f := by
  have hall : ∀ kf ∈ loginCommands, KeepsLock kf.2 := by
    simp only [loginCommands, List.forall_mem_cons]
    exact ⟨keepsLock_USER, keepsLock_PASS, keepsLock_QUIT, by simp⟩
  exact hall (k, f) h

theorem keepsLock_commands (k : Str) (f : Execute) (h : (k, f) ∈ commands) :
    KeepsLock f := by
  have hall : ∀ kf ∈ commands, KeepsLock kf.2 := by
    simp only [commands, List.forall_mem_cons]
    exact ⟨keepsLock_TYPE, keepsLock_PWD, keepsLock_CWD, keepsLock_CDUP, keepsLock_PORT,
      keepsLock_EPRT, keepsLock_PASV, keepsLock_EPSV, keepsLock_LIST, keepsLock_RETR,
      keepsLock_STOR, by simp⟩
  exact hall (k, f) h

theorem dispatchArgs_lock (host : Host) (ftpPI : FtpServerPI) (args : List Str)
    (h : ftpPI.EPSVexclusive = true) :
    (dispatchArgs host ftpPI args).1.EPSVexclusive = true := by
  unfold dispatchArgs
  split
  · next loginCmd hl =>
    obtain ⟨k, hk⟩ := lookup_mem _ _ _ hl
    exact keepsLock_loginCommands k loginCmd hk host ftpPI args h
  · split
    · exact h
    · next cmd hc =>
      obtain ⟨k, hk⟩ := lookup_mem _ _ _ hc
      split_ifs
      · exact keepsLock_commands k cmd hk host ftpPI args h
      · exact h

theorem runStep_lock (host : Host) (pending : Str) (ftpPI : FtpServerPI)
    (h : ftpPI.EPSVexclusive = true) :
    (runStep host pending ftpPI).ftpPI.EPSVexclusive = true := by
  simp only [runStep]
  split
  · exact h
  · split
    · exact h
    · simp only [dispatch]
      split
      · exact h
      · exact dispatchArgs_lock host ftpPI _ h

theorem iterate_lock (hosts : List Host) :
    ∀ (pending : Str) (ftpPI : FtpServerPI), ftpPI.EPSVexclusive = true →
      (iterate hosts pending ftpPI).EPSVexclusive = true := by
  induction hosts with
  | nil => intro pending ftpPI h; exact h
  | cons host hosts ih =>
    intro pending ftpPI h
    rw [iterate]
    split_ifs
    · exact ih _ _ (runStep_lock host pending ftpPI h)
    · exact runStep_lock host pending ftpPI h

theorem dispatchArgs_locked (host : Host) (ftpPI : FtpServerPI) (g : Str) (t : List Str)
    (hg : g ∈ ["PORT".toList, "EPRT".toList, "PASV".toList])
    (hlog : ftpPI.loggedIn = true) (hx : ftpPI.EPSVexclusive = true) :
    dispatchArgs host ftpPI (g :: t)
      = (ftpPI, [Event.ctrlWrite "550 Can only accept EPSV\r\n".toList], !ftpPI.quit) := by
  simp only [List.mem_cons, List.mem_singleton, List.not_mem_nil, or_false] at hg
  rcases hg with h | h | h <;> subst h
  · simp [dispatchArgs, loginCommands, commands, List.lookup, hlog, PORTCommand.execute, hx]
    decide
  · simp [dispatchArgs, loginCommands, commands, List.lookup, hlog, EPRTCommand.execute, hx]
    decide
  · simp [dispatchArgs, loginCommands, commands, List.lookup, hlog, PASVCommand.execute, hx]
    decide

/-- C9: EPSV ALL lockout.  Once `EPSVexclusive` is true it is true after any number of
further iterations of the command loop, whatever the client sends and whatever the host
does; and in a state with `EPSVexclusive` true each of PORT, EPRT and PASV, with any
arguments, replies exactly `550 Can only accept EPSV` and changes nothing in the session
state, DTP configuration included: as a handler, through the loop body on a line
`verb CR LF` or `verb SP arg CR LF` of a logged-in session, and through one iteration of
the loop when the line fits the command buffer. -/
theorem epsv_lockout (hosts : List Host) (host : Host) (pending : Str) (ftpPI : FtpServerPI)
    (args : List Str) (verb arg rest : Str) (hx : ftpPI.EPSVexclusive = true) :
    (iterate hosts pending ftpPI).EPSVexclusive = true ∧
    PORTCommand.execute ftpPI args
      = (ftpPI, [Event.ctrlWrite "550 Can only accept EPSV\r\n".toList]) ∧
    EPRTCommand.execute ftpPI args
      = (ftpPI, [Event.ctrlWrite "550 Can only accept EPSV\r\n".toList]) ∧
    PASVCommand.execute host ftpPI args
      = (ftpPI, [Event.ctrlWrite "550 Can only accept EPSV\r\n".toList]) ∧
    (ftpPI.loggedIn = true →
      verb.map toupper ∈ ["PORT".toList, "EPRT".toList, "PASV".toList] →
      dispatch host ftpPI (verb ++ "\r\n".toList)
        = (ftpPI, [Event.ctrlWrite "550 Can only accept EPSV\r\n".toList], !ftpPI.quit) ∧
      dispatch host ftpPI (verb ++ " ".toList ++ arg ++ "\r\n".toList)
        = (ftpPI, [Event.ctrlWrite "550 Can only accept EPSV\r\n".toList], !ftpPI.quit) ∧
      ('\n' ∉ arg → (verb ++ " ".toList ++ arg ++ "\r\n".toList).length < BUF_MAX →
        runStep host (verb ++ "\r\n".toList ++ rest) ftpPI
          = ⟨rest, ftpPI, [Event.ctrlWrite "550 Can only accept EPSV\r\n".toList],
              !ftpPI.quit⟩ ∧
        runStep host (verb ++ " ".toList ++ arg ++ "\r\n".toList ++ rest) ftpPI
          = ⟨rest, ftpPI, [Event.ctrlWrite "550 Can only accept EPSV\r\n".toList],
              !ftpPI.quit⟩)) := by
  have h550 : writeCtrl REQUESTED_FILE_ACTION_NOT_TAKEN_FILE_UNAVAILABLE
      "Can only accept EPSV".toList
      = Event.ctrlWrite "550 Can only accept EPSV\r\n".toList := by decide
  refine ⟨iterate_lock hosts pending ftpPI hx, ?_, ?_, ?_, ?_⟩
  · unfold PORTCommand.execute
    rw [if_pos hx, h550]
  · unfold EPRTCommand.execute
    rw [if_pos hx, h550]
  · unfold PASVCommand.execute
    rw [if_pos hx, h550]
  · intro hlog hverb
    have hch : ' ' ∉ verb.map toupper ∧ '\x00' ∉ verb.map toupper ∧ '\n' ∉ verb.map toupper
        ∧ (verb.map toupper).length ≤ 4 := by
      simp only [List.mem_cons, List.mem_singleton, List.not_mem_nil, or_false] at hverb
      rcases hverb with h | h | h <;> (rw [h]; decide)
    have hsp := not_mem_of_map_toupper verb _ ' ' rfl (by decide) hch.1
    have hnul := not_mem_of_map_toupper verb _ '\x00' rfl (by decide) hch.2.1
    have hnl := not_mem_of_map_toupper verb _ '\n' rfl (by decide) hch.2.2.1
    have h4 := hch.2.2.2
    rw [List.length_map] at h4
    have hb : dispatch host ftpPI (verb ++ "\r\n".toList)
        = (ftpPI, [Event.ctrlWrite "550 Can only accept EPSV\r\n".toList], !ftpPI.quit) := by
      rw [dispatch_bare host ftpPI verb hsp hnul (by omega)]
      exact dispatchArgs_locked host ftpPI _ [] hverb hlog hx
    have ha : dispatch host ftpPI (verb ++ " ".toList ++ arg ++ "\r\n".toList)
        = (ftpPI, [Event.ctrlWrite "550 Can only accept EPSV\r\n".toList], !ftpPI.quit) := by
      obtain ⟨t, ht⟩ := dispatch_arg host ftpPI verb arg hsp hnul
      rw [ht]
      exact dispatchArgs_locked host ftpPI _ t hverb hlog hx
    refine ⟨hb, ha, fun harg hlen => ⟨?_, ?_⟩⟩
    · rw [runStep_bare host ftpPI verb rest hnl (by
        simp only [List.length_append, String.toList, List.length_cons, List.length_nil]
          at hlen ⊢
        omega), hb]
    · rw [runStep_arg host ftpPI verb arg rest hnl harg hlen, ha]

/-- Witness for C9: a locked, logged-in session that receives `EPSV 1` and then
`PORT 127,0,0,1,4,0`. -/
theorem epsv_lockout_witness :
    (iterate [Host.plain, Host.plain] "EPSV 1\r\nPORT 127,0,0,1,4,0\r\n".toList
      lockedSession).EPSVexclusive = true ∧
    PORTCommand.execute lockedSession ["PORT".toList, "127,0,0,1,4,0".toList]
      = (lockedSession, [Event.ctrlWrite "550 Can only accept EPSV\r\n".toList]) ∧
    EPRTCommand.execute lockedSession ["PORT".toList, "127,0,0,1,4,0".toList]
      = (lockedSession, [Event.ctrlWrite "550 Can only accept EPSV\r\n".toList]) ∧
    PASVCommand.execute Host.plain lockedSession ["PORT".toList, "127,0,0,1,4,0".toList]
      = (lockedSession, [Event.ctrlWrite "550 Can only accept EPSV\r\n".toList]) ∧
    dispatch Host.plain lockedSession ("port".toList ++ "\r\n".toList)
      = (lockedSession, [Event.ctrlWrite "550 Can only accept EPSV\r\n".toList],
          !lockedSession.quit) ∧
    dispatch Host.plain lockedSession
        ("port".toList ++ " ".toList ++ "127,0,0,1,4,0".toList ++ "\r\n".toList)
      = (lockedSession, [Event.ctrlWrite "550 Can only accept EPSV\r\n".toList],
          !lockedSession.quit) ∧
    runStep Host.plain ("port".toList ++ "\r\n".toList ++ []) lockedSession
      = ⟨[], lockedSession, [Event.ctrlWrite "550 Can only accept EPSV\r\n".toList],
          !lockedSession.quit⟩ ∧
    runStep Host.plain
        ("port".toList ++ " ".toList ++ "127,0,0,1,4,0".toList ++ "\r\n".toList ++ [])
        lockedSession
      = ⟨[], lockedSession, [Event.ctrlWrite "550 Can only accept EPSV\r\n".toList],
          !lockedSession.quit⟩ :=
  have h := epsv_lockout [Host.plain, Host.plain] Host.plain
    "EPSV 1\r\nPORT 127,0,0,1,4,0\r\n".toList lockedSession
    ["PORT".toList, "127,0,0,1,4,0".toList] "port".toList "127,0,0,1,4,0".toList [] rfl
  have h5 := h.2.2.2.2 rfl (by decide)
  ⟨h.1, h.2.1, h.2.2.1, h.2.2.2.1, h5.1, h5.2.1,
    (h5.2.2 (by decide) (by decide)).1, (h5.2.2 (by decide) (by decide)).2⟩

/-! ## PASS: proofs -/

theorem passLoop_eq_find (username pass : Str) (table : List (Str × Str × Str)) :
    passLoop username pass table
      = (table.find? (fun r => decide (r.1 = username ∧ r.2.1 = pass))).map (fun r => r.2.2) := by
  induction table with
  | nil => rfl
  | cons r table ih =>
    obtain ⟨u, p, h⟩ := r
    rw [passLoop, List.find?_cons]
    by_cases hm : u = username ∧ p = pass
    · simp [hm]
    · simp only [hm, if_false, decide_False]
      exact ih

/-- C10: PASS in a state with `loggedIn == false` and a non-empty `username`, the accounts
file being readable.  If the first record of the accounts table whose user equals
`username` and whose password equals the PASS argument (both compared verbatim) is `r`,
then `loggedIn` becomes true, `userNativeHomeDir` becomes `normalizePath` of the home of
`r`, `userWorkingDir` becomes empty and the reply is `230 User logged in, proceed`, all
else unchanged; if no record matches, `loggedIn` is false, `username` is cleared and the
reply is `530 Login incorrect`. -/
theorem PASS_login (host : Host) (ftpPI : FtpServerPI) (verb pw content : Str)
    (hlog : ftpPI.loggedIn = false) (huser : ftpPI.username ≠ [])
    (hfile : host.accountsFile = some content) :
    (∀ r : Str × Str × Str,
      (accountsTable content).find? (fun r => decide (r.1 = ftpPI.username ∧ r.2.1 = pw))
        = some r →
      PASSCommand.execute host ftpPI [verb, pw]
        = ({ ftpPI with loggedIn := true, userNativeHomeDir := normalizePath r.2.2,
                        userWorkingDir := [] },
            [Event.ctrlWrite "230 User logged in, proceed\r\n".toList])) ∧
    ((∀ r ∈ accountsTable content, ¬ (r.1 = ftpPI.username ∧ r.2.1 = pw)) →
      PASSCommand.execute host ftpPI [verb, pw]
        = ({ ftpPI with loggedIn := false, username := [] },
            [Event.ctrlWrite "530 Login incorrect\r\n".toList])) := by
  have h230 : writeCtrl USER_LOGGED_IN_PROCCEED "User logged in, proceed".toList
      = Event.ctrlWrite "230 User logged in, proceed\r\n".toList := by decide
  have h530 : writeCtrl USER_NOT_LOGGED_IN "Login incorrect".toList
      = Event.ctrlWrite "530 Login incorrect\r\n".toList := by decide
  have hl : ¬ ftpPI.loggedIn = true := by simp [hlog]
  have hpass : (if [verb, pw].length = 2 then [verb, pw].getD 1 [] else []) = pw := by simp
  constructor
  · intro r hr
    unfold PASSCommand.execute
    rw [if_neg hl, if_neg huser]
    simp only [hfile, hpass]
    rw [passLoop_eq_find, hr]
    simp only [Option.map_some', h230]
  · intro hnone
    have hf : (accountsTable content).find?
        (fun r => decide (r.1 = ftpPI.username ∧ r.2.1 = pw)) = none := by
      rw [List.find?_eq_none]
      intro r hr
      simpa using hnone r hr
    unfold PASSCommand.execute
    rw [if_neg hl, if_neg huser]
    simp only [hfile, hpass]
    rw [passLoop_eq_find, hf]
    simp only [Option.map_none', h530]

/-- Witness for C10: `alice` logs in with the home of her first record, and is refused
with a wrong password. -/
theorem PASS_login_witness :
    PASSCommand.execute accountsHost aliceSession ["PASS".toList, "secret".toList]
        = ({ aliceSession with loggedIn := true,
                               userNativeHomeDir := normalizePath "/srv//alice/".toList,
                               userWorkingDir := [] },
            [Event.ctrlWrite "230 User logged in, proceed\r\n".toList]) ∧
    PASSCommand.execute accountsHost aliceSession ["PASS".toList, "Secret".toList]
        = ({ aliceSession with loggedIn := false, username := [] },
            [Event.ctrlWrite "530 Login incorrect\r\n".toList]) :=
  ⟨(PASS_login accountsHost aliceSession "PASS".toList "secret".toList accountsText rfl
        (by decide) rfl).1
      ("alice".toList, "secret".toList, "/srv//alice/".toList) (by decide),
    (PASS_login accountsHost aliceSession "PASS".toList "Secret".toList accountsText rfl
        (by decide) rfl).2
      (by decide)⟩

/-! ## PORT and EPRT arguments: proofs -/

/-- C11: PORT accepts fields that are not decimal bytes.  In every state with
`EPSVexclusive == false` the arguments `10,0,0,1,256,21` (a field `256`) and
`10,0,0,1,,21` (an empty field) are answered with `200` and configure the DTP with port
`21`: `toUnsignedInt<uint8_t>` returns `0` for `256`, whose value wraps to `0`, and for
the empty string.  Seven fields are refused with `501`. -/
theorem PORT_accepts_bad_fields :
    (toUnsignedInt UINT8_MAX "256".toList = (0, some 0) ∧
      toUnsignedInt UINT8_MAX [] = (0, some 0)) ∧
    (∀ ftpPI : FtpServerPI,
      PORTCommand.execute { ftpPI with EPSVexclusive := false }
          ["PORT".toList, "10,0,0,1,256,21".toList]
        = ({ ftpPI with
              EPSVexclusive := false,
              ftpDTP := ftpPI.ftpDTP.setupActiveMode "10.0.0.1".toList 21 NetProtocol.IPv4 },
            [Event.ctrlWrite "200 PORT Command successful. Consider using PASV\r\n".toList]) ∧
      PORTCommand.execute { ftpPI with EPSVexclusive := false }
          ["PORT".toList, "10,0,0,1,,21".toList]
        = ({ ftpPI with
              EPSVexclusive := false,
              ftpDTP := ftpPI.ftpDTP.setupActiveMode "10.0.0.1".toList 21 NetProtocol.IPv4 },
            [Event.ctrlWrite "200 PORT Command successful. Consider using PASV\r\n".toList]) ∧
      PORTCommand.execute { ftpPI with EPSVexclusive := false }
          ["PORT".toList, "10,0,0,1,0,21,99".toList]
        = ({ ftpPI with EPSVexclusive := false },
            [Event.ctrlWrite
              "501 Cannot recognize IP address and port number\r\n".toList])) := by
  refine ⟨by decide, fun ftpPI => ⟨?_, ?_, ?_⟩⟩
  · have h1 : splitString "10,0,0,1,256,21".toList ",".toList
        = ["10".toList, "0".toList, "0".toList, "1".toList, "256".toList, "21".toList] := by
      decide
    have h2 : portLoop 6 ["10".toList, "0".toList, "0".toList, "1".toList, "256".toList,
        "21".toList] 0 0 0 = some (0, 21) := by decide
    have h3 : joinString ["10".toList, "0".toList, "0".toList, "1".toList] ".".toList
        = "10.0.0.1".toList := by decide
    have h4 : writeCtrl COMMAND_OK "PORT Command successful. Consider using PASV".toList
        = Event.ctrlWrite "200 PORT Command successful. Consider using PASV\r\n".toList := by
      decide
    unfold PORTCommand.execute
    simp only [Bool.false_eq_true, if_false, List.length_cons, List.length_nil, ne_eq,
      not_true_eq_false, List.getD_cons_succ, List.getD_cons_zero, h1, h2, List.take, h3, h4]
    rfl
  · have h1 : splitString "10,0,0,1,,21".toList ",".toList
        = ["10".toList, "0".toList, "0".toList, "1".toList, [], "21".toList] := by
      decide
    have h2 : portLoop 6 ["10".toList, "0".toList, "0".toList, "1".toList, [],
        "21".toList] 0 0 0 = some (0, 21) := by decide
    have h3 : joinString ["10".toList, "0".toList, "0".toList, "1".toList] ".".toList
        = "10.0.0.1".toList := by decide
    have h4 : writeCtrl COMMAND_OK "PORT Command successful. Consider using PASV".toList
        = Event.ctrlWrite "200 PORT Command successful. Consider using PASV\r\n".toList := by
      decide
    unfold PORTCommand.execute
    simp only [Bool.false_eq_true, if_false, List.length_cons, List.length_nil, ne_eq,
      not_true_eq_false, List.getD_cons_succ, List.getD_cons_zero, h1, h2, List.take, h3, h4]
    rfl
  · have h1 : (splitString "10,0,0,1,0,21,99".toList ",".toList).length = 7 := by decide
    have h4 : writeCtrl COMMAND_ARGS_NOT_RECOGNIZED
        "Cannot recognize IP address and port number".toList
        = Event.ctrlWrite "501 Cannot recognize IP address and port number\r\n".toList := by
      decide
    unfold PORTCommand.execute
    simp only [Bool.false_eq_true, if_false, List.length_cons, List.length_nil, ne_eq,
      not_true_eq_false, List.getD_cons_succ, List.getD_cons_zero, h1, h4]
    rfl

/-- C16: EPRT does not answer a bad port.  In every state with `EPSVexclusive == false`
the argument `|1|10.0.0.1|80x|`, whose port field has a non-digit, produces no reply at
all and leaves the state unchanged (`if (toUnsignedInt(EPRTargs[2], port) != 0) return;`),
also through one iteration of the command loop of a logged-in session. -/
theorem EPRT_bad_port_no_reply :
    (∀ ftpPI : FtpServerPI,
      EPRTCommand.execute { ftpPI with EPSVexclusive := false }
          ["EPRT".toList, "|1|10.0.0.1|80x|".toList]
        = ({ ftpPI with EPSVexclusive := false }, [])) ∧
    runStep Host.plain "EPRT |1|10.0.0.1|80x|\r\nQUIT\r\n".toList transferSession
      = ⟨"QUIT\r\n".toList, transferSession, [], true⟩ := by
  refine ⟨fun ftpPI => ?_, by decide⟩
  have h0 : (["EPRT".toList, "|1|10.0.0.1|80x|".toList].getD 1 [])
      = "|1|10.0.0.1|80x|".toList := rfl
  have h1 : splitString (substr "|1|10.0.0.1|80x|".toList 1
      (("|1|10.0.0.1|80x|".toList.length + 2 ^ 64 - 2) % 2 ^ 64)) "|".toList
      = ["1".toList, "10.0.0.1".toList, "80x".toList] := by decide
  have h2 : toUnsignedInt UINT16_MAX "80x".toList = (-1, none) := by decide
  have h3 : ¬ (["EPRT".toList, "|1|10.0.0.1|80x|".toList].length ≠ 2
      ∨ "|1|10.0.0.1|80x|".toList.getLast? ≠ some '|'
      ∨ "|1|10.0.0.1|80x|".toList.head? ≠ some '|') := by decide
  unfold EPRTCommand.execute
  rw [h0]
  rw [if_neg (by simp), if_neg h3]
  simp only [h1, h2]
  rfl

/-! ## Tokenizer and line reader: proofs -/

theorem parseLoop_ne_nil (input : Str) (n : Nat) : ∀ i : Nat, parseLoop input n i ≠ [] := by
  induction n with
  | zero => intro i; simp [parseLoop]
  | succ n ih =>
    intro i
    rw [parseLoop]
    split
    · dsimp only
      split <;> simp
    · exact ih (i + 1)

theorem parseLoop_length_le (input : Str) (n : Nat) :
    ∀ i : Nat, (parseLoop input n i).length ≤ 2 := by
  induction n with
  | zero => intro i; simp [parseLoop]
  | succ n ih =>
    intro i
    rw [parseLoop]
    split
    · dsimp only
      split <;> simp
    · exact ih (i + 1)

/-- The tokenizer never returns an empty vector. -/
theorem parseCommandLine_ne_nil (input : Str) : parseCommandLine input ≠ [] :=
  parseLoop_ne_nil input _ 0

/-- C17: the empty command is not recognized as such.  In every session state one
iteration of the command loop on the line `CR LF` writes `500 Unrecognized command`, not
`500 Command empty`: `parseCommandLine` returns the one-element vector of the empty
string, and never an empty vector, so that the test `args.empty()` cannot succeed.  The
state is unchanged, and the loop goes on unless `quit` is already set. -/
theorem empty_line_unrecognized :
    (∀ (host : Host) (ftpPI : FtpServerPI) (rest : Str),
      runStep host ("\r\n".toList ++ rest) ftpPI
        = ⟨rest, ftpPI, [Event.ctrlWrite "500 Unrecognized command\r\n".toList],
            !ftpPI.quit⟩) ∧
    parseCommandLine "\r\n".toList = [[]] ∧
    (∀ input : Str, parseCommandLine input ≠ []) := by
  refine ⟨fun host ftpPI rest => ?_, by decide, parseCommandLine_ne_nil⟩
  have h := runStep_bare host ftpPI [] rest (by simp) (by decide)
  have hd := dispatch_bare host ftpPI [] (by simp) (by simp) (by decide)
  simp only [List.nil_append, List.map_nil] at h hd
  rw [h, hd]
  have hu : dispatchArgs host ftpPI [[]]
      = (ftpPI, [Event.ctrlWrite "500 Unrecognized command\r\n".toList], !ftpPI.quit) := by
    simp [dispatchArgs, loginCommands, commands, List.lookup]
    decide
  rw [hu]

theorem parseLoop_at_space (verb x : Str) (hv : ' ' ∉ verb) (n : Nat) :
    ∀ i : Nat, i ≤ verb.length → n = (verb ++ ' ' :: x).length - i →
      parseLoop (verb ++ ' ' :: x) n i
        = if substr (verb ++ ' ' :: x) (verb.length + 1)
              (((verb ++ ' ' :: x).length + 2 ^ 64 - verb.length - 3) % 2 ^ 64) ≠ []
          then [verb, substr (verb ++ ' ' :: x) (verb.length + 1)
              (((verb ++ ' ' :: x).length + 2 ^ 64 - verb.length - 3) % 2 ^ 64)]
          else [verb] := by
  induction n with
  | zero =>
    intro i hi hn
    simp only [List.length_append, List.length_cons] at hn
    omega
  | succ n ih =>
    intro i hi hn
    rw [parseLoop]
    rcases Nat.lt_or_ge i verb.length with hlt | hge
    · have hget : (verb ++ ' ' :: x).getD i '\x00' ≠ ' ' := by
        rw [List.getD_append _ _ _ _ hlt, List.getD_eq_getElem _ _ hlt]
        intro h
        exact hv (h ▸ List.getElem_mem hlt)
      simp only [hget, if_false]
      exact ih (i + 1) hlt (by omega)
    · have hieq : i = verb.length := by omega
      subst hieq
      have hget : (verb ++ ' ' :: x).getD verb.length '\x00' = ' ' := by
        rw [List.getD_append_right _ _ _ _ (le_refl _)]
        simp
      have hcmd : substr (verb ++ ' ' :: x) 0 verb.length = verb := by
        simp [substr]
      simp only [hget, if_true, hcmd]

/-- C19: the tokenizer.  For every verb without a space and every non-empty argument
(which may contain spaces and commas), `parseCommandLine` returns `[verb, arg]` on
`verb SP arg CR LF` (the line being a `std::string`, of fewer than `2 ^ 64` characters)
and `[verb]` on `verb CR LF`; its result never has more than two elements. -/
theorem parseCommandLine_tokens (verb arg : Str) (hv : ' ' ∉ verb) (ha : arg ≠ [])
    (hlen : (verb ++ " ".toList ++ arg ++ "\r\n".toList).length < 2 ^ 64) :
    parseCommandLine (verb ++ " ".toList ++ arg ++ "\r\n".toList) = [verb, arg] ∧
    parseCommandLine (verb ++ "\r\n".toList) = [verb] ∧
    (∀ input : Str, (parseCommandLine input).length ≤ 2) := by
  simp only [List.length_append, String.toList, List.length_cons, List.length_nil] at hlen
  refine ⟨?_, parseCommandLine_bare verb hv (by omega), fun input => parseLoop_length_le input _ 0⟩
  have e : verb ++ " ".toList ++ arg ++ "\r\n".toList = verb ++ ' ' :: (arg ++ "\r\n".toList) := by
    simp
  have hl : (verb ++ ' ' :: (arg ++ "\r\n".toList)).length = verb.length + 1 + arg.length + 2 := by
    simp only [List.length_append, String.toList, List.length_cons, List.length_nil]
    omega
  have hm : (verb.length + 1 + arg.length + 2 + 2 ^ 64 - verb.length - 3) % 2 ^ 64
      = arg.length := by
    have : verb.length + 1 + arg.length + 2 + 2 ^ 64 - verb.length - 3 = arg.length + 2 ^ 64 := by
      omega
    rw [this, Nat.add_mod_right]
    exact Nat.mod_eq_of_lt (by omega)
  have hsub : substr (verb ++ ' ' :: (arg ++ "\r\n".toList)) (verb.length + 1) arg.length
      = arg := by
    unfold substr
    have hd : (verb ++ ' ' :: (arg ++ "\r\n".toList)).drop (verb.length + 1)
        = arg ++ "\r\n".toList := by
      have e2 : verb ++ ' ' :: (arg ++ "\r\n".toList)
          = (verb ++ [' ']) ++ (arg ++ "\r\n".toList) := by simp
      rw [e2]
      exact List.drop_left' (by simp)
    rw [hd]
    exact List.take_left' rfl
  unfold parseCommandLine
  rw [e, parseLoop_at_space verb _ hv _ 0 (Nat.zero_le _) (Nat.sub_zero _).symm, hl, hm, hsub]
  simp [ha]

/-- Witness for C19: `PORT 10,0,0,1,4,0` and `USER  alice bob`. -/
theorem parseCommandLine_tokens_witness :
    parseCommandLine ("USER".toList ++ " ".toList ++ " alice, bob".toList ++ "\r\n".toList)
      = ["USER".toList, " alice, bob".toList] ∧
    parseCommandLine ("USER".toList ++ "\r\n".toList) = ["USER".toList] ∧
    (∀ input : Str, (parseCommandLine input).length ≤ 2) :=
  parseCommandLine_tokens "USER".toList " alice, bob".toList (by decide) (by decide)
    (by decide)

/-! ## Invariants of the session state: proofs -/

theorem dispatchArgs_keeps (H : Host → Prop) (P : FtpServerPI → Prop)
    (hl : ∀ kf ∈ loginCommands, KeepsOn H P kf.2) (hc : ∀ kf ∈ commands, KeepsOn H P kf.2)
    (host : Host) (ftpPI : FtpServerPI) (args : List Str) (hH : H host) (h : P ftpPI) :
    P (dispatchArgs host ftpPI args).1 := by
  unfold dispatchArgs
  split
  · next loginCmd hlk =>
    obtain ⟨k, hk⟩ := lookup_mem _ _ _ hlk
    exact hl (k, loginCmd) hk host ftpPI args hH h
  · split
    · exact h
    · next cmd hck =>
      obtain ⟨k, hk⟩ := lookup_mem _ _ _ hck
      split_ifs
      · exact hc (k, cmd) hk host ftpPI args hH h
      · exact h

theorem runStep_keeps (H : Host → Prop) (P : FtpServerPI → Prop)
    (hl : ∀ kf ∈ loginCommands, KeepsOn H P kf.2) (hc : ∀ kf ∈ commands, KeepsOn H P kf.2)
    (host : Host) (pending : Str) (ftpPI : FtpServerPI) (hH : H host) (h : P ftpPI) :
    P (runStep host pending ftpPI).ftpPI := by
  simp only [runStep]
  split
  · exact h
  · split
    · exact h
    · simp only [dispatch]
      split
      · exact h
      · exact dispatchArgs_keeps H P hl hc host ftpPI _ hH h

theorem iterate_keeps (H : Host → Prop) (P : FtpServerPI → Prop)
    (hl : ∀ kf ∈ loginCommands, KeepsOn H P kf.2) (hc : ∀ kf ∈ commands, KeepsOn H P kf.2)
    (hosts : List Host) :
    ∀ (pending : Str) (ftpPI : FtpServerPI), (∀ host ∈ hosts, H host) → P ftpPI →
      P (iterate hosts pending ftpPI) := by
  induction hosts with
  | nil => intro pending ftpPI _ h; exact h
  | cons host hosts ih =>
    intro pending ftpPI hH h
    have h1 := runStep_keeps H P hl hc host pending ftpPI (hH host (by simp)) h
    rw [iterate]
    split_ifs
    · exact ih _ _ (fun x hx => hH x (by simp [hx])) h1
    · exact h1

theorem keepsLogin_USER : KeepsLogin (fun _ => USERCommand.execute) := by
  intro host ftpPI args
  simp only [USERCommand.execute]
  repeat' split
  all_goals exact ⟨rfl, rfl, rfl⟩

theorem keepsLogin_TYPE : KeepsLogin (fun _ => TYPECommand.execute) := by
  intro host ftpPI args
  simp only [TYPECommand.execute]
  repeat' split
  all_goals exact ⟨rfl, rfl, rfl⟩

theorem keepsLogin_QUIT : KeepsLogin (fun _ => QUITCommand.execute) :=
  fun _ _ _ => ⟨rfl, rfl, rfl⟩

theorem keepsLogin_PWD : KeepsLogin (fun _ => PWDCommand.execute) :=
  fun _ _ _ => ⟨rfl, rfl, rfl⟩

theorem keepsLogin_PORT : KeepsLogin (fun _ => PORTCommand.execute) := by
  intro host ftpPI args
  show SameLogin ftpPI (PORTCommand.execute ftpPI args).1
  unfold PORTCommand.execute
  repeat' first | split | dsimp only
  all_goals exact ⟨rfl, rfl, rfl⟩

/-- The outcomes of `EPRTCommand::execute`: the state is left as it is, or only its DTP is
set; nothing is written, or one reply with a fixed text. -/
theorem EPRT_outcomes (P : FtpServerPI × List Event → Prop) (ftpPI : FtpServerPI)
    (args : List Str) (h0 : P (ftpPI, []))
    (h1 : ∀ (code : Nat) (msg : Str), code ∈ handlerCodes → NoBreak msg →
      P (ftpPI, [writeCtrl code msg]))
    (h2 : ∀ (d : FtpServerDTP) (code : Nat) (msg : Str), code ∈ handlerCodes → NoBreak msg →
      P ({ ftpPI with ftpDTP := d }, [writeCtrl code msg])) :
    P (EPRTCommand.execute ftpPI args) := by
  unfold EPRTCommand.execute
  generalize 2 ^ 64 = K
  repeat' first | split | dsimp only
  all_goals first
    | exact h0
    | exact h1 _ _ (by decide) (by decide)
    | exact h2 _ _ _ (by decide) (by decide)

theorem keepsLogin_EPRT : KeepsLogin (fun _ => EPRTCommand.execute) :=
  fun _ ftpPI args => EPRT_outcomes (fun r => SameLogin ftpPI r.1) ftpPI args
    ⟨rfl, rfl, rfl⟩ (fun _ _ _ _ => ⟨rfl, rfl, rfl⟩) (fun _ _ _ _ _ => ⟨rfl, rfl, rfl⟩)

theorem keepsLogin_PASV : KeepsLogin PASVCommand.execute := by
  intro host ftpPI args
  show SameLogin ftpPI (PASVCommand.execute host ftpPI args).1
  unfold PASVCommand.execute
  repeat' first | split | dsimp only
  all_goals exact ⟨rfl, rfl, rfl⟩

theorem keepsLogin_EPSV : KeepsLogin EPSVCommand.execute := by
  intro host ftpPI args
  show SameLogin ftpPI (EPSVCommand.execute host ftpPI args).1
  unfold EPSVCommand.execute
  repeat' first | split | dsimp only
  all_goals exact ⟨rfl, rfl, rfl⟩

theorem sendOverData_sameLogin (host : Host) (ftpPI : FtpServerPI) (data : IStream)
    (m1 m2 : Str) : SameLogin ftpPI (sendOverData host ftpPI data m1 m2).1 := by
  simp only [sendOverData]
  repeat' split
  all_goals exact ⟨rfl, rfl, rfl⟩

theorem keepsLogin_LIST : KeepsLogin LISTCommand.execute := by
  intro host ftpPI args
  simp only [LISTCommand.execute]
  exact sendOverData_sameLogin _ _ _ _ _

theorem keepsLogin_RETR : KeepsLogin RETRCommand.execute := by
  intro host ftpPI args
  simp only [RETRCommand.execute]
  repeat' split
  all_goals first | exact ⟨rfl, rfl, rfl⟩ | exact sendOverData_sameLogin _ _ _ _ _

theorem keepsLogin_STOR : KeepsLogin STORCommand.execute := by
  intro host ftpPI args
  simp only [STORCommand.execute]
  repeat' split
  all_goals exact ⟨rfl, rfl, rfl⟩

/-- A property of the home directory, the working directory and the login flag is kept
by every command other than PASS, CWD and CDUP. -/
theorem keepsOn_of_keepsLogin (H : Host → Prop) (P : FtpServerPI → Prop) (f : Execute)
    (hP : ∀ a b : FtpServerPI, SameLogin a b → P a → P b) (hf : KeepsLogin f) :
    KeepsOn H P f :=
  fun host ftpPI args _ h => hP ftpPI _ (hf host ftpPI args) h

/-- A property of the session state kept by PASS, CWD and CDUP, and indifferent to the
other fields, is kept by every command. -/
theorem keepsOn_tables (H : Host → Prop) (P : FtpServerPI → Prop)
    (hP : ∀ a b : FtpServerPI, SameLogin a b → P a → P b)
    (hPASS : KeepsOn H P PASSCommand.execute) (hCWD : KeepsOn H P CWDCommand.execute)
    (hCDUP : KeepsOn H P CDUPCommand.execute) :
    (∀ kf ∈ loginCommands, KeepsOn H P kf.2) ∧ (∀ kf ∈ commands, KeepsOn H P kf.2) := by
  constructor
  · simp only [loginCommands, List.forall_mem_cons]
    exact ⟨keepsOn_of_keepsLogin H P _ hP keepsLogin_USER, hPASS,
      keepsOn_of_keepsLogin H P _ hP keepsLogin_QUIT, by simp⟩
  · simp only [commands, List.forall_mem_cons]
    exact ⟨keepsOn_of_keepsLogin H P _ hP keepsLogin_TYPE,
      keepsOn_of_keepsLogin H P _ hP keepsLogin_PWD, hCWD, hCDUP,
      keepsOn_of_keepsLogin H P _ hP keepsLogin_PORT,
      keepsOn_of_keepsLogin H P _ hP keepsLogin_EPRT,
      keepsOn_of_keepsLogin H P _ hP keepsLogin_PASV,
      keepsOn_of_keepsLogin H P _ hP keepsLogin_EPSV,
      keepsOn_of_keepsLogin H P _ hP keepsLogin_LIST,
      keepsOn_of_keepsLogin H P _ hP keepsLogin_RETR,
      keepsOn_of_keepsLogin H P _ hP keepsLogin_STOR, by simp⟩

theorem wdNormal_PASS : KeepsOn (fun _ => True) WdNormal PASSCommand.execute := by
  intro host ftpPI args _ h
  have h0 : normalizePath [] = ([] : Str) := by decide
  simp only [PASSCommand.execute]
  repeat' split
  all_goals first | exact h | exact h0

theorem wdNormal_CWD : KeepsOn (fun _ => True) WdNormal CWDCommand.execute := by
  intro host ftpPI args _ h
  have h0 : normalizePath [] = ([] : Str) := by decide
  unfold CWDCommand.execute
  by_cases h2 : args.length = 2
  · by_cases habs : (args.getD 1 []).getD 0 '\x00' = '/'
    · simp only [h2, habs, if_true]
      split
      · exact normalizePath_joinSlash_idem _
      · exact h
    · simp only [h2, habs, if_true, if_false]
      split
      · exact normalizePath_joinSlash_idem _
      · exact h
  · simp only [h2, if_false]
    split
    · exact h0
    · exact h

theorem wdNormal_CDUP : KeepsOn (fun _ => True) WdNormal CDUPCommand.execute := by
  intro host ftpPI args _ h
  unfold CDUPCommand.execute
  dsimp only
  split
  · exact normalizePath_joinSlash_idem _
  · exact h

theorem wdNormal_tables :
    (∀ kf ∈ loginCommands, KeepsOn (fun _ => True) WdNormal kf.2)
      ∧ (∀ kf ∈ commands, KeepsOn (fun _ => True) WdNormal kf.2) :=
  keepsOn_tables (fun _ => True) WdNormal
    (fun a b hab ha => by unfold WdNormal at ha ⊢; rw [hab.2.1]; exact ha)
    wdNormal_PASS wdNormal_CWD wdNormal_CDUP

theorem head_of_wdNormal (ftpPI : FtpServerPI) (h : WdNormal ftpPI) :
    ftpPI.userWorkingDir.head? ≠ some '/' := by
  unfold WdNormal at h
  rw [← h]
  exact (normalizePath_normal _).1

/-- C14: working-directory invariant.  The working directory of the initial state is in
normalized form; so is, on every host and file system and for every input of the client,
the working directory after any number of iterations of the command loop, which
therefore does not start with `/`; and in every state whose working directory is
normalized, every command of the two tables (PASS, CWD with or without argument, CDUP
and all others), with any arguments, and every iteration of the loop leave it
normalized. -/
theorem working_dir_invariant (hosts : List Host) (pending : Str) (host : Host)
    (ftpPI : FtpServerPI) (args : List Str) :
    normalizePath FtpServerPI.init.userWorkingDir = FtpServerPI.init.userWorkingDir ∧
    normalizePath (iterate hosts pending FtpServerPI.init).userWorkingDir
      = (iterate hosts pending FtpServerPI.init).userWorkingDir ∧
    (iterate hosts pending FtpServerPI.init).userWorkingDir.head? ≠ some '/' ∧
    (normalizePath ftpPI.userWorkingDir = ftpPI.userWorkingDir →
      (∀ kf ∈ loginCommands ++ commands,
        normalizePath (kf.2 host ftpPI args).1.userWorkingDir
          = (kf.2 host ftpPI args).1.userWorkingDir) ∧
      normalizePath (runStep host pending ftpPI).ftpPI.userWorkingDir
        = (runStep host pending ftpPI).ftpPI.userWorkingDir ∧
      normalizePath (iterate hosts pending ftpPI).userWorkingDir
        = (iterate hosts pending ftpPI).userWorkingDir ∧
      (iterate hosts pending ftpPI).userWorkingDir.head? ≠ some '/') := by
  have h0 : WdNormal FtpServerPI.init := by unfold WdNormal; decide
  have hit : ∀ s : FtpServerPI, WdNormal s → WdNormal (iterate hosts pending s) :=
    fun s hs => iterate_keeps (fun _ => True) WdNormal wdNormal_tables.1 wdNormal_tables.2
      hosts pending s (fun _ _ => trivial) hs
  refine ⟨h0, hit _ h0, head_of_wdNormal _ (hit _ h0), fun h => ⟨?_, ?_, hit _ h,
    head_of_wdNormal _ (hit _ h)⟩⟩
  · intro kf hkf
    rcases List.mem_append.1 hkf with hk | hk
    · exact wdNormal_tables.1 kf hk host ftpPI args trivial h
    · exact wdNormal_tables.2 kf hk host ftpPI args trivial h
  · exact runStep_keeps (fun _ => True) WdNormal wdNormal_tables.1 wdNormal_tables.2
      host pending ftpPI trivial h

/-- Witness for C14: `alice` logs in and changes to `../x/./y`; a session in the directory
`old` receives `CWD ../x/./y` and `CDUP`. -/
theorem working_dir_invariant_witness :
    normalizePath FtpServerPI.init.userWorkingDir = FtpServerPI.init.userWorkingDir ∧
    normalizePath (iterate [homeHost, homeHost, homeHost]
        "USER alice\r\nPASS secret\r\nCWD ../x/./y\r\n".toList
        FtpServerPI.init).userWorkingDir
      = (iterate [homeHost, homeHost, homeHost]
        "USER alice\r\nPASS secret\r\nCWD ../x/./y\r\n".toList
        FtpServerPI.init).userWorkingDir ∧
    (iterate [homeHost, homeHost, homeHost]
        "USER alice\r\nPASS secret\r\nCWD ../x/./y\r\n".toList
        FtpServerPI.init).userWorkingDir.head? ≠ some '/' ∧
    (∀ kf ∈ loginCommands ++ commands,
      normalizePath (kf.2 homeHost { aliceSession with loggedIn := true }
          ["CWD".toList, "../x/./y".toList]).1.userWorkingDir
        = (kf.2 homeHost { aliceSession with loggedIn := true }
          ["CWD".toList, "../x/./y".toList]).1.userWorkingDir) ∧
    normalizePath (runStep homeHost "USER alice\r\nPASS secret\r\nCWD ../x/./y\r\n".toList
        { aliceSession with loggedIn := true }).ftpPI.userWorkingDir
      = (runStep homeHost "USER alice\r\nPASS secret\r\nCWD ../x/./y\r\n".toList
        { aliceSession with loggedIn := true }).ftpPI.userWorkingDir ∧
    normalizePath (iterate [homeHost, homeHost, homeHost]
        "USER alice\r\nPASS secret\r\nCWD ../x/./y\r\n".toList
        { aliceSession with loggedIn := true }).userWorkingDir
      = (iterate [homeHost, homeHost, homeHost]
        "USER alice\r\nPASS secret\r\nCWD ../x/./y\r\n".toList
        { aliceSession with loggedIn := true }).userWorkingDir ∧
    (iterate [homeHost, homeHost, homeHost]
        "USER alice\r\nPASS secret\r\nCWD ../x/./y\r\n".toList
        { aliceSession with loggedIn := true }).userWorkingDir.head? ≠ some '/' :=
  have h := working_dir_invariant [homeHost, homeHost, homeHost]
    "USER alice\r\nPASS secret\r\nCWD ../x/./y\r\n".toList
    homeHost { aliceSession with loggedIn := true } ["CWD".toList, "../x/./y".toList]
  have h4 := h.2.2.2 (by decide)
  ⟨h.1, h.2.1, h.2.2.1, h4.1, h4.2.1, h4.2.2.1, h4.2.2.2⟩

theorem homeSet_PASS : KeepsOn HomesNonEmpty HomeSet PASSCommand.execute := by
  intro host ftpPI args hH h
  unfold PASSCommand.execute
  split
  · exact h
  · split
    · exact h
    · dsimp only
      split
      · exact h
      · next content hfile =>
        split
        · next home hloop =>
          rw [passLoop_eq_find] at hloop
          obtain ⟨r, hr, hrh⟩ := Option.map_eq_some'.1 hloop
          intro _
          dsimp only
          rw [← hrh]
          exact hH content hfile r (List.mem_of_find?_eq_some hr)
        · intro hl
          exact absurd hl (by simp)

theorem homeSet_CWD : KeepsOn HomesNonEmpty HomeSet CWDCommand.execute := by
  intro host ftpPI args _ h
  unfold CWDCommand.execute
  dsimp only
  repeat' split
  all_goals exact h

theorem homeSet_CDUP : KeepsOn HomesNonEmpty HomeSet CDUPCommand.execute := by
  intro host ftpPI args _ h
  unfold CDUPCommand.execute
  dsimp only
  repeat' split
  all_goals exact h

theorem homeSet_tables :
    (∀ kf ∈ loginCommands, KeepsOn HomesNonEmpty HomeSet kf.2)
      ∧ (∀ kf ∈ commands, KeepsOn HomesNonEmpty HomeSet kf.2) :=
  keepsOn_tables HomesNonEmpty HomeSet
    (fun a b hab ha => by unfold HomeSet at ha ⊢; rw [hab.1, hab.2.2]; exact ha)
    homeSet_PASS homeSet_CWD homeSet_CDUP

/-- C13, as the claim states it, fails: with the accounts record `root pw /` the commands
`USER root`, `PASS pw` reach a state with `loggedIn` true and an empty
`userNativeHomeDir` (`normalizePath("/")` is the empty string). -/
theorem login_with_empty_home :
    (iterate [rootHost, rootHost] "USER root\r\nPASS pw\r\n".toList
      FtpServerPI.init).loggedIn = true ∧
    (iterate [rootHost, rootHost] "USER root\r\nPASS pw\r\n".toList
      FtpServerPI.init).userNativeHomeDir = [] := by
  decide

/-- C13, amended: login invariant.  For every input of the client and every sequence of
hosts in whose accounts tables no home directory normalizes to the empty string, in the
state after any number of iterations of the command loop, if `loggedIn` is true then
`userNativeHomeDir` is non-empty. -/
theorem login_invariant (hosts : List Host) (pending : Str)
    (hH : ∀ host ∈ hosts, ∀ content : Str, host.accountsFile = some content →
      ∀ r ∈ accountsTable content, normalizePath r.2.2 ≠ []) :
    (iterate hosts pending FtpServerPI.init).loggedIn = true →
      (iterate hosts pending FtpServerPI.init).userNativeHomeDir ≠ [] :=
  iterate_keeps HomesNonEmpty HomeSet homeSet_tables.1 homeSet_tables.2 hosts pending
    FtpServerPI.init hH (fun h => absurd h (by decide))

/-- Witness for C13: `alice` logs in with the home directory `srv/alice`. -/
theorem login_invariant_witness :
    (iterate [accountsHost, accountsHost] "USER alice\r\nPASS secret\r\n".toList
        FtpServerPI.init).loggedIn = true ∧
    (iterate [accountsHost, accountsHost] "USER alice\r\nPASS secret\r\n".toList
        FtpServerPI.init).userNativeHomeDir ≠ [] :=
  ⟨by decide,
    login_invariant [accountsHost, accountsHost] "USER alice\r\nPASS secret\r\n".toList
      (by
        intro host hhost content hc r hr
        simp only [List.mem_cons, List.mem_singleton, List.not_mem_nil, or_false, or_self]
          at hhost
        subst hhost
        have hc' : content = accountsText := (Option.some.inj hc).symm
        subst hc'
        revert r hr
        decide)
      (by decide)⟩

/-! ## PORT on well-formed arguments: proofs -/

theorem decimalFrom_ge (f : Str) : ∀ n : Nat, n ≤ decimalFrom n f := by
  induction f with
  | nil => intro n; exact Nat.le_refl n
  | cons c rest ih =>
    intro n
    show n ≤ decimalFrom (n * 10 + (c.toNat - '0'.toNat)) rest
    exact Nat.le_trans (by omega) (ih _)

theorem digit_le (c : Char) (h : c ≤ '9') : c.toNat - '0'.toNat ≤ 9 := by
  have h' : c.toNat ≤ '9'.toNat := h
  have e : '9'.toNat = 57 := by decide
  have e0 : '0'.toNat = 48 := by decide
  omega

theorem toUnsignedIntLoop_numeral (f : Str) :
    ∀ n : Nat, (∀ c ∈ f, '0' ≤ c ∧ c ≤ '9') → decimalFrom n f ≤ 255 →
      toUnsignedIntLoop UINT8_MAX f n = (0, decimalFrom n f) := by
  induction f with
  | nil => intro n _ _; rfl
  | cons c rest ih =>
    intro n hd hv
    have hc := hd c (List.mem_cons_self c rest)
    have h9 := digit_le c hc.2
    have hv' : decimalFrom (n * 10 + (c.toNat - '0'.toNat)) rest ≤ 255 := hv
    have hge := decimalFrom_ge rest (n * 10 + (c.toNat - '0'.toNat))
    have hcheck : n ≤ UINT8_MAX - (c.toNat - '0'.toNat) := by
      unfold UINT8_MAX; omega
    have hmod : (n * 10 + (c.toNat - '0'.toNat)) % 2 ^ 64 = n * 10 + (c.toNat - '0'.toNat) :=
      Nat.mod_eq_of_lt (by omega)
    rw [toUnsignedIntLoop, if_pos hc]
    dsimp only
    rw [if_pos hcheck, hmod]
    exact ih _ (fun d hdm => hd d (List.mem_cons_of_mem c hdm)) hv'

theorem toUnsignedInt_field (f : Str) (h : PortField f) :
    toUnsignedInt UINT8_MAX f = (0, some (decimalValue f)) := by
  have hl := toUnsignedIntLoop_numeral f 0 h.2.1 h.2.2
  have hv : decimalValue f ≤ 255 := h.2.2
  unfold toUnsignedInt
  rw [hl]
  show ((0 : Int), some (decimalFrom 0 f % (UINT8_MAX + 1))) = (0, some (decimalValue f))
  have : decimalFrom 0 f % (UINT8_MAX + 1) = decimalValue f :=
    Nat.mod_eq_of_lt (by unfold UINT8_MAX; unfold decimalValue at hv; omega)
  rw [this]

theorem findFrom_none (str : Str) (c : Char) :
    ∀ (n pos : Nat), c ∉ str.drop pos → findFrom str [c] n pos = none := by
  intro n
  induction n with
  | zero => intro pos _; rfl
  | succ n ih =>
    intro pos h
    have hp : List.isPrefixOf [c] (str.drop pos) = false := by
      cases hd : str.drop pos with
      | nil => rfl
      | cons a t =>
        rw [hd] at h
        have : c ≠ a := fun e => h (by rw [e]; exact List.mem_cons_self a t)
        simp [List.isPrefixOf, this]
    have hnext : c ∉ str.drop (pos + 1) := by
      intro hm
      rw [← List.drop_drop] at hm
      exact h (List.mem_of_mem_drop hm)
    rw [findFrom, hp]
    exact ih (pos + 1) hnext

theorem findFrom_some (str : Str) (c : Char) (rest : Str) (f : Str) :
    ∀ (n pos : Nat), c ∉ f → f.length < n → str.drop pos = f ++ c :: rest →
      findFrom str [c] n pos = some (pos + f.length) := by
  induction f with
  | nil =>
    intro n pos _ hn hd
    obtain ⟨m, rfl⟩ : ∃ m, n = m + 1 := ⟨n - 1, by simp at hn; omega⟩
    rw [findFrom, hd]
    simp [List.isPrefixOf]
  | cons a t ih =>
    intro n pos hc hn hd
    obtain ⟨m, rfl⟩ : ∃ m, n = m + 1 := ⟨n - 1, by simp at hn; omega⟩
    have hca : c ≠ a := fun e => hc (by rw [e]; exact List.mem_cons_self a t)
    have hct : c ∉ t := fun hm => hc (List.mem_cons_of_mem a hm)
    have hnext : str.drop (pos + 1) = t ++ c :: rest := by
      rw [← List.drop_drop, hd]; rfl
    have hp : List.isPrefixOf [c] (a :: t ++ c :: rest) = false := by
      simp [List.isPrefixOf, hca]
    rw [findFrom, hd, hp, if_neg (by decide)]
    rw [ih m (pos + 1) hct (by simp only [List.length_cons] at hn; omega) hnext]
    rw [List.length_cons, Nat.add_assoc, Nat.add_comm 1]

theorem splitLoop_fields (str : Str) (c : Char) :
    ∀ (fs : List Str) (f : Str) (n pos : Nat) (res : List Str),
      (∀ g ∈ f :: fs, c ∉ g) → fs.length ≤ n → str.drop pos = joinFields c (f :: fs) →
        splitLoop str [c] n pos res = res ++ f :: fs := by
  intro fs
  induction fs with
  | nil =>
    intro f n pos res hc _ hd
    have hcf : c ∉ str.drop pos := by rw [hd]; exact hc f (List.mem_cons_self f [])
    cases n with
    | zero => rw [splitLoop, hd]; rfl
    | succ m =>
      rw [splitLoop]
      unfold find
      rw [findFrom_none str c _ pos hcf, hd]
      rfl
  | cons g gs ih =>
    intro f n pos res hc hn hd
    obtain ⟨m, rfl⟩ : ∃ m, n = m + 1 := ⟨n - 1, by simp at hn; omega⟩
    have hd' : str.drop pos = f ++ c :: joinFields c (g :: gs) := hd
    have hlen : f.length < str.length + 1 - pos := by
      have := congrArg List.length hd'
      simp only [List.length_drop, List.length_append, List.length_cons] at this
      omega
    have hfind : find str [c] pos = some (pos + f.length) :=
      findFrom_some str c _ f _ pos (hc f (List.mem_cons_self f _)) hlen hd'
    have hsub : substr str pos (pos + f.length - pos) = f := by
      unfold substr
      rw [hd', Nat.add_sub_cancel_left]
      exact List.take_left' rfl
    have hnext : str.drop (pos + f.length + 1) = joinFields c (g :: gs) := by
      have e : f ++ c :: joinFields c (g :: gs) = (f ++ [c]) ++ joinFields c (g :: gs) := by
        simp
      rw [Nat.add_assoc, ← List.drop_drop, hd', e]
      exact List.drop_left' (by simp)
    rw [splitLoop, hfind]
    dsimp only
    rw [hsub, ih g m (pos + f.length + 1) (res ++ [f])
      (fun x hx => hc x (List.mem_cons_of_mem f hx)) (by simp at hn; omega) hnext]
    simp

theorem joinFields_length (c : Char) : ∀ (f : Str) (fs : List Str),
    fs.length ≤ (joinFields c (f :: fs)).length := by
  intro f fs
  induction fs generalizing f with
  | nil => simp
  | cons g gs ih =>
    have := ih g
    show (g :: gs).length ≤ (f ++ c :: joinFields c (g :: gs)).length
    simp only [List.length_cons, List.length_append]
    omega

theorem splitString_joinFields (c : Char) (f : Str) (fs : List Str)
    (hc : ∀ g ∈ f :: fs, c ∉ g) :
    splitString (joinFields c (f :: fs)) [c] = f :: fs := by
  unfold splitString
  rw [splitLoop_fields (joinFields c (f :: fs)) c fs f _ 0 [] hc
    (Nat.le_succ_of_le (joinFields_length c f fs)) rfl]
  rfl

theorem port_value (a b : Nat) (ha : a ≤ 255) (hb : b ≤ 255) :
    ((a <<< 8) &&& 0xFFFF) ||| b = a * 256 + b := by
  have h1 : a <<< 8 = a * 256 := by rw [Nat.shiftLeft_eq]
  have h2 : (a * 256) &&& 0xFFFF = a * 256 := by
    have := Nat.and_pow_two_sub_one_eq_mod (a * 256) 16
    norm_num at this
    rw [this]
    exact Nat.mod_eq_of_lt (by omega)
  rw [h1, h2]
  have := Nat.mul_add_lt_is_or (i := 8) (b := b) (by omega) a
  norm_num at this
  rw [Nat.mul_comm, this]

theorem portField_no_comma (f : Str) (h : PortField f) : ',' ∉ f := by
  intro hm
  exact absurd (h.2.1 ',' hm).1 (by decide)

/-- C12: PORT success.  In a logged-in state with `EPSVexclusive` false, for every argument
`h1,h2,h3,h4,p1,p2` whose six fields are decimal numerals with values in `[0, 255]`,
`PORTCommand::execute` sets the DTP to active mode (`connectSetup` and `activeMode` true)
with protocol IPv4, receiver address `h1.h2.h3.h4` and port `p1 * 256 + p2`, a value of at
most 65535, and writes the reply `200 PORT Command successful. Consider using PASV`; the
command loop hands the tokens `PORT`, argument to it and goes on. -/
theorem PORT_success (host : Host) (ftpPI : FtpServerPI) (h1 h2 h3 h4 p1 p2 : Str)
    (hE : ftpPI.EPSVexclusive = false) (hL : ftpPI.loggedIn = true)
    (hh1 : PortField h1) (hh2 : PortField h2) (hh3 : PortField h3) (hh4 : PortField h4)
    (hp1 : PortField p1) (hp2 : PortField p2) :
    PORTCommand.execute ftpPI ["PORT".toList,
        h1 ++ ",".toList ++ h2 ++ ",".toList ++ h3 ++ ",".toList ++ h4 ++ ",".toList
          ++ p1 ++ ",".toList ++ p2]
      = ({ ftpPI with ftpDTP :=
            { ftpPI.ftpDTP with
              receiverIP := h1 ++ ".".toList ++ h2 ++ ".".toList ++ h3 ++ ".".toList ++ h4,
              netProtocol := NetProtocol.IPv4,
              port := decimalValue p1 * 256 + decimalValue p2,
              activeMode := true, connectSetup := true } },
          [Event.ctrlWrite "200 PORT Command successful. Consider using PASV\r\n".toList]) ∧
    dispatchArgs host ftpPI ["PORT".toList,
        h1 ++ ",".toList ++ h2 ++ ",".toList ++ h3 ++ ",".toList ++ h4 ++ ",".toList
          ++ p1 ++ ",".toList ++ p2]
      = ({ ftpPI with ftpDTP :=
            { ftpPI.ftpDTP with
              receiverIP := h1 ++ ".".toList ++ h2 ++ ".".toList ++ h3 ++ ".".toList ++ h4,
              netProtocol := NetProtocol.IPv4,
              port := decimalValue p1 * 256 + decimalValue p2,
              activeMode := true, connectSetup := true } },
          [Event.ctrlWrite "200 PORT Command successful. Consider using PASV\r\n".toList],
          !ftpPI.quit) ∧
    decimalValue p1 * 256 + decimalValue p2 ≤ 65535 := by
  have harg : h1 ++ ",".toList ++ h2 ++ ",".toList ++ h3 ++ ",".toList ++ h4 ++ ",".toList
      ++ p1 ++ ",".toList ++ p2 = joinFields ',' [h1, h2, h3, h4, p1, p2] := by
    simp [joinFields]
  have hsplit : splitString (joinFields ',' [h1, h2, h3, h4, p1, p2]) ",".toList
      = [h1, h2, h3, h4, p1, p2] := by
    refine splitString_joinFields ',' h1 [h2, h3, h4, p1, p2] ?_
    simp only [List.forall_mem_cons]
    exact ⟨portField_no_comma h1 hh1, portField_no_comma h2 hh2, portField_no_comma h3 hh3,
      portField_no_comma h4 hh4, portField_no_comma p1 hp1, portField_no_comma p2 hp2,
      by simp⟩
  have hloop : portLoop 6 [h1, h2, h3, h4, p1, p2] 0 0 0
      = some (decimalValue p1, decimalValue p2) := by
    simp only [portLoop, toUnsignedInt_field h1 hh1, toUnsignedInt_field h2 hh2,
      toUnsignedInt_field h3 hh3, toUnsignedInt_field h4 hh4, toUnsignedInt_field p1 hp1,
      toUnsignedInt_field p2 hp2]
    rfl
  have hjoin : joinString ([h1, h2, h3, h4, p1, p2].take 4) ".".toList
      = h1 ++ ".".toList ++ h2 ++ ".".toList ++ h3 ++ ".".toList ++ h4 := by
    simp [joinString, joinLoop]
  have hport := port_value (decimalValue p1) (decimalValue p2) hp1.2.2 hp2.2.2
  have hexec : PORTCommand.execute ftpPI ["PORT".toList,
        joinFields ',' [h1, h2, h3, h4, p1, p2]]
      = ({ ftpPI with ftpDTP :=
            { ftpPI.ftpDTP with
              receiverIP := h1 ++ ".".toList ++ h2 ++ ".".toList ++ h3 ++ ".".toList ++ h4,
              netProtocol := NetProtocol.IPv4,
              port := decimalValue p1 * 256 + decimalValue p2,
              activeMode := true, connectSetup := true } },
          [Event.ctrlWrite "200 PORT Command successful. Consider using PASV\r\n".toList]) := by
    have hget : ["PORT".toList, joinFields ',' [h1, h2, h3, h4, p1, p2]].getD 1 []
        = joinFields ',' [h1, h2, h3, h4, p1, p2] := rfl
    have hloop6 : portLoop [h1, h2, h3, h4, p1, p2].length [h1, h2, h3, h4, p1, p2] 0 0 0
        = some (decimalValue p1, decimalValue p2) := hloop
    unfold PORTCommand.execute
    rw [if_neg (by rw [hE]; decide), if_neg (by simp)]
    simp only [hget, hsplit]
    rw [if_neg (by simp)]
    simp only [hloop6, hjoin, hport]
    rfl
  rw [harg]
  refine ⟨hexec, ?_, ?_⟩
  · have hd : dispatchArgs host ftpPI ["PORT".toList, joinFields ',' [h1, h2, h3, h4, p1, p2]]
        = ((PORTCommand.execute ftpPI
              ["PORT".toList, joinFields ',' [h1, h2, h3, h4, p1, p2]]).1,
            (PORTCommand.execute ftpPI
              ["PORT".toList, joinFields ',' [h1, h2, h3, h4, p1, p2]]).2,
            !(PORTCommand.execute ftpPI
              ["PORT".toList, joinFields ',' [h1, h2, h3, h4, p1, p2]]).1.quit) := by
      simp [dispatchArgs, loginCommands, commands, List.lookup, hL]
    rw [hd, hexec]
  · have a := hp1.2.2
    have b := hp2.2.2
    omega

/-- Witness for C12: `PORT 010,0,0,1,4,255` in the session `transferSession`. -/
theorem PORT_success_witness :
    PORTCommand.execute transferSession ["PORT".toList,
        "010".toList ++ ",".toList ++ "0".toList ++ ",".toList ++ "0".toList ++ ",".toList
          ++ "1".toList ++ ",".toList ++ "4".toList ++ ",".toList ++ "255".toList]
      = ({ transferSession with ftpDTP :=
            { transferSession.ftpDTP with
              receiverIP := "010".toList ++ ".".toList ++ "0".toList ++ ".".toList
                ++ "0".toList ++ ".".toList ++ "1".toList,
              netProtocol := NetProtocol.IPv4,
              port := decimalValue "4".toList * 256 + decimalValue "255".toList,
              activeMode := true, connectSetup := true } },
          [Event.ctrlWrite "200 PORT Command successful. Consider using PASV\r\n".toList]) ∧
    decimalValue "4".toList * 256 + decimalValue "255".toList = 1279 :=
  ⟨(PORT_success Host.plain transferSession "010".toList "0".toList "0".toList "1".toList
      "4".toList "255".toList rfl rfl ⟨by decide, by decide, by decide⟩
      ⟨by decide, by decide, by decide⟩ ⟨by decide, by decide, by decide⟩
      ⟨by decide, by decide, by decide⟩ ⟨by decide, by decide, by decide⟩
      ⟨by decide, by decide, by decide⟩).1,
    by decide⟩

/-! ## Order of the effects of a transfer: proofs -/

theorem sendAll_complete (failsAt : Option Nat) (writes : List Str)
    (h : (sendAll failsAt writes).2 = true) :
    sendAll failsAt writes = (writes.map Event.dataWrite, true) := by
  cases failsAt with
  | none => rfl
  | some k =>
    unfold sendAll at h ⊢
    by_cases hk : k < writes.length
    · simp [hk] at h
    · simp [hk]

theorem sendOverData_complete (host : Host) (ftpPI : FtpServerPI) (data : IStream)
    (msg150 msg226 : Str) (opened : FtpServerDTP)
    (hs : ftpPI.ftpDTP.connectSetup = true) (ho : ftpPI.ftpDTP.openData host = some opened)
    (hok : (sendAll host.sendFailsAt (opened.writeData data)).2 = true) :
    sendOverData host ftpPI data msg150 msg226
      = ({ ftpPI with ftpDTP := opened.closeDataConnect },
          [Event.dataOpen, writeCtrl FILE_STATUS_OK_OPEN_DATA_CONNECTION msg150]
            ++ (opened.writeData data).map Event.dataWrite
            ++ [Event.dataClose,
                writeCtrl CLOSE_DATA_CONNECTION_REQUEST_FILE_ACTION_SUCCESS msg226]) := by
  unfold sendOverData
  simp only [FtpServerDTP.doesDataConnectSetup, hs, not_true_eq_false, if_false, ho,
    sendAll_complete _ _ hok, if_true]

/-- C20: control/data ordering.  For a LIST, a RETR or a STOR whose data connection is set
up and opens and whose transfer completes without error, the effects are, in this order:
(for STOR, the file created,) the data channel opened, the `150` reply written to the
control channel, every buffer of the transfer written to the data channel (for STOR: read
from it and written to the file), the data channel closed, the `226` reply written.  So
nothing is transferred before the `150`, and the `226` comes after the close. -/
theorem transfer_order (host : Host) (ftpPI : FtpServerPI) (args : List Str)
    (opened : FtpServerDTP) (hs : ftpPI.ftpDTP.connectSetup = true)
    (ho : ftpPI.ftpDTP.openData host = some opened) :
    ((sendAll host.sendFailsAt (opened.writeData
        (IStream.ofContent (directoryList host (nativePathOf ftpPI args))))).2 = true →
      LISTCommand.execute host ftpPI args
        = ({ ftpPI with ftpDTP := opened.closeDataConnect },
            [Event.dataOpen,
              Event.ctrlWrite "150 Here come the directory listing\r\n".toList]
            ++ (opened.writeData
                (IStream.ofContent (directoryList host (nativePathOf ftpPI args)))).map
                  Event.dataWrite
            ++ [Event.dataClose,
                Event.ctrlWrite "226 Directory listing sent OK\r\n".toList])) ∧
    (∀ content : Str, isRegularFile host (nativePathOf ftpPI args) = true →
      host.readFile (nativePathOf ftpPI args) = some content →
      (sendAll host.sendFailsAt (opened.writeData (IStream.ofContent content))).2 = true →
      RETRCommand.execute host ftpPI args
        = ({ ftpPI with ftpDTP := opened.closeDataConnect },
            [Event.dataOpen,
              Event.ctrlWrite "150 Open data connection for file transfer\r\n".toList]
            ++ (opened.writeData (IStream.ofContent content)).map Event.dataWrite
            ++ [Event.dataClose,
                Event.ctrlWrite "226 Data connection close file sent OK\r\n".toList])) ∧
    (host.createFile (nativePathOf ftpPI args) = true →
      (readData host.dataChunk host.dataErr host.dataIn).2 = true →
      STORCommand.execute host ftpPI args
        = ({ ftpPI with ftpDTP := opened.closeDataConnect },
            [Event.fileCreate (nativePathOf ftpPI args), Event.dataOpen,
              Event.ctrlWrite "150 Open data connection for file transfer\r\n".toList]
            ++ storeEvents (nativePathOf ftpPI args)
                (readData host.dataChunk host.dataErr host.dataIn).1
            ++ [Event.dataClose,
                Event.ctrlWrite "226 Data connection close file sent OK\r\n".toList])) := by
  have h150l : writeCtrl FILE_STATUS_OK_OPEN_DATA_CONNECTION
      "Here come the directory listing".toList
      = Event.ctrlWrite "150 Here come the directory listing\r\n".toList := by decide
  have h226l : writeCtrl CLOSE_DATA_CONNECTION_REQUEST_FILE_ACTION_SUCCESS
      "Directory listing sent OK".toList
      = Event.ctrlWrite "226 Directory listing sent OK\r\n".toList := by decide
  have h150 : writeCtrl FILE_STATUS_OK_OPEN_DATA_CONNECTION
      "Open data connection for file transfer".toList
      = Event.ctrlWrite "150 Open data connection for file transfer\r\n".toList := by decide
  have h226 : writeCtrl CLOSE_DATA_CONNECTION_REQUEST_FILE_ACTION_SUCCESS
      "Data connection close file sent OK".toList
      = Event.ctrlWrite "226 Data connection close file sent OK\r\n".toList := by decide
  refine ⟨?_, ?_, ?_⟩
  · intro hok
    rw [← h150l, ← h226l]
    exact sendOverData_complete host ftpPI _ _ _ opened hs ho hok
  · intro content hreg hfile hok
    rw [← h150, ← h226, ← sendOverData_complete host ftpPI _ _ _ opened hs ho hok]
    unfold nativePathOf at hreg hfile
    simp only [RETRCommand.execute, hreg, hfile, not_true_eq_false, if_false]
  · intro hcreate hok
    rw [← h150, ← h226]
    unfold nativePathOf at hcreate ⊢
    simp only [STORCommand.execute, hcreate, FtpServerDTP.doesDataConnectSetup, hs, ho, hok,
      not_true_eq_false, if_false, if_true]

/-- Witness for C20: `LIST` and `RETR f.bin` in the session `transferSession`. -/
theorem transfer_order_witness :
    LISTCommand.execute downloadHost transferSession ["LIST".toList]
      = ({ transferSession with ftpDTP := transferOpened.closeDataConnect },
          [Event.dataOpen,
            Event.ctrlWrite "150 Here come the directory listing\r\n".toList]
          ++ (transferOpened.writeData (IStream.ofContent (directoryList downloadHost
                (nativePathOf transferSession ["LIST".toList])))).map Event.dataWrite
          ++ [Event.dataClose,
              Event.ctrlWrite "226 Directory listing sent OK\r\n".toList]) ∧
    RETRCommand.execute downloadHost transferSession ["RETR".toList, "f.bin".toList]
      = ({ transferSession with ftpDTP := transferOpened.closeDataConnect },
          [Event.dataOpen,
            Event.ctrlWrite "150 Open data connection for file transfer\r\n".toList]
          ++ (transferOpened.writeData (IStream.ofContent "hello".toList)).map
              Event.dataWrite
          ++ [Event.dataClose,
              Event.ctrlWrite "226 Data connection close file sent OK\r\n".toList]) ∧
    STORCommand.execute uploadHost transferSession ["STOR".toList, "f.bin".toList]
      = ({ transferSession with ftpDTP := transferOpened.closeDataConnect },
          [Event.fileCreate (nativePathOf transferSession ["STOR".toList, "f.bin".toList]),
            Event.dataOpen,
            Event.ctrlWrite "150 Open data connection for file transfer\r\n".toList]
          ++ storeEvents (nativePathOf transferSession ["STOR".toList, "f.bin".toList])
              (readData uploadHost.dataChunk uploadHost.dataErr uploadHost.dataIn).1
          ++ [Event.dataClose,
              Event.ctrlWrite "226 Data connection close file sent OK\r\n".toList]) :=
  ⟨(transfer_order downloadHost transferSession ["LIST".toList] transferOpened
      rfl rfl).1 rfl,
    (transfer_order downloadHost transferSession ["RETR".toList, "f.bin".toList]
      transferOpened rfl rfl).2.1 "hello".toList (by decide) rfl rfl,
    (transfer_order uploadHost transferSession ["STOR".toList, "f.bin".toList]
      transferOpened rfl rfl).2.2 rfl (by decide)⟩

/-! ## The replies of the commands: proofs -/

theorem noBreak_append (a b : Str) (ha : NoBreak a) (hb : NoBreak b) : NoBreak (a ++ b) := by
  unfold NoBreak at *
  simp only [List.mem_append, not_or]
  exact ⟨⟨ha.1, hb.1⟩, ha.2, hb.2⟩

theorem noBreak_of_subset (a b : Str) (h : ∀ c ∈ a, c ∈ b) (hb : NoBreak b) : NoBreak a :=
  ⟨fun hm => hb.1 (h _ hm), fun hm => hb.2 (h _ hm)⟩

theorem toDigitsCore_noBreak (fuel : Nat) :
    ∀ (n : Nat) (ds : Str), NoBreak ds → NoBreak (Nat.toDigitsCore 10 fuel n ds) := by
  induction fuel with
  | zero => intro n ds h; exact h
  | succ fuel ih =>
    intro n ds h
    have hd : ∀ k : Nat, k < 10 → NoBreak [Nat.digitChar k] := by decide
    have hcons : NoBreak ((n % 10).digitChar :: ds) :=
      noBreak_append [(n % 10).digitChar] ds (hd _ (Nat.mod_lt _ (by decide))) h
    rw [Nat.toDigitsCore]
    split
    · exact hcons
    · exact ih _ _ hcons

theorem to_string_noBreak (n : Nat) : NoBreak (to_string n) :=
  toDigitsCore_noBreak _ _ _ (by decide)

theorem mem_substr (s : Str) (pos n : Nat) (c : Char) (h : c ∈ substr s pos n) : c ∈ s :=
  List.mem_of_mem_drop (List.mem_of_mem_take h)

theorem splitLoop_mem (str token : Str) (n : Nat) :
    ∀ (prev : Nat) (res : List Str), (∀ t ∈ res, ∀ c ∈ t, c ∈ str) →
      ∀ t ∈ splitLoop str token n prev res, ∀ c ∈ t, c ∈ str := by
  induction n with
  | zero =>
    intro prev res hres t ht c hc
    rw [splitLoop] at ht
    rcases List.mem_append.1 ht with h | h
    · exact hres t h c hc
    · rw [List.mem_singleton.1 h] at hc
      exact List.mem_of_mem_drop hc
  | succ n ih =>
    intro prev res hres t ht c hc
    rw [splitLoop] at ht
    split at ht
    · next pos _ =>
      refine ih (pos + 1) _ ?_ t ht c hc
      intro u hu d hd
      rcases List.mem_append.1 hu with h | h
      · exact hres u h d hd
      · rw [List.mem_singleton.1 h] at hd
        exact mem_substr _ _ _ _ hd
    · rcases List.mem_append.1 ht with h | h
      · exact hres t h c hc
      · rw [List.mem_singleton.1 h] at hc
        exact List.mem_of_mem_drop hc

theorem splitString_noBreak (str token : Str) (h : NoBreak str) :
    ∀ t ∈ splitString str token, NoBreak t := by
  intro t ht
  refine noBreak_of_subset t str ?_ h
  exact splitLoop_mem str token _ 0 [] (fun _ hm => absurd hm (List.not_mem_nil _)) t ht

theorem appendFields_noBreak :
    ∀ (fields : List Str) (reply : Str), (∀ t ∈ fields, NoBreak t) → NoBreak reply →
      NoBreak (appendFields fields reply) := by
  intro fields
  induction fields with
  | nil => intro reply _ h; exact h
  | cons n rest ih =>
    intro reply hf h
    rw [appendFields]
    exact ih _ (fun t ht => hf t (List.mem_cons_of_mem n ht))
      (noBreak_append _ _ h (noBreak_append _ _ (hf n (List.mem_cons_self n rest))
        (by decide)))

theorem reply_writeCtrl (ok : Prop) (code : Nat) (msg : Str) (hc : code ∈ handlerCodes)
    (hm : ok → NoBreak msg) : Reply ok (writeCtrl code msg) :=
  fun _ _ => ⟨code, msg, hc, hm, rfl⟩

theorem replies_nil (ok : Prop) : Replies ok [] :=
  fun _ h => absurd h (List.not_mem_nil _)

theorem replies_cons (ok : Prop) (e : Event) (events : List Event) (he : Reply ok e)
    (h : Replies ok events) : Replies ok (e :: events) := by
  intro x hx
  rcases List.mem_cons.1 hx with rfl | hx
  · exact he
  · exact h x hx

theorem replies_append (ok : Prop) (a b : List Event) (ha : Replies ok a)
    (hb : Replies ok b) : Replies ok (a ++ b) := by
  intro x hx
  rcases List.mem_append.1 hx with h | h
  · exact ha x h
  · exact hb x h

theorem replies_one (ok : Prop) (code : Nat) (msg : Str) (hc : code ∈ handlerCodes)
    (hm : ok → NoBreak msg) : Replies ok [writeCtrl code msg] :=
  replies_cons ok _ _ (reply_writeCtrl ok code msg hc hm) (replies_nil ok)

theorem reply_dataOpen (ok : Prop) : Reply ok Event.dataOpen :=
  fun _ h => Event.noConfusion h

theorem reply_dataClose (ok : Prop) : Reply ok Event.dataClose :=
  fun _ h => Event.noConfusion h

theorem reply_fileCreate (ok : Prop) (path : Str) : Reply ok (Event.fileCreate path) :=
  fun _ h => Event.noConfusion h

theorem replies_dataWrite (ok : Prop) (writes : List Str) :
    Replies ok (writes.map Event.dataWrite) := by
  intro e he
  obtain ⟨w, _, rfl⟩ := List.mem_map.1 he
  exact fun _ h => Event.noConfusion h

theorem replies_storeEvents (ok : Prop) (nativePath : Str) :
    ∀ bufs : List Str, Replies ok (storeEvents nativePath bufs) := by
  intro bufs
  induction bufs with
  | nil => exact replies_nil ok
  | cons buf rest ih =>
    rw [storeEvents]
    exact replies_cons ok _ _ (fun _ h => Event.noConfusion h)
      (replies_cons ok _ _ (fun _ h => Event.noConfusion h) ih)

theorem replies_sendAll (ok : Prop) (failsAt : Option Nat) (writes : List Str) :
    Replies ok (sendAll failsAt writes).1 := by
  unfold sendAll
  repeat' split
  all_goals exact replies_dataWrite ok _

theorem repliesOK_USER : RepliesOK (fun _ => USERCommand.execute) := by
  intro host ftpPI args
  show Replies _ (USERCommand.execute ftpPI args).2
  unfold USERCommand.execute
  repeat' first | split | dsimp only
  all_goals exact replies_one _ _ _ (by decide) (fun _ => by decide)

theorem repliesOK_PASS : RepliesOK PASSCommand.execute := by
  intro host ftpPI args
  unfold PASSCommand.execute
  repeat' first | split | dsimp only
  all_goals exact replies_one _ _ _ (by decide) (fun _ => by decide)

theorem repliesOK_QUIT : RepliesOK (fun _ => QUITCommand.execute) :=
  fun _ _ _ => replies_one _ _ _ (by decide) (fun _ => by decide)

theorem repliesOK_TYPE : RepliesOK (fun _ => TYPECommand.execute) := by
  intro host ftpPI args
  show Replies _ (TYPECommand.execute ftpPI args).2
  unfold TYPECommand.execute
  repeat' first | split | dsimp only
  all_goals first
    | exact replies_one _ _ _ (by decide) (fun _ => by decide)
    | exact replies_one _ _ _ (by decide)
        (fun h => noBreak_append _ _ (noBreak_append _ _ (by decide) h.1) (by decide))

theorem repliesOK_PWD : RepliesOK (fun _ => PWDCommand.execute) :=
  fun _ _ _ => replies_one _ _ _ (by decide)
    (fun h => noBreak_append _ _
      (noBreak_append _ _ (by decide) (noBreak_append _ _ (by decide) h.2.1)) (by decide))

theorem repliesOK_CWD : RepliesOK CWDCommand.execute := by
  intro host ftpPI args
  unfold CWDCommand.execute
  generalize (if args.length = 2 then _ else ([] : Str)) = wd
  dsimp only
  split
  all_goals exact replies_one _ _ _ (by decide) (fun _ => by decide)

theorem repliesOK_CDUP : RepliesOK CDUPCommand.execute := by
  intro host ftpPI args
  unfold CDUPCommand.execute
  dsimp only
  split
  all_goals exact replies_one _ _ _ (by decide) (fun _ => by decide)

theorem repliesOK_PORT : RepliesOK (fun _ => PORTCommand.execute) := by
  intro host ftpPI args
  show Replies _ (PORTCommand.execute ftpPI args).2
  unfold PORTCommand.execute
  repeat' first | split | dsimp only
  all_goals exact replies_one _ _ _ (by decide) (fun _ => by decide)

theorem repliesOK_PASV : RepliesOK PASVCommand.execute := by
  intro host ftpPI args
  unfold PASVCommand.execute
  repeat' first | split | dsimp only
  all_goals first
    | exact replies_one _ _ _ (by decide) (fun _ => by decide)
    | exact replies_nil _
    | exact replies_one _ _ _ (by decide)
        (fun h => noBreak_append _ _
          (appendFields_noBreak _ _ (splitString_noBreak _ _ h.2.2) (by decide))
          (noBreak_append _ _
            (noBreak_append _ _ (noBreak_append _ _ (to_string_noBreak _) (by decide))
              (to_string_noBreak _))
            (by decide)))

theorem repliesOK_EPSV : RepliesOK EPSVCommand.execute := by
  intro host ftpPI args
  unfold EPSVCommand.execute
  repeat' first | split | dsimp only
  all_goals first
    | exact replies_one _ _ _ (by decide) (fun _ => by decide)
    | exact replies_nil _
    | exact replies_one _ _ _ (by decide)
        (fun _ => noBreak_append _ _
          (noBreak_append _ _ (by decide) (to_string_noBreak _)) (by decide))

theorem sendOverData_replies (ok : Prop) (host : Host) (ftpPI : FtpServerPI)
    (data : IStream) (msg150 msg226 : Str) (h150 : NoBreak msg150) (h226 : NoBreak msg226) :
    Replies ok (sendOverData host ftpPI data msg150 msg226).2 := by
  have hfail : Replies ok [Event.dataClose, writeCtrl CANNOT_OPEN_DATA_CONNECTION
      "Failed open data connection".toList] :=
    replies_cons ok _ _ (reply_dataClose ok)
      (replies_one ok _ _ (by decide) (fun _ => by decide))
  unfold sendOverData
  split
  · exact hfail
  · split
    · exact hfail
    · dsimp only
      refine replies_append ok _ _ (replies_append ok _ _ ?_ (replies_sendAll ok _ _)) ?_
      · exact replies_cons ok _ _ (reply_dataOpen ok)
          (replies_one ok _ _ (by decide) (fun _ => h150))
      · refine replies_cons ok _ _ (reply_dataClose ok) ?_
        split
        · exact replies_one ok _ _ (by decide) (fun _ => h226)
        · exact replies_one ok _ _ (by decide) (fun _ => by decide)

theorem repliesOK_LIST : RepliesOK LISTCommand.execute := by
  intro host ftpPI args
  unfold LISTCommand.execute
  exact sendOverData_replies _ _ _ _ _ _ (by decide) (by decide)

theorem repliesOK_RETR : RepliesOK RETRCommand.execute := by
  intro host ftpPI args
  unfold RETRCommand.execute
  generalize (if args.length = 2 then convertToNativePath ftpPI (args.getD 1 [])
    else convertToNativePath ftpPI []) = nativePath
  dsimp only
  split
  · exact replies_one _ _ _ (by decide) (fun _ => by decide)
  · exact sendOverData_replies _ _ _ _ _ _ (by decide) (by decide)

theorem repliesOK_STOR : RepliesOK STORCommand.execute := by
  intro host ftpPI args
  have hfail : ∀ (ok : Prop) (nativePath : Str),
      Replies ok [Event.fileCreate nativePath, Event.dataClose,
        writeCtrl CANNOT_OPEN_DATA_CONNECTION "Failed open data connection".toList] :=
    fun ok nativePath => replies_cons ok _ _ (reply_fileCreate ok nativePath)
      (replies_cons ok _ _ (reply_dataClose ok)
        (replies_one ok _ _ (by decide) (fun _ => by decide)))
  unfold STORCommand.execute
  generalize (if args.length = 2 then convertToNativePath ftpPI (args.getD 1 [])
    else convertToNativePath ftpPI []) = nativePath
  dsimp only
  split
  · exact replies_one _ _ _ (by decide) (fun _ => by decide)
  · split
    · exact hfail _ _
    · split
      · exact hfail _ _
      · refine replies_append _ _ _ (replies_append _ _ _ ?_ (replies_storeEvents _ _ _)) ?_
        · exact replies_cons _ _ _ (reply_fileCreate _ _)
            (replies_cons _ _ _ (reply_dataOpen _)
              (replies_one _ _ _ (by decide) (fun _ => by decide)))
        · refine replies_cons _ _ _ (reply_dataClose _) ?_
          split
          · exact replies_one _ _ _ (by decide) (fun _ => by decide)
          · exact replies_one _ _ _ (by decide) (fun _ => by decide)

theorem repliesOK_EPRT : RepliesOK (fun _ => EPRTCommand.execute) :=
  fun host ftpPI args =>
    EPRT_outcomes (fun r => Replies (Harmless host ftpPI args) r.2) ftpPI args
      (replies_nil _) (fun code msg hc hm => replies_one _ code msg hc (fun _ => hm))
      (fun _ code msg hc hm => replies_one _ code msg hc (fun _ => hm))

theorem repliesOK_tables :
    (∀ kf ∈ loginCommands, RepliesOK kf.2) ∧ (∀ kf ∈ commands, RepliesOK kf.2) := by
  constructor
  · simp only [loginCommands, List.forall_mem_cons]
    exact ⟨repliesOK_USER, repliesOK_PASS, repliesOK_QUIT, by simp⟩
  · simp only [commands, List.forall_mem_cons]
    exact ⟨repliesOK_TYPE, repliesOK_PWD, repliesOK_CWD, repliesOK_CDUP, repliesOK_PORT,
      repliesOK_EPRT, repliesOK_PASV, repliesOK_EPSV, repliesOK_LIST, repliesOK_RETR,
      repliesOK_STOR, by simp⟩

/-- What `dispatchArgs` writes: the replies of a command, or `500 Unrecognized command`. -/
theorem dispatchArgs_replies (host : Host) (ftpPI : FtpServerPI) (args : List Str) :
    Replies (Harmless host ftpPI args) (dispatchArgs host ftpPI args).2.1 ∨
    (dispatchArgs host ftpPI args).2.1
      = [writeCtrl COMMAND_NOT_RECOGNIZED "Unrecognized command".toList] := by
  unfold dispatchArgs
  split
  · next loginCmd hlk =>
    obtain ⟨k, hk⟩ := lookup_mem _ _ _ hlk
    exact Or.inl (repliesOK_tables.1 (k, loginCmd) hk host ftpPI args)
  · split
    · exact Or.inr rfl
    · next cmd hck =>
      obtain ⟨k, hk⟩ := lookup_mem _ _ _ hck
      split_ifs
      · exact Or.inl (repliesOK_tables.2 (k, cmd) hk host ftpPI args)
      · exact Or.inl (replies_one _ _ _ (by decide) (fun _ => by decide))

/-- What `dispatch` writes on the buffer `buf`, in terms of the tokens of `buf`. -/
theorem dispatch_replies (host : Host) (ftpPI : FtpServerPI) (buf : Str) :
    Replies (Harmless host ftpPI (((parseCommandLine (cstr buf)).headD []).map toupper
        :: (parseCommandLine (cstr buf)).tail)) (dispatch host ftpPI buf).2.1 ∨
    (dispatch host ftpPI buf).2.1
      = [writeCtrl COMMAND_NOT_RECOGNIZED "Unrecognized command".toList] := by
  have hne := parseCommandLine_ne_nil (cstr buf)
  unfold dispatch
  simp only [hne, if_false]
  exact dispatchArgs_replies host ftpPI _

theorem first_occurrence (c : Char) :
    ∀ l : Str, c ∈ l → ∃ a b : Str, l = a ++ c :: b ∧ c ∉ a := by
  intro l
  induction l with
  | nil => intro h; exact absurd h (List.not_mem_nil _)
  | cons x xs ih =>
    intro h
    by_cases hx : x = c
    · exact ⟨[], xs, by rw [hx]; rfl, List.not_mem_nil _⟩
    · have hxs : c ∈ xs := by
        rcases List.mem_cons.1 h with h | h
        · exact absurd h.symm hx
        · exact h
      obtain ⟨a, b, hab, hca⟩ := ih hxs
      refine ⟨x :: a, b, by rw [hab]; rfl, ?_⟩
      intro hm
      rcases List.mem_cons.1 hm with h | h
      · exact hx h.symm
      · exact hca h

theorem parseLoop_mem (input : Str) (n : Nat) :
    ∀ i : Nat, ∀ t ∈ parseLoop input n i, ∀ c ∈ t, c ∈ input := by
  induction n with
  | zero =>
    intro i t ht c hc
    rw [parseLoop, List.mem_singleton] at ht
    rw [ht] at hc
    exact mem_substr _ _ _ _ hc
  | succ n ih =>
    intro i t ht c hc
    rw [parseLoop] at ht
    split at ht
    · dsimp only at ht
      split at ht
      · rcases List.mem_cons.1 ht with h | h
        · rw [h] at hc; exact mem_substr _ _ _ _ hc
        · rw [List.mem_singleton.1 h] at hc; exact mem_substr _ _ _ _ hc
      · rw [List.mem_singleton.1 ht] at hc; exact mem_substr _ _ _ _ hc
    · exact ih (i + 1) t ht c hc

/-- The tokens of the line `verb SP arg CR LF`. -/
theorem parseCommandLine_pair (verb arg : Str) (hv : ' ' ∉ verb)
    (hlen : verb.length + arg.length + 3 < 2 ^ 64) :
    parseCommandLine (verb ++ ' ' :: (arg ++ "\r\n".toList))
      = if arg ≠ [] then [verb, arg] else [verb] := by
  have hl : (verb ++ ' ' :: (arg ++ "\r\n".toList)).length
      = verb.length + 1 + arg.length + 2 := by
    simp only [List.length_append, String.toList, List.length_cons, List.length_nil]
    omega
  have hm : (verb.length + 1 + arg.length + 2 + 2 ^ 64 - verb.length - 3) % 2 ^ 64
      = arg.length := by
    have : verb.length + 1 + arg.length + 2 + 2 ^ 64 - verb.length - 3
        = arg.length + 2 ^ 64 := by omega
    rw [this, Nat.add_mod_right]
    exact Nat.mod_eq_of_lt (by omega)
  have hsub : substr (verb ++ ' ' :: (arg ++ "\r\n".toList)) (verb.length + 1) arg.length
      = arg := by
    unfold substr
    have hd : (verb ++ ' ' :: (arg ++ "\r\n".toList)).drop (verb.length + 1)
        = arg ++ "\r\n".toList := by
      have e2 : verb ++ ' ' :: (arg ++ "\r\n".toList)
          = (verb ++ [' ']) ++ (arg ++ "\r\n".toList) := by simp
      rw [e2]
      exact List.drop_left' (by simp)
    rw [hd]
    exact List.take_left' rfl
  unfold parseCommandLine
  rw [parseLoop_at_space verb _ hv _ 0 (Nat.zero_le _) (Nat.sub_zero _).symm, hl, hm, hsub]

/-- The tokens of a line `body CR LF` without other line breaks have none. -/
theorem tokens_noBreak (body : Str) (hb : NoBreak body) (hlen : body.length + 2 < 2 ^ 64) :
    ∀ t ∈ parseCommandLine (cstr (body ++ "\r\n".toList)), NoBreak t := by
  intro t ht
  by_cases hnul : '\x00' ∈ body
  · obtain ⟨a, b, hab, ha⟩ := first_occurrence '\x00' body hnul
    have hc : cstr (body ++ "\r\n".toList) = a := by
      have e : body ++ "\r\n".toList = a ++ '\x00' :: (b ++ "\r\n".toList) := by
        rw [hab]; simp
      have h0 : ∀ y : Str, cstr ('\x00' :: y) = [] := by
        intro y; simp [cstr]
      rw [e, cstr_append _ _ ha, h0, List.append_nil]
    rw [hc] at ht
    refine noBreak_of_subset t body ?_ hb
    intro c hct
    rw [hab]
    exact List.mem_append_left _ (parseLoop_mem a _ 0 t ht c hct)
  · have hc : cstr (body ++ "\r\n".toList) = body ++ "\r\n".toList := by
      have h0 : cstr ("\r\n".toList) = "\r\n".toList := by decide
      rw [cstr_append _ _ hnul, h0]
    rw [hc] at ht
    by_cases hsp : ' ' ∈ body
    · obtain ⟨verb, arg, hab, hv⟩ := first_occurrence ' ' body hsp
      have hl : verb.length + arg.length + 3 < 2 ^ 64 := by
        have := congrArg List.length hab
        simp only [List.length_append, List.length_cons] at this
        omega
      have e : body ++ "\r\n".toList = verb ++ ' ' :: (arg ++ "\r\n".toList) := by
        rw [hab]; simp
      rw [e, parseCommandLine_pair verb arg hv hl] at ht
      have hverb : NoBreak verb :=
        noBreak_of_subset verb body (fun c hc => by rw [hab]; exact List.mem_append_left _ hc) hb
      have harg : NoBreak arg :=
        noBreak_of_subset arg body (fun c hc => by
          rw [hab]; exact List.mem_append_right _ (List.mem_cons_of_mem _ hc)) hb
      split at ht
      · rcases List.mem_cons.1 ht with h | h
        · rw [h]; exact hverb
        · rw [List.mem_singleton.1 h]; exact harg
      · rw [List.mem_singleton.1 ht]; exact hverb
    · rw [parseCommandLine_bare body hsp hlen, List.mem_singleton] at ht
      rw [ht]
      exact hb

theorem mem_ctrlReplies (bytes : Str) :
    ∀ events : List Event, bytes ∈ ctrlReplies events → Event.ctrlWrite bytes ∈ events := by
  intro events
  induction events with
  | nil => intro h; exact absurd h (List.not_mem_nil _)
  | cons e rest ih =>
    intro h
    cases e with
    | ctrlWrite b =>
      rw [ctrlReplies] at h
      rcases List.mem_cons.1 h with h | h
      · rw [h]; exact List.mem_cons_self _ _
      · exact List.mem_cons_of_mem _ (ih h)
    | _ =>
      have h2 : bytes ∈ ctrlReplies rest := by simpa [ctrlReplies] using h
      exact List.mem_cons_of_mem _ (ih h2)

theorem singleLine_of_parts (d1 d2 d3 : Char) (msg : Str)
    (hd : d1.isDigit = true ∧ d2.isDigit = true ∧ d3.isDigit = true) (hm : NoBreak msg) :
    SingleLine (d1 :: d2 :: d3 :: ' ' :: (msg ++ "\r\n".toList)) := by
  have hlen : (d1 :: d2 :: d3 :: ' ' :: (msg ++ "\r\n".toList)).length = msg.length + 6 := by
    simp
  unfold SingleLine
  rw [hlen]
  refine ⟨by omega, ?_, rfl, ?_, ?_⟩
  · intro c hc
    simp only [List.take_succ_cons, List.take_zero, List.mem_cons, List.mem_singleton,
      List.not_mem_nil, or_false] at hc
    rcases hc with h | h | h
    · rw [h]; exact hd.1
    · rw [h]; exact hd.2.1
    · rw [h]; exact hd.2.2
  · have e : msg.length + 6 - 6 = msg.length := by omega
    rw [e]
    show NoBreak ((msg ++ "\r\n".toList).take msg.length)
    rw [List.take_left' rfl]
    exact hm
  · have e : msg.length + 6 - 2 = msg.length + 4 := by omega
    rw [e]
    show (msg ++ "\r\n".toList).drop msg.length = "\r\n".toList
    exact List.drop_left' rfl

theorem handlerCodes_digits :
    ∀ code ∈ COMMAND_NOT_RECOGNIZED :: SERVICE_UNAVAILABLE :: handlerCodes,
      ∃ d1 d2 d3 : Char, to_string code = [d1, d2, d3]
        ∧ d1.isDigit = true ∧ d2.isDigit = true ∧ d3.isDigit = true
        ∧ ([d1, d2, d3] = "500".toList → code = COMMAND_NOT_RECOGNIZED) := by
  simp only [handlerCodes, List.forall_mem_cons]
  refine ⟨?_, ?_, ?_, ?_, ?_, ?_, ?_, ?_, ?_, ?_, ?_, ?_, ?_, ?_, ?_, ?_, ?_, ?_, ?_, ?_, ?_,
    by simp⟩
  all_goals exact ⟨_, _, _, rfl, by decide, by decide, by decide, by decide⟩

/-- A `writeCtrl` of a code of the server with a message without line break writes a
single-line reply. -/
theorem singleLine_writeCtrl (code : Nat) (msg bytes : Str)
    (hc : code ∈ COMMAND_NOT_RECOGNIZED :: SERVICE_UNAVAILABLE :: handlerCodes)
    (hm : NoBreak msg) (h : writeCtrl code msg = Event.ctrlWrite bytes) :
    SingleLine bytes := by
  obtain ⟨d1, d2, d3, hs, h1, h2, h3, _⟩ := handlerCodes_digits code hc
  unfold writeCtrl at h
  rw [hs] at h
  have e : bytes = d1 :: d2 :: d3 :: ' ' :: (msg ++ "\r\n".toList) := by
    rw [← Event.ctrlWrite.inj h]; simp
  rw [e]
  exact singleLine_of_parts d1 d2 d3 msg ⟨h1, h2, h3⟩ hm

/-- The three ways one iteration of the command loop can go. -/
theorem runStep_cases (host : Host) (pending : Str) (ftpPI : FtpServerPI) :
    (pending = [] ∧ runStep host pending ftpPI
      = ⟨pending, ftpPI, [writeCtrl SERVICE_UNAVAILABLE "Time out".toList], false⟩) ∨
    (pending ≠ [] ∧ BUF_MAX ≤ (readline pending BUF_MAX).1.length ∧
      runStep host pending ftpPI
        = ⟨(readline pending BUF_MAX).2, ftpPI,
            [writeCtrl COMMAND_NOT_RECOGNIZED "Command too long".toList], true⟩) ∨
    (pending ≠ [] ∧ (readline pending BUF_MAX).1.length < BUF_MAX ∧
      runStep host pending ftpPI
        = ⟨(readline pending BUF_MAX).2,
            (dispatch host ftpPI (readline pending BUF_MAX).1).1,
            (dispatch host ftpPI (readline pending BUF_MAX).1).2.1,
            (dispatch host ftpPI (readline pending BUF_MAX).1).2.2⟩) := by
  by_cases hp : pending = []
  · refine Or.inl ⟨hp, ?_⟩
    unfold runStep
    rw [if_pos hp]
  · by_cases hcap : (readline pending BUF_MAX).1.length ≥ BUF_MAX
    · refine Or.inr (Or.inl ⟨hp, hcap, ?_⟩)
      unfold runStep
      rw [if_neg hp]
      simp only [hcap, if_true]
    · refine Or.inr (Or.inr ⟨hp, Nat.lt_of_not_ge hcap, ?_⟩)
      unfold runStep
      rw [if_neg hp]
      simp only [hcap, if_false]

/-- C15, as the claim states it, fails: the argument of TYPE is echoed in the reply with
the line breaks it holds.  On the line `TYPE a CR b CR LF` a logged-in session writes
`504 Type a CR b not implemented CR LF`, and on the line `TYPE SP LF` (the length passed
to `substr` wraps) it writes `504 Type LF not implemented CR LF`. -/
theorem reply_with_line_break :
    ctrlReplies (runStep Host.plain "TYPE a\rb\r\n".toList transferSession).events
      = ["504 Type a\rb not implemented\r\n".toList] ∧
    ¬ SingleLine "504 Type a\rb not implemented\r\n".toList ∧
    ctrlReplies (runStep Host.plain "TYPE \n".toList transferSession).events
      = ["504 Type \n not implemented\r\n".toList] ∧
    ¬ SingleLine "504 Type \n not implemented\r\n".toList := by
  decide

/-- C15, amended: single-line replies.  For every session state whose working directory
holds no CR and no LF, every host whose server address holds none, and every command line
`body CR LF` whose `body` holds no CR and no LF and that fits the command buffer, every
reply written to the control channel in the iteration that reads the line is three digits,
one space, a text without CR and LF, and one `CR LF` at the end.  So are, for every input,
the replies of an iteration that times out or finds the line too long. -/
theorem replies_single_line (host : Host) (ftpPI : FtpServerPI) (body rest : Str)
    (hb : NoBreak body) (hlen : body.length + 2 < BUF_MAX)
    (hwd : NoBreak ftpPI.userWorkingDir) (hip : NoBreak host.serverIPAddr) :
    (∀ bytes ∈ ctrlReplies (runStep host (body ++ "\r\n".toList ++ rest) ftpPI).events,
      SingleLine bytes) ∧
    (∀ pending : Str, pending = [] ∨ BUF_MAX ≤ (readline pending BUF_MAX).1.length →
      ∀ bytes ∈ ctrlReplies (runStep host pending ftpPI).events, SingleLine bytes) := by
  have h64 : body.length + 2 < 2 ^ 64 := by unfold BUF_MAX at hlen; omega
  constructor
  · intro bytes hbytes
    rw [runStep_bare host ftpPI body rest hb.2 (by simpa using hlen)] at hbytes
    have hmem := mem_ctrlReplies bytes _ hbytes
    rcases dispatch_replies host ftpPI (body ++ "\r\n".toList) with hR | hE
    · obtain ⟨code, msg, hc, hm, he⟩ := hR _ hmem bytes rfl
      have htok := tokens_noBreak body hb h64
      have harg : NoBreak ((((parseCommandLine (cstr (body ++ "\r\n".toList))).headD []).map
          toupper :: (parseCommandLine (cstr (body ++ "\r\n".toList))).tail).getD 1 []) := by
        cases hp : parseCommandLine (cstr (body ++ "\r\n".toList)) with
        | nil => decide
        | cons v t =>
          cases t with
          | nil => exact ⟨List.not_mem_nil _, List.not_mem_nil _⟩
          | cons a t2 =>
            rw [hp] at htok
            exact htok a (List.mem_cons_of_mem _ (List.mem_cons_self _ _))
      exact singleLine_writeCtrl code msg bytes
        (List.mem_cons_of_mem _ (List.mem_cons_of_mem _ hc)) (hm ⟨harg, hwd, hip⟩) he.symm
    · rw [hE] at hmem
      exact singleLine_writeCtrl _ _ bytes (List.mem_cons_self _ _) (by decide)
        (List.mem_singleton.1 hmem).symm
  · intro pending hp bytes hbytes
    have hmem := mem_ctrlReplies bytes _ hbytes
    rcases runStep_cases host pending ftpPI with ⟨_, h⟩ | ⟨_, _, h⟩ | ⟨hne, hlt, _⟩
    · rw [h] at hmem
      exact singleLine_writeCtrl _ _ bytes
        (List.mem_cons_of_mem _ (List.mem_cons_self _ _)) (by decide)
        (List.mem_singleton.1 hmem).symm
    · rw [h] at hmem
      exact singleLine_writeCtrl _ _ bytes (List.mem_cons_self _ _) (by decide)
        (List.mem_singleton.1 hmem).symm
    · rcases hp with hp | hp
      · exact absurd hp hne
      · exact absurd hp (Nat.not_le_of_lt hlt)

/-- Witness for C15: the reply to `TYPE x y` in the session `transferSession`. -/
theorem replies_single_line_witness :
    SingleLine "504 Type x y not implemented\r\n".toList :=
  (replies_single_line Host.plain transferSession "TYPE x y".toList [] (by decide)
    (by decide) (by decide) (by decide)).1 _ (by decide)

/-! ## The line cap: proofs -/

/-- When no `LF` is among the bytes that fill the buffer up to its last place, `readline`
stops right after the byte that fills it. -/
theorem readlineLoop_full (size : Nat) (c : Char) (rest : Str) :
    ∀ (pre buf : Str), '\n' ∉ pre → (buf ++ pre).length + 1 = size →
      readlineLoop size (pre ++ c :: rest) buf = (buf ++ pre ++ [c], rest) := by
  intro pre
  induction pre with
  | nil =>
    intro buf _ hlen
    have hfull : ¬ (c ≠ '\n' ∧ (buf ++ [c]).length < size) := by
      simp only [List.append_nil] at hlen
      simp only [List.length_append, List.length_cons, List.length_nil]
      omega
    rw [List.nil_append, readlineLoop, if_neg hfull, List.append_nil]
  | cons p pre ih =>
    intro buf hnl hlen
    simp only [List.mem_cons, not_or] at hnl
    have hp : p ≠ '\n' := fun h => hnl.1 h.symm
    have hlt : (buf ++ [p]).length < size := by
      simp only [List.length_append, List.length_cons, List.length_nil] at hlen ⊢
      omega
    rw [List.cons_append, readlineLoop, if_pos ⟨hp, hlt⟩,
      ih (buf ++ [p]) hnl.2 (by simpa using hlen)]
    simp

/-- When `readline` returns a full buffer, no `LF` is among the bytes before its last
place. -/
theorem readlineLoop_cap (size : Nat) :
    ∀ (pending buf : Str), buf.length < size →
      size ≤ (readlineLoop size pending buf).1.length →
      size - buf.length ≤ pending.length ∧ '\n' ∉ pending.take (size - 1 - buf.length) := by
  intro pending
  induction pending with
  | nil =>
    intro buf hb h
    rw [readlineLoop] at h
    exact absurd h (Nat.not_le_of_lt hb)
  | cons ch rest ih =>
    intro buf hb h
    rw [readlineLoop] at h
    split at h
    · next hc =>
      have hlt : (buf ++ [ch]).length < size := hc.2
      obtain ⟨h1, h2⟩ := ih (buf ++ [ch]) hlt h
      simp only [List.length_append, List.length_cons, List.length_nil] at h1 h2 hlt
      refine ⟨by simp only [List.length_cons]; omega, ?_⟩
      have e : size - 1 - buf.length = (size - 1 - (buf.length + 0 + 1)) + 1 := by omega
      rw [e, List.take_succ_cons]
      intro hm
      rcases List.mem_cons.1 hm with hm | hm
      · exact hc.1 hm.symm
      · exact h2 hm
    · simp only [List.length_append, List.length_cons, List.length_nil] at h
      have e : size - 1 - buf.length = 0 := by omega
      rw [e, List.take_zero]
      exact ⟨by simp only [List.length_cons]; omega, List.not_mem_nil _⟩

theorem runStep_full (host : Host) (ftpPI : FtpServerPI) (pending : Str)
    (hlen : BUF_MAX ≤ pending.length) (hnl : '\n' ∉ pending.take (BUF_MAX - 1)) :
    runStep host pending ftpPI
      = ⟨pending.drop BUF_MAX, ftpPI,
          [Event.ctrlWrite "500 Command too long\r\n".toList], true⟩ := by
  have hsplit : pending = pending.take (BUF_MAX - 1) ++ pending.drop (BUF_MAX - 1) :=
    (List.take_append_drop _ _).symm
  have hl : (pending.take (BUF_MAX - 1)).length = BUF_MAX - 1 := by
    rw [List.length_take]; unfold BUF_MAX at hlen ⊢; omega
  cases hd : pending.drop (BUF_MAX - 1) with
  | nil =>
    have := congrArg List.length hd
    rw [List.length_drop] at this
    unfold BUF_MAX at hlen this
    simp only [List.length_nil] at this
    omega
  | cons c rest =>
    have hrest : pending.drop BUF_MAX = rest := by
      have e : BUF_MAX = (BUF_MAX - 1) + 1 := by unfold BUF_MAX; omega
      rw [e, ← List.drop_drop, hd]
      rfl
    have hread : readline pending BUF_MAX = (pending.take (BUF_MAX - 1) ++ [c], rest) := by
      unfold readline
      rw [hd] at hsplit
      rw [hsplit, List.take_left' hl]
      have := readlineLoop_full BUF_MAX c rest (pending.take (BUF_MAX - 1)) [] hnl
        (by rw [List.nil_append, hl]; unfold BUF_MAX; omega)
      rw [hsplit, List.take_left' hl, List.nil_append] at this
      exact this
    have hne : pending ≠ [] := by
      intro h
      rw [h] at hlen
      unfold BUF_MAX at hlen
      simp at hlen
    have hcap : (pending.take (BUF_MAX - 1) ++ [c]).length ≥ BUF_MAX := by
      rw [List.length_append, hl]
      unfold BUF_MAX
      simp
    unfold runStep
    rw [if_neg hne, hread]
    simp only [hcap, if_true, hrest]
    rfl

theorem handler_reply_ne_too_long (code : Nat) (msg : Str) (hc : code ∈ handlerCodes) :
    writeCtrl code msg ≠ Event.ctrlWrite "500 Command too long\r\n".toList := by
  intro h
  obtain ⟨d1, d2, d3, hs, _, _, _, h500⟩ :=
    handlerCodes_digits code (List.mem_cons_of_mem _ (List.mem_cons_of_mem _ hc))
  unfold writeCtrl at h
  rw [hs] at h
  have e := congrArg (List.take 3) (Event.ctrlWrite.inj h)
  have hcode := h500 (by simpa using e)
  rw [hcode] at hc
  exact absurd hc (by decide)

/-- What `dispatch` writes is never `500 Command too long`. -/
theorem dispatch_not_too_long (host : Host) (ftpPI : FtpServerPI) (buf : Str) :
    Event.ctrlWrite "500 Command too long\r\n".toList ∉ (dispatch host ftpPI buf).2.1 := by
  intro hmem
  rcases dispatch_replies host ftpPI buf with hR | hE
  · obtain ⟨code, msg, hc, _, he⟩ := hR _ hmem _ rfl
    exact handler_reply_ne_too_long code msg hc he.symm
  · rw [hE] at hmem
    exact absurd hmem (by decide)

theorem replicate_fills (n : Nat) (rest : Str) (h : BUF_MAX ≤ n + rest.length) :
    BUF_MAX ≤ (List.replicate n 'a' ++ rest).length := by
  rw [List.length_append, List.length_replicate]
  exact h

theorem replicate_no_newline (n : Nat) (rest : Str) (h : BUF_MAX - 1 ≤ n) :
    '\n' ∉ (List.replicate n 'a' ++ rest).take (BUF_MAX - 1) := by
  rw [List.take_append_of_le_length (by rw [List.length_replicate]; exact h)]
  intro hm
  exact absurd (List.eq_of_mem_replicate (List.mem_of_mem_take hm)) (by decide)

theorem replicate_line_too_long (n : Nat) (rest : Str) (hn : n + 1 = BUF_MAX) :
    runStep Host.plain (List.replicate n 'a' ++ "\n".toList ++ rest) FtpServerPI.init
      = ⟨rest, FtpServerPI.init,
          [Event.ctrlWrite "500 Command too long\r\n".toList], true⟩ := by
  have hdrop : (List.replicate n 'a' ++ "\n".toList ++ rest).drop BUF_MAX = rest :=
    List.drop_left' (by
      rw [List.length_append, List.length_replicate, ← hn]
      rfl)
  rw [List.append_assoc] at hdrop ⊢
  rw [runStep_full Host.plain FtpServerPI.init _
    (replicate_fills n _ (by
      have e : ("\n".toList ++ rest).length = rest.length + 1 := by simp
      rw [← hn, e]
      omega))
    (replicate_no_newline n _ (by rw [← hn]; omega)),
    hdrop]

/-- C18, as the claim states it, fails: a line of exactly 2047 bytes followed by the
newline fills the buffer, and the command loop answers `500 Command too long` instead of
dispatching it. -/
theorem line_of_2047_bytes_too_long :
    runStep Host.plain (List.replicate 2047 'a' ++ "\n".toList ++ "QUIT\r\n".toList)
        FtpServerPI.init
      = ⟨"QUIT\r\n".toList, FtpServerPI.init,
          [Event.ctrlWrite "500 Command too long\r\n".toList], true⟩ :=
  replicate_line_too_long 2047 "QUIT\r\n".toList rfl

/-- C18, amended: the line cap.  One iteration of the command loop replies
`500 Command too long` if and only if `readline` filled the 2048 bytes of the buffer, that
is, at least 2048 bytes are pending and no newline is among the first 2047 of them (the
2048th may be the newline).  Then the session state is unchanged, the loop goes on and the
next iteration reads what follows those 2048 bytes.  Every line whose terminating newline
is among the first 2047 bytes is handed to `dispatch`, which tokenizes and dispatches
it. -/
theorem line_cap (host : Host) (ftpPI : FtpServerPI) (pending : Str) :
    (Event.ctrlWrite "500 Command too long\r\n".toList ∈ (runStep host pending ftpPI).events
      ↔ BUF_MAX ≤ pending.length ∧ '\n' ∉ pending.take (BUF_MAX - 1)) ∧
    (BUF_MAX ≤ pending.length → '\n' ∉ pending.take (BUF_MAX - 1) →
      runStep host pending ftpPI
        = ⟨pending.drop BUF_MAX, ftpPI,
            [Event.ctrlWrite "500 Command too long\r\n".toList], true⟩) ∧
    (∀ body rest : Str, pending = body ++ '\n' :: rest → '\n' ∉ body →
      body.length + 1 < BUF_MAX →
      runStep host pending ftpPI
        = ⟨rest, (dispatch host ftpPI (body ++ ['\n'])).1,
            (dispatch host ftpPI (body ++ ['\n'])).2.1,
            (dispatch host ftpPI (body ++ ['\n'])).2.2⟩) := by
  refine ⟨⟨?_, ?_⟩, runStep_full host ftpPI pending, ?_⟩
  · intro hmem
    rcases runStep_cases host pending ftpPI with ⟨_, h⟩ | ⟨_, hcap, _⟩ | ⟨_, _, h⟩
    · rw [h] at hmem
      have hm : Event.ctrlWrite "500 Command too long\r\n".toList
          ∈ [writeCtrl SERVICE_UNAVAILABLE "Time out".toList] := hmem
      exact absurd hm (by decide)
    · exact readlineLoop_cap BUF_MAX pending [] (by decide) hcap
    · rw [h] at hmem
      exact absurd hmem (dispatch_not_too_long host ftpPI _)
  · intro h
    rw [runStep_full host ftpPI pending h.1 h.2]
    exact List.mem_cons_self _ _
  · intro body rest hp hb hlen
    rw [hp]
    exact runStep_of_line host ftpPI body rest hb hlen

/-- Witness for C18: 2048 bytes `a` and then `QUIT`; the line `QUIT`. -/
theorem line_cap_witness :
    runStep Host.plain (List.replicate 2048 'a' ++ "QUIT\r\n".toList) FtpServerPI.init
      = ⟨(List.replicate 2048 'a' ++ "QUIT\r\n".toList).drop BUF_MAX, FtpServerPI.init,
          [Event.ctrlWrite "500 Command too long\r\n".toList], true⟩ ∧
    runStep Host.plain "QUIT\r\n".toList FtpServerPI.init
      = ⟨[], (dispatch Host.plain FtpServerPI.init ("QUIT\r".toList ++ ['\n'])).1,
          (dispatch Host.plain FtpServerPI.init ("QUIT\r".toList ++ ['\n'])).2.1,
          (dispatch Host.plain FtpServerPI.init ("QUIT\r".toList ++ ['\n'])).2.2⟩ :=
  ⟨(line_cap Host.plain FtpServerPI.init
      (List.replicate 2048 'a' ++ "QUIT\r\n".toList)).2.1
      (replicate_fills 2048 _ (by decide)) (replicate_no_newline 2048 _ (by decide)),
    (line_cap Host.plain FtpServerPI.init "QUIT\r\n".toList).2.2 "QUIT\r".toList []
      rfl (by decide) (by decide)⟩

/-! ## CDUP and CWD: proofs -/

theorem CWD_dotdot (host : Host) (ftpPI : FtpServerPI) (verb : Str) (args : List Str) :
    CWDCommand.execute host ftpPI [verb, "..".toList] = CDUPCommand.execute host ftpPI args := by
  have happ : ftpPI.userWorkingDir ++ "/".toList ++ "..".toList
      = ftpPI.userWorkingDir ++ "/..".toList := by simp
  have hrel : ¬ ("..".toList.getD 0 '\x00' = '/') := by decide
  unfold CWDCommand.execute CDUPCommand.execute
  simp only [List.length_cons, List.length_nil, List.getD_cons_succ, List.getD_cons_zero,
    if_true, hrel, if_false, happ]

/-- C21: CDUP is equivalent to `CWD ..`.  For every session state and every host (any
answers of `stat`), `CDUPCommand::execute` returns the same session state and writes the
same reply as `CWDCommand::execute` on the argument `..`; and one iteration of the command
loop on the line `CDUP` gives what it gives on the line `CWD ..`, logged in or not. -/
theorem CDUP_eq_CWD_dotdot :
    (∀ (host : Host) (ftpPI : FtpServerPI) (args : List Str),
      CDUPCommand.execute host ftpPI args
        = CWDCommand.execute host ftpPI ["CWD".toList, "..".toList]) ∧
    (∀ (host : Host) (ftpPI : FtpServerPI) (rest : Str),
      runStep host ("CDUP\r\n".toList ++ rest) ftpPI
        = runStep host ("CWD ..\r\n".toList ++ rest) ftpPI) := by
  refine ⟨fun host ftpPI args => (CWD_dotdot host ftpPI _ args).symm, ?_⟩
  intro host ftpPI rest
  have h1 := runStep_bare host ftpPI "CDUP".toList rest (by decide) (by decide)
  have h2 := runStep_arg host ftpPI "CWD".toList "..".toList rest (by decide) (by decide)
    (by decide)
  have d1 : dispatch host ftpPI ("CDUP".toList ++ "\r\n".toList)
      = dispatchArgs host ftpPI ["CDUP".toList] :=
    dispatch_bare host ftpPI "CDUP".toList (by decide) (by decide) (by decide)
  have hp : parseCommandLine (cstr ("CWD".toList ++ " ".toList ++ "..".toList ++ "\r\n".toList))
      = ["CWD".toList, "..".toList] := by decide
  have d2 : dispatch host ftpPI ("CWD".toList ++ " ".toList ++ "..".toList ++ "\r\n".toList)
      = dispatchArgs host ftpPI ["CWD".toList, "..".toList] :=
    dispatch_of_tokens host ftpPI _ _ _ hp
  have e : dispatchArgs host ftpPI ["CDUP".toList]
      = dispatchArgs host ftpPI ["CWD".toList, "..".toList] := by
    cases hL : ftpPI.loggedIn with
    | false =>
      rw [dispatchArgs_gated host ftpPI _ _ (by decide) hL,
        dispatchArgs_gated host ftpPI _ _ (by decide) hL]
    | true =>
      have hc : dispatchArgs host ftpPI ["CDUP".toList]
          = ((CDUPCommand.execute host ftpPI ["CDUP".toList]).1,
              (CDUPCommand.execute host ftpPI ["CDUP".toList]).2,
              !(CDUPCommand.execute host ftpPI ["CDUP".toList]).1.quit) := by
        simp [dispatchArgs, loginCommands, commands, List.lookup, hL]
      have hw : dispatchArgs host ftpPI ["CWD".toList, "..".toList]
          = ((CWDCommand.execute host ftpPI ["CWD".toList, "..".toList]).1,
              (CWDCommand.execute host ftpPI ["CWD".toList, "..".toList]).2,
              !(CWDCommand.execute host ftpPI ["CWD".toList, "..".toList]).1.quit) := by
        simp [dispatchArgs, loginCommands, commands, List.lookup, hL]
      rw [hc, hw, CWD_dotdot host ftpPI "CWD".toList ["CDUP".toList]]
  rw [d1, e] at h1
  rw [d2] at h2
  have e1 : "CDUP\r\n".toList ++ rest = "CDUP".toList ++ "\r\n".toList ++ rest := by simp
  have e2 : "CWD ..\r\n".toList ++ rest
      = "CWD".toList ++ " ".toList ++ "..".toList ++ "\r\n".toList ++ rest := by simp
  rw [e1, e2, h1, h2]

/-! ## PASV: proofs -/

/-- What the scan returns binds, lies among the ports scanned, and no larger port scanned
binds. -/
theorem passiveScan_some (host : Host) (protocol : NetProtocol) :
    ∀ (n port P : Nat), n ≤ port + 1 → passiveScan host protocol n port = some P →
      port + 1 - n ≤ P ∧ P ≤ port ∧ host.listen P protocol = true
        ∧ ∀ Q : Nat, P < Q → Q ≤ port → host.listen Q protocol = false := by
  intro n
  induction n with
  | zero => intro port P _ h; simp [passiveScan] at h
  | succ n ih =>
    intro port P hn h
    rw [passiveScan] at h
    split at h
    · next hl =>
      have e : port = P := Option.some.inj h
      subst e
      exact ⟨by omega, le_refl _, hl, fun Q h1 h2 => absurd h1 (by omega)⟩
    · next hl =>
      rcases Nat.eq_zero_or_pos n with h0 | hpos
      · subst h0; simp [passiveScan] at h
      · obtain ⟨a, b, c, d⟩ := ih (port - 1) P (by omega) h
        refine ⟨by omega, by omega, c, ?_⟩
        intro Q h1 h2
        rcases Nat.lt_or_ge Q port with hq | hq
        · exact d Q h1 (by omega)
        · have e : Q = port := by omega
          rw [e]
          simpa using hl

/-- The scan finds a port when one of the ports scanned binds. -/
theorem passiveScan_isSome (host : Host) (protocol : NetProtocol) :
    ∀ (n port Q : Nat), port + 1 - n ≤ Q → Q ≤ port → host.listen Q protocol = true →
      ∃ P : Nat, passiveScan host protocol n port = some P := by
  intro n
  induction n with
  | zero => intro port Q h1 h2 _; exact absurd h1 (by omega)
  | succ n ih =>
    intro port Q h1 h2 hq
    rw [passiveScan]
    split
    · exact ⟨port, rfl⟩
    · next hl =>
      have hne : Q ≠ port := by
        intro e
        rw [e] at hq
        exact hl hq
      exact ih (port - 1) Q (by omega) (by omega) hq

theorem port_bytes (P : Nat) (h : P ≤ 65535) :
    P >>> 8 ≤ 255 ∧ P &&& 0x00FF ≤ 255 ∧ (P >>> 8) * 256 + (P &&& 0x00FF) = P := by
  have h1 : P >>> 8 = P / 256 := by rw [Nat.shiftRight_eq_div_pow]
  have h2 : P &&& 0x00FF = P % 256 := Nat.and_pow_two_sub_one_eq_mod P 8
  rw [h1, h2]
  refine ⟨by omega, by omega, by omega⟩

theorem appendFields_eq :
    ∀ (fields : List Str) (reply : Str),
      appendFields fields reply = reply ++ (fields.map (fun n => n ++ ",".toList)).flatten := by
  intro fields
  induction fields with
  | nil => intro reply; simp [appendFields]
  | cons n rest ih =>
    intro reply
    rw [appendFields, ih]
    simp

/-- C22: PASV port selection and encoding.  In a state that accepts PASV
(`EPSVexclusive` false), for every host (its `listen` says on which ports
`setupPassiveMode` succeeds) on which a port of `[1024, 65535]` binds, the scan ends on
the largest such port `P`: the listening socket is opened on `P`, and the reply is
`227 Entering passive mode (` followed by the fields of the server address, each with a
comma, then `p1,p2)` with `p1 = P >> 8` and `p2 = P & 0xFF`, both at most 255 and with
`p1 * 256 + p2 = P`.  For an address `h1.h2.h3.h4` the text is
`Entering passive mode (h1,h2,h3,h4,p1,p2)`. -/
theorem PASV_port (host : Host) (ftpPI : FtpServerPI) (args : List Str)
    (hE : ftpPI.EPSVexclusive = false)
    (hbind : ∃ Q : Nat, USABLE_PORT_MIN ≤ Q ∧ Q ≤ USABLE_PORT_MAX
      ∧ host.listen Q NetProtocol.IPv4 = true) :
    ∃ P : Nat, USABLE_PORT_MIN ≤ P ∧ P ≤ USABLE_PORT_MAX
      ∧ host.listen P NetProtocol.IPv4 = true
      ∧ (∀ Q : Nat, P < Q → Q ≤ USABLE_PORT_MAX → host.listen Q NetProtocol.IPv4 = false)
      ∧ PASVCommand.execute host ftpPI args
        = ({ ftpPI with ftpDTP :=
              { ftpPI.ftpDTP with
                passiveSock := Socket.listening P NetProtocol.IPv4,
                netProtocol := NetProtocol.IPv4, port := P, activeMode := false,
                connectSetup := true } },
            [Event.ctrlWrite ("227 Entering passive mode (".toList
              ++ ((splitString host.serverIPAddr ".".toList).map
                    (fun n => n ++ ",".toList)).flatten
              ++ to_string (P >>> 8) ++ ",".toList ++ to_string (P &&& 0x00FF)
              ++ ")\r\n".toList)])
      ∧ P >>> 8 ≤ 255 ∧ P &&& 0x00FF ≤ 255 ∧ (P >>> 8) * 256 + (P &&& 0x00FF) = P
      ∧ (∀ h1 h2 h3 h4 : Str, '.' ∉ h1 → '.' ∉ h2 → '.' ∉ h3 → '.' ∉ h4 →
          host.serverIPAddr = h1 ++ ".".toList ++ h2 ++ ".".toList ++ h3 ++ ".".toList ++ h4 →
          ctrlReplies (PASVCommand.execute host ftpPI args).2
            = ["227 Entering passive mode (".toList ++ h1 ++ ",".toList ++ h2 ++ ",".toList
                ++ h3 ++ ",".toList ++ h4 ++ ",".toList ++ to_string (P >>> 8) ++ ",".toList
                ++ to_string (P &&& 0x00FF) ++ ")\r\n".toList]) := by
  obtain ⟨Q, hq1, hq2, hq3⟩ := hbind
  obtain ⟨P, hP⟩ := passiveScan_isSome host NetProtocol.IPv4
    (USABLE_PORT_MAX + 1 - USABLE_PORT_MIN) USABLE_PORT_MAX Q
    (by unfold USABLE_PORT_MAX USABLE_PORT_MIN at *; omega) hq2 hq3
  obtain ⟨a, b, c, d⟩ := passiveScan_some host NetProtocol.IPv4 _ _ P
    (by unfold USABLE_PORT_MAX USABLE_PORT_MIN; omega) hP
  have hmin : USABLE_PORT_MIN ≤ P := by
    unfold USABLE_PORT_MAX USABLE_PORT_MIN at *; omega
  have hbytes := port_bytes P (by unfold USABLE_PORT_MAX at b; exact b)
  have hexec : PASVCommand.execute host ftpPI args
      = ({ ftpPI with ftpDTP :=
            { ftpPI.ftpDTP with
              passiveSock := Socket.listening P NetProtocol.IPv4,
              netProtocol := NetProtocol.IPv4, port := P, activeMode := false,
              connectSetup := true } },
          [Event.ctrlWrite ("227 Entering passive mode (".toList
            ++ ((splitString host.serverIPAddr ".".toList).map
                  (fun n => n ++ ",".toList)).flatten
            ++ to_string (P >>> 8) ++ ",".toList ++ to_string (P &&& 0x00FF)
            ++ ")\r\n".toList)]) := by
    unfold PASVCommand.execute
    rw [if_neg (by rw [hE]; decide)]
    simp only [hP, appendFields_eq, writeCtrl, FtpServerDTP.setupPassiveMode]
    have e : to_string ENTERING_PASSIVE_MODE = "227".toList := by decide
    rw [e]
    simp
  refine ⟨P, hmin, b, c, d, hexec, hbytes.1, hbytes.2.1, hbytes.2.2, ?_⟩
  intro h1 h2 h3 h4 n1 n2 n3 n4 hip
  have hj : host.serverIPAddr = joinFields '.' [h1, h2, h3, h4] := by
    rw [hip]; simp [joinFields]
  have hs : splitString host.serverIPAddr ".".toList = [h1, h2, h3, h4] := by
    rw [hj]
    refine splitString_joinFields '.' h1 [h2, h3, h4] ?_
    simp only [List.forall_mem_cons]
    exact ⟨n1, n2, n3, n4, by simp⟩
  rw [hexec, hs]
  simp [ctrlReplies]

/-- Witness for C22: on `busyHost` the listener is opened on port 65530 and the reply
carries `255,250`. -/
theorem PASV_port_witness :
    (∃ P : Nat, USABLE_PORT_MIN ≤ P ∧ P ≤ USABLE_PORT_MAX
      ∧ busyHost.listen P NetProtocol.IPv4 = true
      ∧ (∀ Q : Nat, P < Q → Q ≤ USABLE_PORT_MAX → busyHost.listen Q NetProtocol.IPv4 = false)
      ∧ PASVCommand.execute busyHost transferSession ["PASV".toList]
        = ({ transferSession with ftpDTP :=
              { transferSession.ftpDTP with
                passiveSock := Socket.listening P NetProtocol.IPv4,
                netProtocol := NetProtocol.IPv4, port := P, activeMode := false,
                connectSetup := true } },
            [Event.ctrlWrite ("227 Entering passive mode (".toList
              ++ ((splitString busyHost.serverIPAddr ".".toList).map
                    (fun n => n ++ ",".toList)).flatten
              ++ to_string (P >>> 8) ++ ",".toList ++ to_string (P &&& 0x00FF)
              ++ ")\r\n".toList)])
      ∧ P >>> 8 ≤ 255 ∧ P &&& 0x00FF ≤ 255 ∧ (P >>> 8) * 256 + (P &&& 0x00FF) = P) ∧
    ctrlReplies (PASVCommand.execute busyHost transferSession ["PASV".toList]).2
      = ["227 Entering passive mode (127,0,0,1,255,250)\r\n".toList] :=
  ⟨(PASV_port busyHost transferSession ["PASV".toList] rfl
      ⟨1024, by decide, by decide, by decide⟩).imp
      (fun _ h => ⟨h.1, h.2.1, h.2.2.1, h.2.2.2.1, h.2.2.2.2.1, h.2.2.2.2.2.1,
        h.2.2.2.2.2.2.1, h.2.2.2.2.2.2.2.1⟩),
    by decide⟩

/-! ## Conversion of decimal numerals: proofs -/

theorem toUnsignedIntLoop_value (max : Nat) (hmax : max < 2 ^ 64) (f : Str) :
    ∀ n : Nat, (∀ c ∈ f, '0' ≤ c ∧ c ≤ '9') → decimalFrom n f ≤ max →
      toUnsignedIntLoop max f n = (0, decimalFrom n f) := by
  induction f with
  | nil => intro n _ _; rfl
  | cons c rest ih =>
    intro n hd hv
    have hc := hd c (List.mem_cons_self c rest)
    have hv2 : decimalFrom (n * 10 + (c.toNat - '0'.toNat)) rest ≤ max := hv
    have hge := decimalFrom_ge rest (n * 10 + (c.toNat - '0'.toNat))
    have hcheck : n ≤ max - (c.toNat - '0'.toNat) := by omega
    have hmod : (n * 10 + (c.toNat - '0'.toNat)) % 2 ^ 64 = n * 10 + (c.toNat - '0'.toNat) :=
      Nat.mod_eq_of_lt (by omega)
    rw [toUnsignedIntLoop, if_pos hc]
    dsimp only
    rw [if_pos hcheck, hmod]
    exact ih _ (fun d hdm => hd d (List.mem_cons_of_mem c hdm)) hv2

/-- C25: the range check of `toUnsignedInt` lets values above the maximum through.  A
string of digits whose value is at most the maximum `M` is converted exactly (return code
`0`).  But `256` as `uint8_t` and `65536` as `uint16_t` also return `0`, with the output
`0` (the value modulo `M + 1`), and so do `259` (output `3`) and `99999` (output `34463`):
the test `num <= max - digit` bounds the value before the digit is appended.  `2560` as
`uint8_t` returns `1`.  `9999x` as `uint8_t` returns `1`, not `-1`: the overflow is found
before the character that is no digit. -/
theorem toUnsignedInt_range_check :
    (∀ (max : Nat) (s : Str), max < 2 ^ 64 → (∀ c ∈ s, '0' ≤ c ∧ c ≤ '9') →
      decimalValue s ≤ max → toUnsignedInt max s = (0, some (decimalValue s))) ∧
    (decimalValue "256".toList = 256 ∧ toUnsignedInt UINT8_MAX "256".toList = (0, some 0)) ∧
    (decimalValue "259".toList = 259 ∧ toUnsignedInt UINT8_MAX "259".toList = (0, some 3)) ∧
    (decimalValue "65536".toList = 65536
      ∧ toUnsignedInt UINT16_MAX "65536".toList = (0, some 0)) ∧
    (decimalValue "99999".toList = 99999
      ∧ toUnsignedInt UINT16_MAX "99999".toList = (0, some 34463)) ∧
    toUnsignedInt UINT8_MAX "2560".toList = (1, none) ∧
    toUnsignedInt UINT8_MAX "25x".toList = (-1, none) ∧
    toUnsignedInt UINT8_MAX "9999x".toList = (1, none) := by
  refine ⟨?_, by decide, by decide, by decide, by decide, by decide, by decide, by decide⟩
  intro max s hmax hd hv
  have hl := toUnsignedIntLoop_value max hmax s 0 hd hv
  unfold toUnsignedInt
  rw [hl]
  show ((0 : Int), some (decimalFrom 0 s % (max + 1))) = (0, some (decimalValue s))
  have e : decimalFrom 0 s % (max + 1) = decimalValue s :=
    Nat.mod_eq_of_lt (Nat.lt_succ_of_le hv)
  rw [e]

/-! ## The tokenizer and the last two bytes: proofs -/

/-- The tokens of `verb SP arg a b` for any two last bytes `a`, `b`. -/
theorem parseCommandLine_pair_any (verb arg : Str) (a b : Char) (hv : ' ' ∉ verb)
    (hlen : verb.length + arg.length + 3 < 2 ^ 64) :
    parseCommandLine (verb ++ ' ' :: (arg ++ [a, b]))
      = if arg ≠ [] then [verb, arg] else [verb] := by
  have hl : (verb ++ ' ' :: (arg ++ [a, b])).length = verb.length + 1 + arg.length + 2 := by
    simp only [List.length_append, List.length_cons, List.length_nil]
    omega
  have hm : (verb.length + 1 + arg.length + 2 + 2 ^ 64 - verb.length - 3) % 2 ^ 64
      = arg.length := by
    have : verb.length + 1 + arg.length + 2 + 2 ^ 64 - verb.length - 3
        = arg.length + 2 ^ 64 := by omega
    rw [this, Nat.add_mod_right]
    exact Nat.mod_eq_of_lt (by omega)
  have hsub : substr (verb ++ ' ' :: (arg ++ [a, b])) (verb.length + 1) arg.length = arg := by
    unfold substr
    have hd : (verb ++ ' ' :: (arg ++ [a, b])).drop (verb.length + 1) = arg ++ [a, b] := by
      have e2 : verb ++ ' ' :: (arg ++ [a, b]) = (verb ++ [' ']) ++ (arg ++ [a, b]) := by simp
      rw [e2]
      exact List.drop_left' (by simp)
    rw [hd]
    exact List.take_left' rfl
  unfold parseCommandLine
  rw [parseLoop_at_space verb _ hv _ 0 (Nat.zero_le _) (Nat.sub_zero _).symm, hl, hm, hsub]

/-- The token of `body a b` when no character of it is a space. -/
theorem parseCommandLine_bare_any (body : Str) (a b : Char) (hs : ' ' ∉ body ++ [a, b])
    (hlen : body.length + 2 < 2 ^ 64) :
    parseCommandLine (body ++ [a, b]) = [body] := by
  unfold parseCommandLine
  rw [parseLoop_no_space _ hs (body ++ [a, b]).length 0 (Nat.zero_le _) (Nat.sub_zero _).symm]
  have hl : (body ++ [a, b]).length = body.length + 2 := by simp
  have hm : (body.length + 2 + 2 ^ 64 - 2) % 2 ^ 64 = body.length := by
    have : body.length + 2 + 2 ^ 64 - 2 = body.length + 2 ^ 64 := by omega
    rw [this, Nat.add_mod_right]
    exact Nat.mod_eq_of_lt (by omega)
  rw [hl, hm]
  simp [substr]

/-- C24: the tokenizer does not drop the last two bytes when the first space is one of
them.  On `TYPE SP LF` the tokens are `TYPE` and `LF` (the last byte), on `AB SP C` they
are `AB` and `C`, and on `ABC SP` the token is `ABC`, whose `C` is one of the last two
bytes: the length `input.size() - i - 3` wraps, and `substr(0, i)` reaches past
`input.size() - 2`.  When the first space comes before the last two bytes, or there is no
space at all, the tokens are taken from the input without its last two bytes, whatever
they are. -/
theorem parseCommandLine_last_two_bytes :
    parseCommandLine "TYPE \n".toList = ["TYPE".toList, "\n".toList] ∧
    parseCommandLine "AB C".toList = ["AB".toList, "C".toList] ∧
    parseCommandLine "ABC ".toList = ["ABC".toList] ∧
    (∀ (verb arg : Str) (a b : Char), ' ' ∉ verb → verb.length + arg.length + 3 < 2 ^ 64 →
      parseCommandLine (verb ++ " ".toList ++ arg ++ [a, b])
        = if arg ≠ [] then [verb, arg] else [verb]) ∧
    (∀ (body : Str) (a b : Char), ' ' ∉ body ++ [a, b] → body.length + 2 < 2 ^ 64 →
      parseCommandLine (body ++ [a, b]) = [body]) := by
  refine ⟨by decide, by decide, by decide, ?_, parseCommandLine_bare_any⟩
  intro verb arg a b hv hlen
  have e : verb ++ " ".toList ++ arg ++ [a, b] = verb ++ ' ' :: (arg ++ [a, b]) := by simp
  rw [e]
  exact parseCommandLine_pair_any verb arg a b hv hlen

/-! ## The lines of a listing: proofs -/

/-- C23: the line LIST emits for an entry is
`mode TAB nlink TAB size TAB time TAB name CR LF`, with a `mode` of ten characters (`d` or
`-` for the type, then `r`, `w`, `x` or `-` for the nine permission bits of user, group
and others), but `time` is the formatting of `st_ctime`, the time of the last status
change, not of the modification time: `st_mtime` is not read at all.  The records
`statEarly` and `statLate` agree on type, permissions, link count, size and modification
time and give different lines. -/
theorem listing_line :
    (∀ (host : Host) (nativePath d_name : Str) (fstat : Stat),
      d_name ≠ ".".toList → d_name ≠ "..".toList →
      host.stat (nativePath ++ "/".toList ++ d_name) = some fstat →
      listEntries host nativePath [d_name]
        = modeString fstat.st_mode ++ "\t".toList ++ to_string fstat.st_nlink ++ "\t".toList
          ++ intToStr fstat.st_size ++ "\t".toList ++ host.strftime fstat.st_ctime
          ++ "\t".toList ++ d_name ++ "\r\n".toList) ∧
    (∀ mode : Nat, (modeString mode).length = 10 ∧
      modeString mode
        = [ if mode &&& 0o170000 = 0o040000 then 'd' else '-',
            if mode &&& 0o400 ≠ 0 then 'r' else '-', if mode &&& 0o200 ≠ 0 then 'w' else '-',
            if mode &&& 0o100 ≠ 0 then 'x' else '-', if mode &&& 0o040 ≠ 0 then 'r' else '-',
            if mode &&& 0o020 ≠ 0 then 'w' else '-', if mode &&& 0o010 ≠ 0 then 'x' else '-',
            if mode &&& 0o004 ≠ 0 then 'r' else '-', if mode &&& 0o002 ≠ 0 then 'w' else '-',
            if mode &&& 0o001 ≠ 0 then 'x' else '-' ]) ∧
    (∀ (strftime : Int → Str) (fstat : Stat) (t : Int),
      printFileStat strftime { fstat with st_mtime := t } = printFileStat strftime fstat) ∧
    (statLate.st_mode = statEarly.st_mode ∧ statLate.st_nlink = statEarly.st_nlink
      ∧ statLate.st_size = statEarly.st_size ∧ statLate.st_mtime = statEarly.st_mtime) ∧
    printFileStat clockFormat statEarly = "-rw-r--r--\t1\t5\t0:0".toList ∧
    printFileStat clockFormat statLate = "-rw-r--r--\t1\t5\t1:0".toList ∧
    listEntries clockHost "/srv".toList ["f".toList]
      = "-rw-r--r--\t1\t5\t1:0\tf\r\n".toList := by
  refine ⟨?_, ?_, fun _ _ _ => rfl, by decide, by decide, by decide, by decide⟩
  · intro host nativePath d_name fstat h1 h2 hstat
    have hd : ¬ (d_name = ".".toList ∨ d_name = "..".toList) := by
      intro h
      rcases h with h | h
      · exact h1 h
      · exact h2 h
    rw [listEntries, if_neg hd]
    simp only [hstat, listEntries, printFileStat, List.append_nil]
  · intro mode
    refine ⟨rfl, ?_⟩
    simp only [modeString, permChar, S_ISDIR, S_IFMT, S_IFDIR, S_IRUSR, S_IWUSR, S_IXUSR,
      S_IRGRP, S_IWGRP, S_IXGRP, S_IROTH, S_IWOTH, S_IXOTH, decide_eq_true_eq]

/-! ## ASCII mode on text with CR LF line ends: proofs -/

theorem unlines_cr (texts : List Str) :
    unlines (texts.map (fun t => t ++ ['\r'])) = crlfText texts := by
  induction texts with
  | nil => rfl
  | cons t ts ih =>
    rw [List.map_cons, unlines, ih]
    simp [crlfText]

theorem writeAsciiMode_crlf (texts : List Str) (h : ∀ t ∈ texts, '\n' ∉ t) :
    (writeAsciiMode (IStream.ofContent (crlfText texts))).flatten = crlfText texts := by
  have hl : ∀ l ∈ texts.map (fun t => t ++ ['\r']), l ≠ [] ∧ '\n' ∉ l := by
    intro l hl
    obtain ⟨t, ht, rfl⟩ := List.mem_map.1 hl
    refine ⟨by simp, ?_⟩
    intro hm
    rcases List.mem_append.1 hm with hm | hm
    · exact h t ht hm
    · exact absurd (List.mem_singleton.1 hm) (by decide)
  rw [← unlines_cr, writeAsciiMode_lines _ hl, unlines_cr, List.map_map]
  have hf : ((fun l : Str => l.dropLast ++ "\r\n".toList) ∘ fun t : Str => t ++ ['\r'])
      = fun t : Str => t ++ "\r\n".toList := by
    funext t
    simp
  rw [hf]
  rfl

theorem openData_mode (host : Host) (d opened : FtpServerDTP)
    (h : d.openData host = some opened) : opened.transferMode = d.transferMode := by
  unfold FtpServerDTP.openData at h
  split at h <;> split at h <;> first
    | (cases h; rfl)
    | exact absurd h (by simp)

theorem dataBytes_transfer (e1 e2 : Str) (ws : List Str) :
    dataBytes ([Event.dataOpen, Event.ctrlWrite e1] ++ ws.map Event.dataWrite
      ++ [Event.dataClose, Event.ctrlWrite e2]) = ws.flatten := by
  have hdb : ∀ (ws : List Str) (tail : List Event),
      dataBytes (ws.map Event.dataWrite ++ tail) = ws.flatten ++ dataBytes tail := by
    intro ws tail
    induction ws with
    | nil => simp
    | cons w ws ih => simp [dataBytes, ih]
  show dataBytes (ws.map Event.dataWrite ++ [Event.dataClose, Event.ctrlWrite e2]) = _
  rw [hdb]
  simp [dataBytes]

theorem modeString_no_newline (mode : Nat) : '\n' ∉ modeString mode := by
  unfold modeString permChar
  intro h
  simp only [List.mem_cons, List.mem_singleton, List.not_mem_nil, or_false] at h
  rcases h with h | h | h | h | h | h | h | h | h | h <;>
    · split at h <;> exact absurd h (by decide)

theorem printFileStat_no_newline (strftime : Int → Str) (fstat : Stat)
    (hfmt : ∀ t : Int, '\n' ∉ strftime t) : '\n' ∉ printFileStat strftime fstat := by
  have hint : '\n' ∉ intToStr fstat.st_size := by
    cases hsz : fstat.st_size with
    | ofNat n => exact (to_string_noBreak n).2
    | negSucc n =>
      intro h
      rcases List.mem_cons.1 h with h | h
      · exact absurd h (by decide)
      · exact (to_string_noBreak (n + 1)).2 h
  unfold printFileStat
  simp only [List.mem_append, not_or]
  exact ⟨⟨⟨⟨⟨⟨modeString_no_newline _, by decide⟩, (to_string_noBreak _).2⟩, by decide⟩,
    hint⟩, by decide⟩, hfmt _⟩

theorem listEntries_shape (host : Host) (nativePath : Str)
    (hfmt : ∀ t : Int, '\n' ∉ host.strftime t) :
    ∀ entries : List Str, (∀ n ∈ entries, '\n' ∉ n) →
      ∃ texts : List Str, listEntries host nativePath entries = crlfText texts
        ∧ ∀ t ∈ texts, '\n' ∉ t := by
  intro entries
  induction entries with
  | nil => intro _; exact ⟨[], rfl, fun _ h => absurd h (List.not_mem_nil _)⟩
  | cons d_name rest ih =>
    intro hn
    obtain ⟨texts, he, ht⟩ := ih (fun n h => hn n (List.mem_cons_of_mem _ h))
    rw [listEntries]
    split
    · exact ⟨texts, he, ht⟩
    · split
      · next fstat _ =>
        refine ⟨(printFileStat host.strftime fstat ++ "\t".toList ++ d_name) :: texts, ?_, ?_⟩
        · rw [he]; simp [crlfText]
        · intro t hmem
          rcases List.mem_cons.1 hmem with h | h
          · rw [h]
            simp only [List.mem_append, not_or]
            exact ⟨⟨printFileStat_no_newline _ _ hfmt, by decide⟩,
              hn d_name (List.mem_cons_self _ _)⟩
          · exact ht t h
      · exact ⟨texts, he, ht⟩

theorem directoryList_shape (host : Host) (nativePath : Str)
    (hfmt : ∀ t : Int, '\n' ∉ host.strftime t)
    (hnames : ∀ entries : List Str, host.opendir nativePath = some entries →
      ∀ n ∈ entries, '\n' ∉ n)
    (hpath : '\n' ∉ nativePath) :
    ∃ texts : List Str, directoryList host nativePath = crlfText texts
      ∧ ∀ t ∈ texts, '\n' ∉ t := by
  unfold directoryList
  split
  · next entries ho => exact listEntries_shape host nativePath hfmt entries (hnames entries ho)
  · split
    · next fstat _ =>
      refine ⟨[printFileStat host.strftime fstat ++ "\t".toList ++ afterLastSlash nativePath],
        by simp [crlfText], ?_⟩
      intro t hmem
      rw [List.mem_singleton.1 hmem]
      simp only [List.mem_append, not_or]
      refine ⟨⟨printFileStat_no_newline _ _ hfmt, by decide⟩, ?_⟩
      intro h
      unfold afterLastSlash at h
      exact hpath (List.mem_reverse.1 ((List.takeWhile_prefix _).subset (List.mem_reverse.1 h)))
    · exact ⟨[], rfl, fun _ h => absurd h (List.not_mem_nil _)⟩

theorem writeData_crlf (d : FtpServerDTP) (texts : List Str) (h : ∀ t ∈ texts, '\n' ∉ t) :
    (d.writeData (IStream.ofContent (crlfText texts))).flatten = crlfText texts := by
  unfold FtpServerDTP.writeData
  split
  · exact writeBinaryMode_flatten _
  · exact writeAsciiMode_crlf texts h

theorem LIST_sends_listing (host : Host) (ftpPI : FtpServerPI) (args : List Str)
    (texts : List Str) (h : ∀ t ∈ texts, '\n' ∉ t)
    (hlist : directoryList host (nativePathOf ftpPI args) = crlfText texts)
    (hsetup : ftpPI.ftpDTP.connectSetup = true)
    (hopen : (ftpPI.ftpDTP.openData host).isSome = true)
    (hsend : host.sendFailsAt = none) :
    dataBytes (LISTCommand.execute host ftpPI args).2 = crlfText texts := by
  obtain ⟨opened, ho⟩ := Option.isSome_iff_exists.1 hopen
  have hok : (sendAll host.sendFailsAt
      (opened.writeData (IStream.ofContent (crlfText texts)))).2 = true := by
    rw [hsend]; rfl
  unfold nativePathOf at hlist
  unfold LISTCommand.execute
  dsimp only
  rw [hlist, sendOverData_complete host ftpPI _ _ _ opened hsetup ho hok]
  unfold writeCtrl
  rw [dataBytes_transfer]
  exact writeData_crlf opened texts h

/-- C26: ASCII mode is the identity on text with `CR LF` line ends.  For every source
made of lines that each end in `CR LF` and hold no other `LF`, `writeData` in ASCII mode
passes to the data socket exactly the bytes of the source, as it does in BINARY mode.  A
listing buffer has this shape when the formatted dates, the entry names and the path hold
no `LF`; a LIST whose buffer has this shape, whose data connection opens and whose writes
all succeed sends exactly the buffer in either mode, so the same bytes in ASCII mode and
in BINARY mode. -/
theorem ascii_identity_on_crlf (texts : List Str) (h : ∀ t ∈ texts, '\n' ∉ t) :
    (∀ d : FtpServerDTP, d.transferMode = TransferMode.ASCII →
      (d.writeData (IStream.ofContent (crlfText texts))).flatten = crlfText texts) ∧
    (∀ d : FtpServerDTP, d.transferMode = TransferMode.BINARY →
      (d.writeData (IStream.ofContent (crlfText texts))).flatten = crlfText texts) ∧
    (∀ (host : Host) (ascii binary : FtpServerPI) (args : List Str),
      ascii.ftpDTP.transferMode = TransferMode.ASCII →
      binary.ftpDTP.transferMode = TransferMode.BINARY →
      directoryList host (nativePathOf ascii args) = crlfText texts →
      directoryList host (nativePathOf binary args) = crlfText texts →
      ascii.ftpDTP.connectSetup = true → (ascii.ftpDTP.openData host).isSome = true →
      binary.ftpDTP.connectSetup = true → (binary.ftpDTP.openData host).isSome = true →
      host.sendFailsAt = none →
      dataBytes (LISTCommand.execute host ascii args).2 = crlfText texts ∧
      dataBytes (LISTCommand.execute host binary args).2
        = dataBytes (LISTCommand.execute host ascii args).2) ∧
    (∀ (host : Host) (nativePath : Str), (∀ t : Int, '\n' ∉ host.strftime t) →
      (∀ entries : List Str, host.opendir nativePath = some entries →
        ∀ n ∈ entries, '\n' ∉ n) →
      '\n' ∉ nativePath →
      ∃ lines : List Str, directoryList host nativePath = crlfText lines
        ∧ ∀ t ∈ lines, '\n' ∉ t) := by
  refine ⟨fun d _ => writeData_crlf d texts h, fun d _ => writeData_crlf d texts h, ?_,
    directoryList_shape⟩
  intro host ascii binary args _ _ hla hlb hsa hoa hsb hob hsend
  have ha := LIST_sends_listing host ascii args texts h hla hsa hoa hsend
  have hb := LIST_sends_listing host binary args texts h hlb hsb hob hsend
  exact ⟨ha, by rw [ha, hb]⟩

/-- Witness for C26: the listing of a regular file on `clockHost`, sent by a session in
ASCII mode and by one in BINARY mode. -/
theorem ascii_identity_on_crlf_witness :
    (FtpServerDTP.init.writeData
        (IStream.ofContent (crlfText ["-rw-r--r--\t1\t5\t1:0\tf".toList]))).flatten
      = crlfText ["-rw-r--r--\t1\t5\t1:0\tf".toList] ∧
    dataBytes (LISTCommand.execute clockHost asciiSession ["LIST".toList, "f".toList]).2
      = crlfText ["-rw-r--r--\t1\t5\t1:0\tf".toList] ∧
    dataBytes (LISTCommand.execute clockHost transferSession ["LIST".toList, "f".toList]).2
      = dataBytes (LISTCommand.execute clockHost asciiSession
          ["LIST".toList, "f".toList]).2 :=
  have h := ascii_identity_on_crlf ["-rw-r--r--\t1\t5\t1:0\tf".toList] (by decide)
  have h3 := h.2.2.1 clockHost asciiSession transferSession ["LIST".toList, "f".toList]
    rfl rfl (by decide) (by decide) rfl rfl rfl rfl rfl
  ⟨h.1 FtpServerDTP.init rfl, h3.1, h3.2⟩

end Ftp
